import Mathlib

/-!
# HipSTeR (`stcm7.go`): the trial controller, the recall scorer, the
learning-rate modulation and the drift chains

A shallow embedding of `Sim.AlphaCyc`, `Sim.MemStats`,
`ErrLrateModParams.LrateMod`, `Sim.TrainTrial`, `Sim.Config` with the end of
`Sim.ConfigNet`, the drift rates of `Sim.ConfigPats`, and the drift chain
generator that `ConfigPats` calls.

Conventions of the embedding.
* `LrateMod` and the mossy scale of `AlphaCyc` compute in `float32`:
  `Binary32` gives the rounded arithmetic (`LrateMod32`, `Binary32.subFin`).
  `LrateMod` over `ℚ` is the same function in exact arithmetic, against which
  the rounded one is compared.
* The other Go `float32` / `float64` values, which the code only assigns and
  compares, or which are small powers of two, are exact rationals (`ℚ`).
* The statistics stored by `MemStats` are quotients of two counts, and a
  quotient by zero is a value of the Go program (`NaN`, `+Inf`), so those
  fields have the type `F64`, which keeps the non-finite values.
* Go `int` values are `Int`; a counting loop `for i := 0; i < n; i++` runs
  `n.toNat` times.
* Every call `AlphaCyc` makes on the network engine is recorded, in order, in a
  trace of `Event`s, together with the pathway scales in force at that moment.
* `TrainTrial` and `Config` are recorded the same way; what the environment
  answers during a trial (epoch counter, end of run) is an input of the trial.
* The random generator of the drift chains is a shuffle function that is given
  its position and returns the next one.
-/

namespace HipSTeR

/-! ## `minmax.F32`

The range type of the etable library (`github.com/emer/etable/minmax`), which
`ErrLrateModParams` embeds. The library is not among the sources of the
repository; its four methods below are the ones `LrateMod` reaches. -/

namespace minmax

/-- The range type `minmax.F32`: a minimum and a maximum. -/
structure F32 where
  Min : ℚ
  Max : ℚ
  deriving DecidableEq, Repr

namespace F32

/-- Modelled from the spec: `minmax.F32.Range` is library code, not under src/.
Range returns `Max - Min`. -/
def Range (mr : F32) : ℚ := mr.Max - mr.Min

/-- Modelled from the spec: `minmax.F32.Scale` is library code, not under src/.
Scale returns `1 / Range`, and `0` when the range is `0`. -/
def Scale (mr : F32) : ℚ :=
  let r := mr.Range
  if r ≠ 0 then 1 / r else 0

/-- Modelled from the spec: `minmax.F32.ClipVal` is library code, not under
src/. ClipVal clips the given value within the `Min` / `Max` range. -/
def ClipVal (mr : F32) (val : ℚ) : ℚ :=
  if val < mr.Min then mr.Min
  else if val > mr.Max then mr.Max
  else val

/-- Modelled from the spec: `minmax.F32.NormVal` is library code, not under
src/. NormVal normalises the value to the 0-1 unit range relative to the
current `Min` / `Max` range (the linear interpolation between the two
thresholds); it clips the value within the range first. -/
def NormVal (mr : F32) (val : ℚ) : ℚ :=
  (mr.ClipVal val - mr.Min) * mr.Scale

end F32

end minmax

/-! ## `ErrLrateModParams` -/

/-- The parameters of the error-driven learning-rate modulation. -/
structure ErrLrateModParams where
  Base : ℚ
  Err : ℚ
  Range : minmax.F32
  deriving DecidableEq, Repr

namespace ErrLrateModParams

/-- LrateMod returns the learning rate modulation as a function of a
normalised error measure; here in exact arithmetic (`LrateMod32` below rounds
every operation to `float32`). -/
def LrateMod (em : ErrLrateModParams) (err : ℚ) : ℚ :=
  let lrm : ℚ :=
    if err < em.Range.Min then 0
    else if err > em.Range.Max then 1
    else em.Range.NormVal err
  let mod := em.Base + lrm * (1 - em.Base)
  mod

/-- Defaults sets `Base = 0.01`, `Err = 1` and the range `[0.65, 1.02]`. -/
def Defaults : ErrLrateModParams :=
  { Base := 1 / 100, Err := 1, Range := { Min := 65 / 100, Max := 102 / 100 } }

end ErrLrateModParams

/-! ## Go `float64` results of `MemStats` -/

/-- A Go `float64` as far as `MemStats` can tell values apart: a finite value,
an infinity, or `NaN`. -/
inductive F64 where
  | fin (q : ℚ)
  | posInf
  | negInf
  | nan
  deriving DecidableEq, Repr

namespace F64

/-- The Go comparison `x < y`: false as soon as one side is `NaN`. -/
def lt : F64 → F64 → Bool
  | fin a, fin b => decide (a < b)
  | fin _, posInf => true
  | negInf, fin _ => true
  | negInf, posInf => true
  | _, _ => false

/-- The Go comparison `x > y`. -/
def gt (x y : F64) : Bool := lt y x

/-- The Go division `x / y`; a zero divisor is `+0`, as every divisor of
`MemStats` is a count that started at `0.0`. -/
def div : F64 → F64 → F64
  | nan, _ => nan
  | _, nan => nan
  | fin a, fin b =>
    if b = 0 then (if a = 0 then nan else if 0 < a then posInf else negInf)
    else fin (a / b)
  | fin _, posInf => fin 0
  | fin _, negInf => fin 0
  | posInf, fin b => if 0 ≤ b then posInf else negInf
  | negInf, fin b => if 0 ≤ b then negInf else posInf
  | posInf, posInf => nan
  | posInf, negInf => nan
  | negInf, posInf => nan
  | negInf, negInf => nan

/-- A count held in a `float64` variable (`x := 0.0`, then `x += 1`). -/
def ofCount (n : Nat) : F64 := fin (n : ℚ)

end F64

/-! ## Go `float32` arithmetic

`LrateMod` and the mossy scales compute in `float32`. The functions below give
the values of IEEE 754 binary32 arithmetic with rounding to nearest, ties to
even, and gradual underflow. The sign of a zero is not kept: the code divides
only under the guard `r != 0`. -/

namespace Binary32

/-- The integer nearest to `q`; a tie goes to the even integer. -/
def roundEven (q : ℚ) : Int :=
  let f : Int := ⌊q⌋
  if q - f < 1 / 2 then f
  else if 1 / 2 < q - f then f + 1
  else if f % 2 = 0 then f else f + 1

/-- The exponent of the spacing of the `float32` values around `x`: 23 below
the binary exponent of `x` (24 significant bits), and never below -149 (the
subnormal values). -/
def quantum (x : ℚ) : Int := max (Int.log 2 |x| - 23) (-149)

/-- The `float32` value nearest to `x`, a tie going to the even significand,
as long as it is finite (magnitude below `2 ^ 128`). -/
def nearest (x : ℚ) : ℚ :=
  (roundEven (x / (2 : ℚ) ^ quantum x) : ℚ) * (2 : ℚ) ^ quantum x

/-- The `float32` difference `a - b` of two finite values, as long as it is
finite: a difference of magnitude `2 ^ 128` or more is an infinity in Go and is
not given by this function. -/
def subFin (a b : ℚ) : ℚ := nearest (a - b)

end Binary32

/-- A Go `float32`: a finite value, an infinity, or `NaN`. -/
inductive Binary32 where
  | fin (q : ℚ)
  | posInf
  | negInf
  | nan
  deriving DecidableEq, Repr

namespace Binary32

/-- The `float32` that an exact result `x` rounds to: the nearest value, or an
infinity when that value has magnitude `2 ^ 128` or more. -/
def ofRat (x : ℚ) : Binary32 :=
  let y := nearest x
  if (2 : ℚ) ^ 128 ≤ y then posInf
  else if y ≤ -(2 : ℚ) ^ 128 then negInf
  else fin y

/-- The Go negation `-x`. -/
def neg : Binary32 → Binary32
  | fin a => fin (-a)
  | posInf => negInf
  | negInf => posInf
  | nan => nan

/-- The Go addition `x + y`. -/
def add : Binary32 → Binary32 → Binary32
  | fin a, fin b => ofRat (a + b)
  | nan, _ => nan
  | _, nan => nan
  | posInf, negInf => nan
  | negInf, posInf => nan
  | posInf, _ => posInf
  | _, posInf => posInf
  | negInf, _ => negInf
  | _, negInf => negInf

/-- The Go subtraction `x - y`. -/
def sub : Binary32 → Binary32 → Binary32
  | fin a, fin b => ofRat (a - b)
  | x, y => add x (neg y)

/-- The Go multiplication `x * y`. -/
def mul : Binary32 → Binary32 → Binary32
  | fin a, fin b => ofRat (a * b)
  | nan, _ => nan
  | _, nan => nan
  | fin a, posInf => if a = 0 then nan else if 0 < a then posInf else negInf
  | fin a, negInf => if a = 0 then nan else if 0 < a then negInf else posInf
  | posInf, fin b => if b = 0 then nan else if 0 < b then posInf else negInf
  | negInf, fin b => if b = 0 then nan else if 0 < b then negInf else posInf
  | posInf, posInf => posInf
  | negInf, negInf => posInf
  | posInf, negInf => negInf
  | negInf, posInf => negInf

/-- The Go division `x / y`; a zero divisor counts as `+0`. -/
def div : Binary32 → Binary32 → Binary32
  | fin a, fin b =>
    if b = 0 then (if a = 0 then nan else if 0 < a then posInf else negInf)
    else ofRat (a / b)
  | nan, _ => nan
  | _, nan => nan
  | fin _, posInf => fin 0
  | fin _, negInf => fin 0
  | posInf, fin b => if 0 ≤ b then posInf else negInf
  | negInf, fin b => if 0 ≤ b then negInf else posInf
  | posInf, posInf => nan
  | posInf, negInf => nan
  | negInf, posInf => nan
  | negInf, negInf => nan

/-- The Go comparison `x < y`: false as soon as one side is `NaN`. -/
def lt : Binary32 → Binary32 → Bool
  | fin a, fin b => decide (a < b)
  | fin _, posInf => true
  | negInf, fin _ => true
  | negInf, posInf => true
  | _, _ => false

end Binary32

/-! ## `LrateMod` in `float32`

The functions of `minmax.F32` and `LrateMod` again, with every operation
rounded to `float32` as Go does (no fused multiply-add). The parameters and
the error are finite `float32` values, given by their exact value. -/

namespace minmax.F32

/-- Modelled from the spec: `minmax.F32.Range` is library code, not under src/.
Range returns `Max - Min`. -/
def Range32 (mr : F32) : Binary32 := Binary32.sub (.fin mr.Max) (.fin mr.Min)

/-- Modelled from the spec: `minmax.F32.Scale` is library code, not under src/.
Scale returns `1 / Range`, and `0` when the range is `0`. -/
def Scale32 (mr : F32) : Binary32 :=
  let r := mr.Range32
  if r ≠ .fin 0 then Binary32.div (.fin 1) r else .fin 0

/-- Modelled from the spec: `minmax.F32.NormVal` is library code, not under
src/. NormVal clips the value within the range and returns
`(ClipVal(val) - Min) * Scale()`. -/
def NormVal32 (mr : F32) (val : ℚ) : Binary32 :=
  Binary32.mul (Binary32.sub (.fin (mr.ClipVal val)) (.fin mr.Min)) mr.Scale32

end minmax.F32

namespace ErrLrateModParams

/-- LrateMod returns the learning rate modulation as a function of a
normalised error measure, in `float32`. -/
def LrateMod32 (em : ErrLrateModParams) (err : ℚ) : Binary32 :=
  let lrm : Binary32 :=
    if err < em.Range.Min then .fin 0
    else if err > em.Range.Max then .fin 1
    else em.Range.NormVal32 err
  let mod := Binary32.add (.fin em.Base) (Binary32.mul lrm (Binary32.sub (.fin 1) (.fin em.Base)))
  mod

/-- Defaults in `float32`: the constants `0.01`, `1`, `0.65` and `1.02`
converted to `float32`, as the assignments of `Defaults` do. -/
def Defaults32 : ErrLrateModParams :=
  { Base := Binary32.nearest (1 / 100), Err := 1,
    Range := { Min := Binary32.nearest (65 / 100), Max := Binary32.nearest (102 / 100) } }

end ErrLrateModParams

namespace evec

/-- The integer pair `evec.Vec2i`. -/
structure Vec2i where
  X : Int
  Y : Int
  deriving DecidableEq, Repr

end evec

/-- The fields of `HipParams` that `AlphaCyc` and `MemStats` read. -/
structure HipParams where
  ECPool : evec.Vec2i
  MossyDel : ℚ
  MossyDelTest : ℚ
  deriving DecidableEq, Repr

namespace emer

/-- The layer types `AlphaCyc` assigns to `ECout`, and the others. -/
inductive LayerType where
  | Hidden
  | Input
  | Target
  | Compare
  deriving DecidableEq, Repr

end emer

namespace leabra

/-- The time scales of display updates, in the order of `leabra.TimeScales`. -/
inductive TimeScales where
  | Cycle
  | FastSpike
  | Quarter
  | Phase
  | BetaCycle
  | AlphaCycle
  | ThetaCycle
  | Event
  | Trial
  | Tick
  | Sequence
  | Block
  | Condition
  | Epoch
  | Run
  | Expt
  | Scene
  | Episode
  deriving DecidableEq, Repr

/-- The integer value of a time scale (`iota` order). -/
def TimeScales.toNat : TimeScales → Nat
  | .Cycle => 0
  | .FastSpike => 1
  | .Quarter => 2
  | .Phase => 3
  | .BetaCycle => 4
  | .AlphaCycle => 5
  | .ThetaCycle => 6
  | .Event => 7
  | .Trial => 8
  | .Tick => 9
  | .Sequence => 10
  | .Block => 11
  | .Condition => 12
  | .Epoch => 13
  | .Run => 14
  | .Expt => 15
  | .Scene => 16
  | .Episode => 17

/-- The weight scaling parameters of a projection. -/
structure WtScaleParams where
  Abs : ℚ
  Rel : ℚ
  deriving DecidableEq, Repr

/-- The learning switch of a projection (`Learn.Learn`). -/
structure LearnSynParams where
  Learn : Bool
  deriving DecidableEq, Repr

/-- A projection, as far as `AlphaCyc` writes to it. -/
structure Prjn where
  WtScale : WtScaleParams
  Learn : LearnSynParams
  deriving DecidableEq, Repr

/-- A layer, as far as `AlphaCyc` and `MemStats` use it: its type and what
`UnitVal1D` returns for the variables `ActM`, `Targ` and `ActQ1` at a unit
index. The values are numbers: the layer has a unit at every index that is
read. -/
structure Layer where
  Typ : emer.LayerType
  ActM : Int → ℚ
  Targ : Int → ℚ
  ActQ1 : Int → ℚ

/-- The timing state: only the number of cycles per quarter is read. -/
structure Time where
  CycPerQtr : Int
  deriving DecidableEq, Repr

end leabra

/-- The layers and projections `AlphaCyc` looks up by name. -/
structure Network where
  ECin : leabra.Layer
  ECout : leabra.Layer
  ca1FmECin : leabra.Prjn
  ca1FmCa3 : leabra.Prjn
  ca3FmDg : leabra.Prjn
  ca3FmCa3 : leabra.Prjn
  ca3FmECin : leabra.Prjn
  DgFmECin : leabra.Prjn

/-- One call that `AlphaCyc` makes, on the engine, on the timing state or on
another method of `Sim`. `Cycle` records the loop indices and the pathway
scales in force when `Net.Cycle` runs: `CA1<-ECin WtScale.Abs`,
`CA1<-CA3 WtScale.Abs` and `CA3<-DG WtScale.Rel`. `LrateMult` is called with
`ErrLrMod.LrateMod(TrlEDCA3)`. `ApplyExtECout` is `ecin.UnitVals` into
`TmpVals` followed by `ecout.ApplyExt1D32(TmpVals)`. -/
inductive Event where
  | UpdateExtFlags
  | AlphaCycInit
  | AlphaCycStart
  | Cycle (qtr cyc : Nat) (ca1FmECinAbs ca1FmCa3Abs ca3FmDgRel : ℚ)
  | LogTstCyc
  | CycleInc
  | UpdateView (train : Bool)
  | GScaleFmAvgAct
  | InitGInc
  | ApplyExtECout
  | QuarterFinal
  | MemStats (train : Bool)
  | QuarterInc
  | TrialStats (train : Bool)
  | LrateMult
  | DWt
  | WtFmDWt
  | TstCycPlotGoUpdate
  deriving DecidableEq, Repr

/-- The fields of `Sim` that `AlphaCyc` and `MemStats` read or write, and the
trace of the calls made so far. `TstCycPlot` says whether the plot pointer is
non-nil. -/
structure Sim where
  Net : Network
  Hip : HipParams
  ErrLrMod : ErrLrateModParams
  Time : leabra.Time
  ViewOn : Bool
  TrainUpdt : leabra.TimeScales
  TestUpdt : leabra.TimeScales
  MemThr : F64
  edl : Int
  wpvc : Int
  cvcn : Int
  targortemp : Int
  lratemulton : Int
  ECtoDGnl : Int
  ECtoCA3nl : Int
  ECtoCA1nl : Int
  CA3toCA1nl : Int
  CA3toCA3nl : Int
  TrlEDCA3 : ℚ
  Mem : F64
  TrgOnWasOffAll : F64
  TrgOnWasOffCmp : F64
  TrgOffWasOn : F64
  TstCycPlot : Bool
  Trace : List Event

/-! ## `Sim.MemStats` -/

/-- The six `float64` counters of `MemStats`; each starts at `0.0` and only
ever grows by `1`, so each is a natural number. -/
structure MemCounts where
  trgOnWasOffAll : Nat
  trgOnWasOffCmp : Nat
  trgOffWasOn : Nat
  cmpN : Nat
  trgOnN : Nat
  trgOffN : Nat
  deriving DecidableEq, Repr

/-- The counters before the loop. -/
def MemCounts.zero : MemCounts :=
  { trgOnWasOffAll := 0, trgOnWasOffCmp := 0, trgOffWasOn := 0,
    cmpN := 0, trgOnN := 0, trgOffN := 0 }

/-- The body of the loop of `MemStats` for the unit `ni`. -/
def memStatsUnit (ecout ecin : leabra.Layer) (c : MemCounts) (ni : Int) : MemCounts :=
  let actm := ecout.ActM ni
  let trg := ecout.Targ ni
  let inact := ecin.ActQ1 ni
  if trg < 1 / 2 then
    let c := { c with trgOffN := c.trgOffN + 1 }
    if actm > 1 / 2 then { c with trgOffWasOn := c.trgOffWasOn + 1 } else c
  else
    let c := { c with trgOnN := c.trgOnN + 1 }
    if inact < 1 / 2 then
      let c := { c with cmpN := c.cmpN + 1 }
      if actm < 1 / 2 then
        { c with trgOnWasOffAll := c.trgOnWasOffAll + 1,
                 trgOnWasOffCmp := c.trgOnWasOffCmp + 1 }
      else c
    else
      if actm < 1 / 2 then { c with trgOnWasOffAll := c.trgOnWasOffAll + 1 } else c

/-- The units `ind1, ind1 + 1, ..., ind2 - 1` visited by
`for ni := ind1; ni < ind2; ni++`. -/
def window (ind1 ind2 : Int) : List Int :=
  (List.range (ind2 - ind1).toNat).map (fun k => ind1 + (k : Int))

/-- The first unit of the scored window. -/
def Sim.ind1 (ss : Sim) : Int :=
  if ss.targortemp = 2 then ss.wpvc * 2 * ss.Hip.ECPool.Y * ss.Hip.ECPool.X
  else ss.wpvc * ss.Hip.ECPool.Y * ss.Hip.ECPool.X

/-- The end (exclusive) of the scored window. -/
def Sim.ind2 (ss : Sim) : Int :=
  if ss.targortemp = 2 then (ss.wpvc + ss.cvcn) * 2 * ss.Hip.ECPool.Y * ss.Hip.ECPool.X
  else ss.wpvc * 2 * ss.Hip.ECPool.Y * ss.Hip.ECPool.X

/-- The counters after the loop of `MemStats`. -/
def Sim.memCounts (ss : Sim) : MemCounts :=
  (window ss.ind1 ss.ind2).foldl (memStatsUnit ss.Net.ECout ss.Net.ECin) MemCounts.zero

/-- MemStats computes ActM vs. Target on ECout with binary counts. The pair
`r` is (`ss.Mem`, `trgOnWasOffCmp`) after the `if train ... else ...`
statement; the three assignments at the end of the Go function follow. -/
def Sim.MemStats (ss : Sim) (train : Bool) : Sim :=
  let c := ss.memCounts
  let trgOnWasOffAll := F64.div (F64.ofCount c.trgOnWasOffAll) (F64.ofCount c.trgOnN)
  let trgOffWasOn := F64.div (F64.ofCount c.trgOffWasOn) (F64.ofCount c.trgOffN)
  let r : F64 × F64 :=
    if train then
      if F64.lt trgOnWasOffAll ss.MemThr && F64.lt trgOffWasOn ss.MemThr then
        (F64.fin 1, F64.ofCount c.trgOnWasOffCmp)
      else
        (F64.fin 0, F64.ofCount c.trgOnWasOffCmp)
    else
      if F64.gt (F64.ofCount c.cmpN) (F64.fin 0) then
        let trgOnWasOffCmp := F64.div (F64.ofCount c.trgOnWasOffCmp) (F64.ofCount c.cmpN)
        if F64.lt trgOnWasOffCmp ss.MemThr && F64.lt trgOffWasOn ss.MemThr then
          (F64.fin 1, trgOnWasOffCmp)
        else
          (F64.fin 0, trgOnWasOffCmp)
      else
        (ss.Mem, F64.ofCount c.trgOnWasOffCmp)
  { ss with Mem := r.1,
            TrgOnWasOffAll := trgOnWasOffAll,
            TrgOnWasOffCmp := r.2,
            TrgOffWasOn := trgOffWasOn }

/-! ### The scorer in the words of its description -/

/-- The number of units of the window that satisfy `p`. -/
def countWin (ind1 ind2 : Int) (p : Int → Bool) : Nat :=
  ((window ind1 ind2).filter p).length

/-- A target-OFF unit: `Targ < 0.5`. -/
def Sim.isTrgOff (ss : Sim) (ni : Int) : Bool := decide (ss.Net.ECout.Targ ni < 1 / 2)

/-- A target-ON unit: `Targ >= 0.5`. -/
def Sim.isTrgOn (ss : Sim) (ni : Int) : Bool := decide (ss.Net.ECout.Targ ni ≥ 1 / 2)

/-- A completion unit: target-ON and missing from the cue
(`Targ >= 0.5` and ECin `ActQ1 < 0.5`). -/
def Sim.isCmp (ss : Sim) (ni : Int) : Bool :=
  decide (ss.Net.ECout.Targ ni ≥ 1 / 2) && decide (ss.Net.ECin.ActQ1 ni < 1 / 2)

/-- A completion unit that ECout left off (`ActM < 0.5`). -/
def Sim.isCmpMiss (ss : Sim) (ni : Int) : Bool :=
  ss.isCmp ni && decide (ss.Net.ECout.ActM ni < 1 / 2)

/-- A target-ON unit that ECout left off (`ActM < 0.5`). -/
def Sim.isTrgOnMiss (ss : Sim) (ni : Int) : Bool :=
  ss.isTrgOn ni && decide (ss.Net.ECout.ActM ni < 1 / 2)

/-- A target-OFF unit that ECout turned on (`ActM > 0.5`). -/
def Sim.isFalseAlarm (ss : Sim) (ni : Int) : Bool :=
  ss.isTrgOff ni && decide (ss.Net.ECout.ActM ni > 1 / 2)

/-- The completion miss rate: missed completion units over completion units. -/
def Sim.cmpMissRate (ss : Sim) : ℚ :=
  (countWin ss.ind1 ss.ind2 ss.isCmpMiss : ℚ) / (countWin ss.ind1 ss.ind2 ss.isCmp : ℚ)

/-- The false-alarm rate: turned-on target-OFF units over target-OFF units. -/
def Sim.falseAlarmRate (ss : Sim) : ℚ :=
  (countWin ss.ind1 ss.ind2 ss.isFalseAlarm : ℚ) / (countWin ss.ind1 ss.ind2 ss.isTrgOff : ℚ)

/-! ## `Sim.AlphaCyc` -/

/-- Appends one call to the trace. -/
def Sim.emit (ss : Sim) (e : Event) : Sim := { ss with Trace := ss.Trace ++ [e] }

/-- The `if ss.ViewOn ...` statement inside the cycle loop. -/
def Sim.cycView (ss : Sim) (train : Bool) (viewUpdt : leabra.TimeScales) (cyc : Nat) : Sim :=
  if ss.ViewOn then
    match viewUpdt with
    | .Cycle =>
      if (cyc : Int) ≠ ss.Time.CycPerQtr - 1 then ss.emit (.UpdateView train) else ss
    | .FastSpike =>
      if (cyc + 1) % 10 = 0 then ss.emit (.UpdateView train) else ss
    | _ => ss
  else ss

/-- The body of the cycle loop, for cycle `cyc` of quarter `qtr`. -/
def Sim.cycleStep (train : Bool) (viewUpdt : leabra.TimeScales) (qtr : Nat)
    (ss : Sim) (cyc : Nat) : Sim :=
  let ss := ss.emit (.Cycle qtr cyc ss.Net.ca1FmECin.WtScale.Abs
    ss.Net.ca1FmCa3.WtScale.Abs ss.Net.ca3FmDg.WtScale.Rel)
  let ss := if !train then ss.emit .LogTstCyc else ss
  let ss := ss.emit .CycleInc
  ss.cycView train viewUpdt cyc

/-- The `switch qtr + 1` statement: the pathway scales of the quarter that
follows. -/
def Sim.qtrSwitch (ss : Sim) (train : Bool) (dgwtscale : ℚ) (qtr : Nat) : Sim :=
  if qtr + 1 = 1 then
    let net := ss.Net
    let net := { net with ca1FmECin := { net.ca1FmECin with
      WtScale := { net.ca1FmECin.WtScale with Abs := 0 } } }
    let net := { net with ca1FmCa3 := { net.ca1FmCa3 with
      WtScale := { net.ca1FmCa3.WtScale with Abs := 1 } } }
    let net :=
      if train then
        { net with ca3FmDg := { net.ca3FmDg with
          WtScale := { net.ca3FmDg.WtScale with Rel := dgwtscale } } }
      else
        { net with ca3FmDg := { net.ca3FmDg with
          WtScale := { net.ca3FmDg.WtScale with
            Rel := Binary32.subFin dgwtscale ss.Hip.MossyDelTest } } }
    let ss := { ss with Net := net }
    let ss := ss.emit .GScaleFmAvgAct
    ss.emit .InitGInc
  else if qtr + 1 = 3 then
    let net := ss.Net
    let net := { net with ca1FmECin := { net.ca1FmECin with
      WtScale := { net.ca1FmECin.WtScale with Abs := 1 } } }
    let net := { net with ca1FmCa3 := { net.ca1FmCa3 with
      WtScale := { net.ca1FmCa3.WtScale with Abs := 0 } } }
    let ss := { ss with Net := net }
    let ss := ss.emit .GScaleFmAvgAct
    let ss := ss.emit .InitGInc
    if train then ss.emit .ApplyExtECout else ss
  else ss

/-- The `if ss.ViewOn ...` statement at the end of a quarter. -/
def Sim.qtrView (ss : Sim) (train : Bool) (viewUpdt : leabra.TimeScales) (qtr : Nat) : Sim :=
  if ss.ViewOn then
    if viewUpdt.toNat ≤ leabra.TimeScales.Quarter.toNat then ss.emit (.UpdateView train)
    else if viewUpdt = .Phase then
      if qtr ≥ 2 then ss.emit (.UpdateView train) else ss
    else ss
  else ss

/-- The body of the quarter loop, for quarter `qtr`. -/
def Sim.quarterStep (train : Bool) (viewUpdt : leabra.TimeScales) (dgwtscale : ℚ)
    (ss : Sim) (qtr : Nat) : Sim :=
  let ss := (List.range ss.Time.CycPerQtr.toNat).foldl (Sim.cycleStep train viewUpdt qtr) ss
  let ss := ss.qtrSwitch train dgwtscale qtr
  let ss := ss.emit .QuarterFinal
  let ss := if qtr + 1 = 3 then ss.emit (.MemStats train) else ss
  let ss := ss.emit .QuarterInc
  ss.qtrView train viewUpdt qtr

/-- The statements of `AlphaCyc` that switch learning off per projection. -/
def Sim.setNoLearn (ss : Sim) : Sim :=
  let net := ss.Net
  let net := if ss.ECtoDGnl = 1 then
    { net with DgFmECin := { net.DgFmECin with Learn := { Learn := false } } } else net
  let net := if ss.ECtoCA3nl = 1 then
    { net with ca3FmECin := { net.ca3FmECin with Learn := { Learn := false } } } else net
  let net := if ss.ECtoCA1nl = 1 then
    { net with ca1FmECin := { net.ca1FmECin with Learn := { Learn := false } } } else net
  let net := if ss.CA3toCA1nl = 1 then
    { net with ca1FmCa3 := { net.ca1FmCa3 with Learn := { Learn := false } } } else net
  let net := if ss.CA3toCA3nl = 1 then
    { net with ca3FmCa3 := { net.ca3FmCa3 with Learn := { Learn := false } } } else net
  { ss with Net := net }

/-- The statements of `AlphaCyc` before the quarter loop, from
`ca1FmECin.WtScale.Abs = 1` on; `dgwtscale` is the value of
`ca3FmDg.WtScale.Rel` on entry. -/
def Sim.alphaStart (ss : Sim) (train : Bool) (dgwtscale : ℚ) : Sim :=
  let net := ss.Net
  let net := { net with ca1FmECin := { net.ca1FmECin with
    WtScale := { net.ca1FmECin.WtScale with Abs := 1 } } }
  let net := { net with ca1FmCa3 := { net.ca1FmCa3 with
    WtScale := { net.ca1FmCa3.WtScale with Abs := 0 } } }
  let net := if ss.edl = 1 then
    { net with ca3FmDg := { net.ca3FmDg with
      WtScale := { net.ca3FmDg.WtScale with
        Rel := Binary32.subFin dgwtscale ss.Hip.MossyDel } } }
    else net
  let net := if train then
    { net with ECout := { net.ECout with Typ := .Target } }
    else { net with ECout := { net.ECout with Typ := .Compare } }
  let ss := { ss with Net := net }
  let ss := ss.emit .UpdateExtFlags
  let ss := ss.emit .AlphaCycInit
  ss.emit .AlphaCycStart

/-- The statements of `AlphaCyc` after the quarter loop. -/
def Sim.alphaEnd (ss : Sim) (train : Bool) (viewUpdt : leabra.TimeScales)
    (dgwtscale : ℚ) : Sim :=
  let net := ss.Net
  let net := { net with ca3FmDg := { net.ca3FmDg with
    WtScale := { net.ca3FmDg.WtScale with Rel := dgwtscale } } }
  let net := { net with ca1FmCa3 := { net.ca1FmCa3 with
    WtScale := { net.ca1FmCa3.WtScale with Abs := 1 } } }
  let ss := { ss with Net := net }
  let ss := ss.emit (.TrialStats train)
  let ss :=
    if train then
      let ss := if ss.lratemulton = 0 then ss else ss.emit .LrateMult
      let ss := ss.emit .DWt
      ss.emit .WtFmDWt
    else ss
  let ss := if ss.ViewOn && decide (viewUpdt = .AlphaCycle) then ss.emit (.UpdateView train)
    else ss
  if !train then
    if ss.TstCycPlot then ss.emit .TstCycPlotGoUpdate else ss
  else ss

/-- AlphaCyc runs one alpha-cycle (100 msec, 4 quarters) of processing. -/
def Sim.AlphaCyc (ss : Sim) (train : Bool) : Sim :=
  let viewUpdt := if !train then ss.TestUpdt else ss.TrainUpdt
  let ss := ss.setNoLearn
  let dgwtscale := ss.Net.ca3FmDg.WtScale.Rel
  let ss := ss.alphaStart train dgwtscale
  let ss := (List.range 4).foldl (Sim.quarterStep train viewUpdt dgwtscale) ss
  ss.alphaEnd train viewUpdt dgwtscale

/-! ## The calls of `AlphaCyc`, listed, and what the statements observe -/

/-- The calls of the view statement inside the cycle loop. -/
def cycViewEvs (viewOn train : Bool) (viewUpdt : leabra.TimeScales) (cpq : Int)
    (cyc : Nat) : List Event :=
  if viewOn then
    match viewUpdt with
    | .Cycle => if (cyc : Int) ≠ cpq - 1 then [.UpdateView train] else []
    | .FastSpike => if (cyc + 1) % 10 = 0 then [.UpdateView train] else []
    | _ => []
  else []

/-- The calls of one pass through the body of the cycle loop. -/
def cycEvs (viewOn train : Bool) (viewUpdt : leabra.TimeScales) (cpq : Int)
    (a b r : ℚ) (qtr cyc : Nat) : List Event :=
  [.Cycle qtr cyc a b r] ++ (if train then [] else [.LogTstCyc]) ++ [.CycleInc]
    ++ cycViewEvs viewOn train viewUpdt cpq cyc

/-- The calls of the cycle loop of one quarter. -/
def cyclesEvs (viewOn train : Bool) (viewUpdt : leabra.TimeScales) (cpq : Int)
    (a b r : ℚ) (qtr : Nat) : List Event :=
  (List.range cpq.toNat).flatMap (cycEvs viewOn train viewUpdt cpq a b r qtr)

/-- The network after the `switch qtr + 1` statement. -/
def switchNet (net : Network) (train : Bool) (dgwtscale del : ℚ) (qtr : Nat) : Network :=
  if qtr + 1 = 1 then
    { net with
      ca1FmECin := { net.ca1FmECin with WtScale := { net.ca1FmECin.WtScale with Abs := 0 } },
      ca1FmCa3 := { net.ca1FmCa3 with WtScale := { net.ca1FmCa3.WtScale with Abs := 1 } },
      ca3FmDg := { net.ca3FmDg with WtScale := { net.ca3FmDg.WtScale with
        Rel := if train then dgwtscale else Binary32.subFin dgwtscale del } } }
  else if qtr + 1 = 3 then
    { net with
      ca1FmECin := { net.ca1FmECin with WtScale := { net.ca1FmECin.WtScale with Abs := 1 } },
      ca1FmCa3 := { net.ca1FmCa3 with WtScale := { net.ca1FmCa3.WtScale with Abs := 0 } } }
  else net

/-- The calls of the `switch qtr + 1` statement. -/
def switchEvs (train : Bool) (qtr : Nat) : List Event :=
  if qtr + 1 = 1 then [.GScaleFmAvgAct, .InitGInc]
  else if qtr + 1 = 3 then
    [.GScaleFmAvgAct, .InitGInc] ++ (if train then [.ApplyExtECout] else [])
  else []

/-- The calls of the view statement at the end of a quarter. -/
def qtrViewEvs (viewOn train : Bool) (viewUpdt : leabra.TimeScales) (qtr : Nat) : List Event :=
  if viewOn then
    if viewUpdt.toNat ≤ 2 then [.UpdateView train]
    else if viewUpdt = .Phase then (if qtr ≥ 2 then [.UpdateView train] else [])
    else []
  else []

/-- The calls of one quarter after its cycle loop. -/
def qtrTailEvs (viewOn train : Bool) (viewUpdt : leabra.TimeScales) (qtr : Nat) : List Event :=
  switchEvs train qtr ++ [.QuarterFinal] ++ (if qtr + 1 = 3 then [.MemStats train] else [])
    ++ [.QuarterInc] ++ qtrViewEvs viewOn train viewUpdt qtr

/-- The calls of `AlphaCyc` after the quarter loop. -/
def endEvs (viewOn train : Bool) (viewUpdt : leabra.TimeScales) (lratemulton : Int)
    (plot : Bool) : List Event :=
  [.TrialStats train]
    ++ (if train then (if lratemulton = 0 then [] else [.LrateMult]) ++ [.DWt, .WtFmDWt] else [])
    ++ (if viewOn && decide (viewUpdt = .AlphaCycle) then [.UpdateView train] else [])
    ++ (if train then [] else if plot then [.TstCycPlotGoUpdate] else [])

/-- The calls of one quarter: its cycle loop under the scales `a`, `b`, `r`,
then the end of the quarter. -/
def qtrEvs (ss : Sim) (train : Bool) (a b r : ℚ) (qtr : Nat) : List Event :=
  let vu := if train then ss.TrainUpdt else ss.TestUpdt
  cyclesEvs ss.ViewOn train vu ss.Time.CycPerQtr a b r qtr
    ++ qtrTailEvs ss.ViewOn train vu qtr

/-- The value of `ca3FmDg.WtScale.Rel` during the first quarter. -/
def Sim.dgRelQ1 (ss : Sim) : ℚ :=
  if ss.edl = 1 then Binary32.subFin ss.Net.ca3FmDg.WtScale.Rel ss.Hip.MossyDel
  else ss.Net.ca3FmDg.WtScale.Rel

/-- The value of `ca3FmDg.WtScale.Rel` during quarters two to four. -/
def Sim.dgRelQ234 (ss : Sim) (train : Bool) : ℚ :=
  if train then ss.Net.ca3FmDg.WtScale.Rel
  else Binary32.subFin ss.Net.ca3FmDg.WtScale.Rel ss.Hip.MossyDelTest

/-- All the calls of one `AlphaCyc`, in order. -/
def alphaEvents (ss : Sim) (train : Bool) : List Event :=
  [.UpdateExtFlags, .AlphaCycInit, .AlphaCycStart]
    ++ qtrEvs ss train 1 0 ss.dgRelQ1 0
    ++ qtrEvs ss train 0 1 (ss.dgRelQ234 train) 1
    ++ qtrEvs ss train 0 1 (ss.dgRelQ234 train) 2
    ++ qtrEvs ss train 1 0 (ss.dgRelQ234 train) 3
    ++ endEvs ss.ViewOn train (if train then ss.TrainUpdt else ss.TestUpdt)
        ss.lratemulton ss.TstCycPlot

/-- The network after the statements of `AlphaCyc` that follow the quarter
loop. -/
def endNet (net : Network) (dgwtscale : ℚ) : Network :=
  { net with
    ca3FmDg := { net.ca3FmDg with WtScale := { net.ca3FmDg.WtScale with Rel := dgwtscale } },
    ca1FmCa3 := { net.ca1FmCa3 with WtScale := { net.ca1FmCa3.WtScale with Abs := 1 } } }

/-- The network after the statements of `AlphaCyc` that precede the quarter
loop. -/
def startNet (net : Network) (train : Bool) (edl : Int) (dgwtscale del : ℚ) : Network :=
  { net with
    ECout := { net.ECout with Typ := if train then .Target else .Compare },
    ca1FmECin := { net.ca1FmECin with WtScale := { net.ca1FmECin.WtScale with Abs := 1 } },
    ca1FmCa3 := { net.ca1FmCa3 with WtScale := { net.ca1FmCa3.WtScale with Abs := 0 } },
    ca3FmDg := { net.ca3FmDg with WtScale := { net.ca3FmDg.WtScale with
      Rel := if edl = 1 then Binary32.subFin dgwtscale del else net.ca3FmDg.WtScale.Rel } } }

/-- What a cycle step shows of the two CA1 pathways: the quarter (counted from
`0`) and the pair (`CA1<-ECin WtScale.Abs`, `CA1<-CA3 WtScale.Abs`). -/
def Event.cycleScales : Event → Option (Nat × ℚ × ℚ)
  | .Cycle qtr _ a b _ => some (qtr, a, b)
  | _ => none

/-- The steps of a trial whose order the protocol fixes. -/
inductive Step where
  | cycle (qtr : Nat)
  | memStats
  | dwt
  | wtFmDWt
  deriving DecidableEq, Repr

/-- The protocol step a call stands for, if any. -/
def Event.step : Event → Option Step
  | .Cycle qtr _ _ _ _ => some (.cycle qtr)
  | .MemStats _ => some .memStats
  | .DWt => some .dwt
  | .WtFmDWt => some .wtFmDWt
  | _ => none

/-- The calls that update the weights: `Net.DWt` and `Net.WtFmDWt`. -/
def Event.isWeightUpdate : Event → Bool
  | .DWt => true
  | .WtFmDWt => true
  | _ => false

/-- Two states give `MemStats` the same inputs: the same ECout `ActM` and
`Targ`, the same ECin `ActQ1`, the same layout (`wpvc`, `cvcn`, pool size,
`targortemp`) and the same `MemThr`. -/
def MemInputsEq (a b : Sim) : Prop :=
  a.Net.ECout.ActM = b.Net.ECout.ActM ∧ a.Net.ECout.Targ = b.Net.ECout.Targ ∧
    a.Net.ECin.ActQ1 = b.Net.ECin.ActQ1 ∧ a.wpvc = b.wpvc ∧ a.cvcn = b.cvcn ∧
    a.Hip.ECPool = b.Hip.ECPool ∧ a.targortemp = b.targortemp ∧ a.MemThr = b.MemThr

/-- An example ECout layer: unit 2 is a target-ON unit that was recalled, every
other unit is target-OFF and stayed off. -/
def exECout : leabra.Layer where
  Typ := .Target
  ActM := fun ni => if ni = 2 then 9 / 10 else 1 / 10
  Targ := fun ni => if ni = 2 then 1 else 0
  ActQ1 := fun _ => 0

/-- An example ECin layer whose cue left every unit off. -/
def exECin : leabra.Layer where
  Typ := .Hidden
  ActM := fun _ => 0
  Targ := fun _ => 0
  ActQ1 := fun _ => 0

/-- An example projection. -/
def exPrjn : leabra.Prjn := { WtScale := { Abs := 1, Rel := 4 }, Learn := { Learn := true } }

/-- An example network. -/
def exNet : Network where
  ECin := exECin
  ECout := exECout
  ca1FmECin := exPrjn
  ca1FmCa3 := exPrjn
  ca3FmDg := exPrjn
  ca3FmCa3 := exPrjn
  ca3FmECin := exPrjn
  DgFmECin := exPrjn

/-- An example state: pools of 2 x 1 units, one word column, so that the
scored window is the units 2 and 3; the other settings are those of `New`. -/
def exSim : Sim where
  Net := exNet
  Hip := { ECPool := { X := 2, Y := 1 }, MossyDel := 4, MossyDelTest := 3 }
  ErrLrMod := ErrLrateModParams.Defaults
  Time := { CycPerQtr := 25 }
  ViewOn := true
  TrainUpdt := .AlphaCycle
  TestUpdt := .AlphaCycle
  MemThr := .fin (1 / 5)
  edl := 1
  wpvc := 1
  cvcn := 1
  targortemp := 1
  lratemulton := 0
  ECtoDGnl := 0
  ECtoCA3nl := 0
  ECtoCA1nl := 0
  CA3toCA1nl := 0
  CA3toCA3nl := 0
  TrlEDCA3 := 0
  Mem := .fin 0
  TrgOnWasOffAll := .fin 0
  TrgOnWasOffCmp := .fin 0
  TrgOffWasOn := .fin 0
  TstCycPlot := false
  Trace := []

/-- An example ECin layer whose cue already supplied unit 2. -/
def staleECin : leabra.Layer where
  Typ := .Hidden
  ActM := fun _ => 0
  Targ := fun _ => 0
  ActQ1 := fun ni => if ni = 2 then 1 else 0

/-- An example test trial without a completion unit: the only target-ON unit of
the window, unit 2, was supplied by the cue; `Mem` is 0 before the call. -/
def staleA : Sim := { exSim with Net := { exNet with ECin := staleECin } }

/-- The same test trial, entered with `Mem` equal to 1 (left there by the
trial before). -/
def staleB : Sim := { staleA with Mem := .fin 1 }

/-! ## What further statements observe of `AlphaCyc` -/

/-- The two calls whose order decides what `MemStats` scores against: the
clamp of ECout from ECin (`ApplyExt1D32`) and `MemStats`. -/
def Event.isClampOrMemStats : Event → Bool
  | .ApplyExtECout => true
  | .MemStats _ => true
  | _ => false

/-- What a cycle step shows of the mossy pathway: the loop index `qtr` and
`CA3<-DG WtScale.Rel`. -/
def Event.cycleDgRel : Event → Option (Nat × ℚ)
  | .Cycle qtr _ _ _ r => some (qtr, r)
  | _ => none

/-- An example ECout layer whose target is blank in the scored window: no
target-ON unit, and every unit stayed off. -/
def blankECout : leabra.Layer where
  Typ := .Target
  ActM := fun _ => 1 / 10
  Targ := fun _ => 0
  ActQ1 := fun _ => 0

/-- An example trial on a blank target: the window (units 2 and 3) has two
target-OFF units, both left off, and no target-ON unit. -/
def blankSim : Sim := { exSim with Net := { exNet with ECout := blankECout } }

/-! ## `Sim.Config` and the end of `Sim.ConfigNet` -/

/-- One call made by `Config` or by `ConfigNet`. `NetTopology` stands for the
calls of `ConfigNet` from `net.InitName` to `ca1.SetThread(3)` (layers,
positions, projections, threads); `LogPrintln` is `log.Println(err)`. -/
inductive ConfigEvent where
  | ConfigPats
  | ConfigEnv
  | NetTopology
  | NetDefaults
  | SetParams
  | NetBuild
  | LogPrintln (err : String)
  | InitWts
  | ConfigTrnTrlLog
  | ConfigTrnEpcLog
  | ConfigTstEpcLog
  | ConfigTstTrlLog
  | ConfigTstCycLog
  | ConfigRunLog
  deriving DecidableEq, Repr

/-- ConfigNet, given what `net.Build()` returns (`none` for a nil error): the
calls it makes, in order. The Go function has no result. -/
def ConfigNet (buildErr : Option String) : List ConfigEvent :=
  let calls := [ConfigEvent.NetTopology, .NetDefaults, .SetParams, .NetBuild]
  match buildErr with
  | some err => calls ++ [.LogPrintln err]
  | none => calls ++ [.InitWts]

/-- Config configures all the elements using the standard functions; the calls
it makes, in order, given what `net.Build()` returns inside `ConfigNet`. -/
def Config (buildErr : Option String) : List ConfigEvent :=
  [ConfigEvent.ConfigPats, .ConfigEnv] ++ ConfigNet buildErr
    ++ [.ConfigTrnTrlLog, .ConfigTrnEpcLog, .ConfigTstEpcLog, .ConfigTstTrlLog,
        .ConfigTstCycLog, .ConfigRunLog]

/-- The calls that configure a log. -/
def ConfigEvent.isLogConfig : ConfigEvent → Bool
  | .ConfigTrnTrlLog => true
  | .ConfigTrnEpcLog => true
  | .ConfigTstEpcLog => true
  | .ConfigTstTrlLog => true
  | .ConfigTstCycLog => true
  | .ConfigRunLog => true
  | _ => false

/-! ## The drift rates of `Sim.ConfigPats` -/

/-- The across-list drift rate `drv` that the pool loop of `ConfigPats` computes
for pool `i`, with `drf = 2`; `math.Pow(drf, float64(e))` is `2 ^ e`. -/
def drv (spect_type cvcn : Int) (i : Nat) : ℚ :=
  if spect_type = 1 then 1 / (2 : ℚ) ^ ((i : Int) + 2)
  else if spect_type = 2 then 1 / (2 : ℚ) ^ (2 : Int)
  else if spect_type = 3 then 1 / (2 : ℚ) ^ (cvcn + 2)
  else if spect_type = 4 then 1 / (2 : ℚ) ^ (cvcn * 2 + 2)
  else if spect_type = 5 then 1 / (105 / 100 : ℚ) ^ ((i : Int) + 1)
  else 0

/-- The within-list drift rate `drvL := drv / float32(math.Pow(drf, 2))`. -/
def drvL (spect_type cvcn : Int) (i : Nat) : ℚ :=
  drv spect_type cvcn i / (2 : ℚ) ^ (2 : Int)

/-- The pairs (`drv`, `drvL`) of the pool loop
`for i := 0; i < cvcn*2; i++`, in order. -/
def driftRates (spect_type cvcn : Int) : List (ℚ × ℚ) :=
  (List.range (cvcn * 2).toNat).map (fun i => (drv spect_type cvcn i, drvL spect_type cvcn i))

/-! ## `Sim.TrainTrial` -/

/-- The pattern tables that `TrainTrial` and `NewRun` bind to
`TrainEnv.Table` (through `etable.NewIdxView`), and the other tables of `Sim`
that may be bound on entry. -/
inductive PatTable where
  | TrainAB
  | TrainAB2
  | TrainAB3
  | TrainAB4
  | TrainAB5
  | TrainAB6
  | TrainABnc
  | TrainAC
  | TrainAll
  deriving DecidableEq, Repr

/-- One call that `TrainTrial` makes. `ApplyInputs` and `ApplyInputsNC` record
the table bound to `TrainEnv` when they read its state; `Step` is
`TrainEnv.Step()`; `RunIncr` is `TrainEnv.Run.Incr()`. -/
inductive TrialEvent where
  | NewRun
  | Step
  | LogTrnEpc
  | UpdateView (train : Bool)
  | TestAll
  | SetTrialName
  | SetGroupName
  | RunEnd
  | RunIncr
  | InitActs
  | InitExt
  | ApplyInputs (table : PatTable)
  | ApplyInputsNC (table : PatTable)
  | AlphaCyc (train : Bool)
  | LogTrnTrl
  deriving DecidableEq, Repr

/-- What the environment answers during one `TrainTrial`: the epoch counter and
its changed flag returned by `TrainEnv.Counter(env.Epoch)` after the step, the
result of `TrainEnv.Run.Incr()`, and whether a `TestTrial` inside `TestAll` met
its condition `epc >= ss.MaxEpcs` (on the test epoch counter), under which it
assigns `ss.Cycs = 1` when `ttrav > 0`. -/
structure TrialOracle where
  epc : Int
  chg : Bool
  runDone : Bool
  tstAtMax : Bool
  deriving DecidableEq, Repr

/-- The fields of `Sim` that `TrainTrial` reads or writes, with
`TrainEnv.Table` as `Table`, and the trace of the calls made so far. -/
structure TrainSim where
  NeedsNewRun : Bool
  StopNow : Bool
  ViewOn : Bool
  TrainUpdt : leabra.TimeScales
  TestInterval : Int
  MaxEpcs : Int
  pfix : String
  drifttype : Int
  driftbetween : Int
  edl : Int
  edlval : Int
  runnum : Int
  Cycs : Int
  CycsMultC : Int
  ttrav : Int
  Table : PatTable
  Trace : List TrialEvent

/-- Appends one call to the trace. -/
def TrainSim.emit (ts : TrainSim) (e : TrialEvent) : TrainSim :=
  { ts with Trace := ts.Trace ++ [e] }

/-- NewRun, as far as `TrainTrial` depends on it: it calls `ConfigPats`, which
sets `driftbetween` to 0 for `drifttype == 0` and to 2 for `drifttype == 10`,
binds `TrainAB` to `TrainEnv`, and clears `NeedsNewRun`. -/
def TrainSim.NewRun (ts : TrainSim) : TrainSim :=
  let ts := ts.emit .NewRun
  let ts :=
    if ts.drifttype = 0 then { ts with driftbetween := 0 }
    else if ts.drifttype = 10 then { ts with driftbetween := 2 }
    else ts
  { ts with Table := .TrainAB, NeedsNewRun := false }

/-- TestAll, as far as `TrainTrial` depends on it: its `TestTrial`s assign
`ss.Cycs = 1` when `ss.ttrav > 0 && epc >= ss.MaxEpcs`. -/
def TrainSim.TestAll (ts : TrainSim) (o : TrialOracle) : TrainSim :=
  let ts := ts.emit .TestAll
  if ts.ttrav > 0 && o.tstAtMax then { ts with Cycs := 1 } else ts

/-- The `if ss.driftbetween > 0 ... else ...` statement of an epoch change,
which `TrainTrial` has once for `pfix == "fcurve/"` and once for the other
prefixes. -/
def TrainSim.switchTable (ts : TrainSim) (epc : Int) : TrainSim :=
  if ts.driftbetween > 0 then
    if epc = 0 then { ts with edl := ts.edlval }
    else if epc = 1 then { ts with Table := .TrainAB2 }
    else if epc = 2 then { ts with Table := .TrainAB3 }
    else if epc = 3 then { ts with Table := .TrainAB4 }
    else if epc = 4 then { ts with Table := .TrainAB5 }
    else if epc = 5 then { ts with Table := .TrainAB6 }
    else ts
  else
    if epc = 0 then { ts with edl := ts.edlval } else ts

/-- The statements of the `if chg` block before its check of `MaxEpcs`. -/
def TrainSim.epochChange (ts : TrainSim) (o : TrialOracle) : TrainSim :=
  let ts := ts.emit .LogTrnEpc
  let ts :=
    if ts.ViewOn && decide (ts.TrainUpdt.toNat > leabra.TimeScales.AlphaCycle.toNat) then
      ts.emit (.UpdateView true)
    else ts
  let ts :=
    if ts.TestInterval > 0 && decide (o.epc % ts.TestInterval = 0) then ts.TestAll o else ts
  let ts :=
    if ts.pfix = "fcurve/" then
      let ts := ts.switchTable o.epc
      let ts := ts.emit .SetTrialName
      ts.emit .SetGroupName
    else ts
  if ts.pfix ≠ "fcurve/" then ts.switchTable o.epc else ts

/-- The end of a run: the body of `if epc >= ss.MaxEpcs || ss.MaxEpcs == 0`,
after which `TrainTrial` returns. -/
def TrainSim.runEnd (ts : TrainSim) (o : TrialOracle) : TrainSim :=
  let ts := ts.emit .RunEnd
  let ts := ts.emit .RunIncr
  if o.runDone then { ts with StopNow := true }
  else { ts with runnum := ts.runnum + 1, NeedsNewRun := true }

/-- Whether this call ends the run and returns before the replay loop. -/
def TrainSim.returnsEarly (ts : TrainSim) (o : TrialOracle) : Bool :=
  o.chg && (decide (o.epc ≥ ts.MaxEpcs) || decide (ts.MaxEpcs = 0))

/-- The value of the local `solonc`: 1 when `ss.ttrav == 3 && epc > 0`. -/
def TrainSim.solonc (ts : TrainSim) (o : TrialOracle) : Int :=
  if ts.ttrav = 3 ∧ o.epc > 0 then 1 else 0

/-- The two statements that set `ss.Cycs` before the replay loop. -/
def TrainSim.setCycs (ts : TrainSim) (o : TrialOracle) : TrainSim :=
  let ts := if ts.ttrav > 0 ∧ o.epc > 0 then { ts with Cycs := 2 } else ts
  if ts.ttrav = 3 ∧ o.epc > 0 then { ts with Cycs := 1 } else ts

/-- The body of the replay loop `for i := 0; i < ss.Cycs; i++`. -/
def TrainSim.replayPass (solonc : Int) (ts : TrainSim) (i : Nat) : TrainSim :=
  let temptable := ts.Table
  let ts :=
    if i = 0 then
      if solonc = 0 then
        let ts := ts.emit .InitActs
        ts.emit (.ApplyInputs ts.Table)
      else
        let ts := ts.emit .InitExt
        let ts := { ts with Table := .TrainABnc }
        ts.emit (.ApplyInputsNC ts.Table)
    else
      let ts := ts.emit .InitExt
      let ts :=
        if ts.CycsMultC = 0 then { ts with Table := .TrainABnc }
        else if ts.CycsMultC = 1 then { ts with Table := .TrainAB }
        else ts
      ts.emit (.ApplyInputsNC ts.Table)
  let ts := ts.emit (.AlphaCyc true)
  if ts.Cycs > 1 then
    if (i : Int) = ts.Cycs - 1 then { ts with Table := temptable } else ts
  else ts

/-- The statements of `TrainTrial` down to the end of the `if chg` block, its
check of `MaxEpcs` apart: the optional `NewRun`, the step, the epoch change. -/
def TrainSim.afterStep (ts : TrainSim) (o : TrialOracle) : TrainSim :=
  let ts := if ts.NeedsNewRun then ts.NewRun else ts
  let ts := ts.emit .Step
  if o.chg then ts.epochChange o else ts

/-- The state when the replay loop is entered. -/
def TrainSim.beforeLoop (ts : TrainSim) (o : TrialOracle) : TrainSim :=
  (ts.afterStep o).setCycs o

/-- The replay loop. -/
def TrainSim.replayLoop (ts : TrainSim) (solonc : Int) : TrainSim :=
  (List.range ts.Cycs.toNat).foldl (TrainSim.replayPass solonc) ts

/-- The statements of `TrainTrial` after the replay loop. -/
def TrainSim.afterLoop (ts : TrainSim) (o : TrialOracle) : TrainSim :=
  let ts := if ts.ttrav > 0 ∧ o.epc ≥ ts.MaxEpcs then { ts with Cycs := 1 } else ts
  ts.emit .LogTrnTrl

/-- TrainTrial runs one trial of training using TrainEnv. -/
def TrainSim.TrainTrial (ts : TrainSim) (o : TrialOracle) : TrainSim :=
  let ts := ts.afterStep o
  if ts.returnsEarly o then ts.runEnd o
  else
    let solonc := ts.solonc o
    let ts := ts.setCycs o
    let ts := ts.replayLoop solonc
    ts.afterLoop o

/-- The steps of a training trial that the trial count depends on. -/
inductive TrialStep where
  | step
  | alphaCyc
  | logTrnTrl
  deriving DecidableEq, Repr

/-- The step a call of `TrainTrial` stands for, if any. -/
def TrialEvent.trialStep : TrialEvent → Option TrialStep
  | .Step => some .step
  | .AlphaCyc _ => some .alphaCyc
  | .LogTrnTrl => some .logTrnTrl
  | _ => none

/-- From `a` the call sequence leads to `b`: `b` has the trace of `a` followed
by further calls, whose trial steps are `steps`, and the same `ttrav` and
`MaxEpcs`. -/
def TrainSim.Reaches (a b : TrainSim) (steps : List TrialStep) : Prop :=
  b.ttrav = a.ttrav ∧ b.MaxEpcs = a.MaxEpcs ∧
    ∃ evs, b.Trace = a.Trace ++ evs ∧ evs.filterMap TrialEvent.trialStep = steps

/-- An example state of a training run: the settings of `New` and `ConfigEnv`
(one cycle per trial, context imposed, five epochs), bound to `TrainAB`. -/
def exTrain : TrainSim where
  NeedsNewRun := false
  StopNow := false
  ViewOn := true
  TrainUpdt := .AlphaCycle
  TestInterval := 1
  MaxEpcs := 5
  pfix := "fcurve/"
  drifttype := 1
  driftbetween := 1
  edl := 1
  edlval := 1
  runnum := 0
  Cycs := 1
  CycsMultC := 1
  ttrav := 0
  Table := .TrainAB
  Trace := []

/-- The example state in the experiments with `ttrav = 3` (one learning cycle,
no imposed temporal context). -/
def exTrav3 : TrainSim := { exTrain with ttrav := 3 }

/-- The example state in the experiments with `ttrav = 1` (a second cycle
without context: `CycsMultC = 0`). -/
def exTrav1 : TrainSim := { exTrain with ttrav := 1, CycsMultC := 0 }

/-- A trial in the middle of epoch 1: the epoch counter did not change. -/
def midEpoch1 : TrialOracle := { epc := 1, chg := false, runDone := false, tstAtMax := false }

/-! ## The drift chain generator `patgen.AddVocabDrift`

The package `github.com/emer/emergent/patgen` is not among the sources of the
repository; `ConfigPats` only calls it. The generator below follows the
description of the drift chain: each vector is the previous one with equal
numbers of on-to-off and off-to-on flips, the number being the share `r` of the
active components, and the positions being drawn by the random generator. -/

namespace patgen

/-- Modelled from the spec: the random generator of `patgen` is missing from
src/. A shuffle takes the position of the generator and a list of component
indices, and returns the list in the drawn order with the new position. -/
def Shuffle (σ : Type) : Type := σ → List Nat → List Nat × σ

/-- Modelled from the spec: a shuffle only reorders the indices it is given. -/
def Shuffle.IsPerm {σ : Type} (sh : Shuffle σ) : Prop :=
  ∀ (g : σ) (l : List Nat), List.Perm (sh g l).1 l

/-- Modelled from the spec: `patgen.NOnInTensor` is missing from src/. The
number of active components of a binary vector. -/
def NOn (v : List Bool) : Nat := v.count true

/-- Modelled from the spec: the active components of a vector, by index. -/
def onIdx (v : List Bool) : List Nat :=
  (List.range v.length).filter (fun i => v.getD i false)

/-- Modelled from the spec: the inactive components of a vector, by index. -/
def offIdx (v : List Bool) : List Nat :=
  (List.range v.length).filter (fun i => !(v.getD i false))

/-- Modelled from the spec: the number of components to flip in one step, "a
number of components proportional to `r`": the share `r` of the active
components, rounded. -/
def nDrift (r : ℚ) (v : List Bool) : Nat := (round (r * (NOn v : ℚ))).toNat

/-- Modelled from the spec: `patgen.FlipBits` is missing from src/. It flips
"equal numbers of on->off and off->on bits": `n` of each, or as many as both
kinds allow, at the positions the generator draws first. -/
def FlipBits {σ : Type} (sh : Shuffle σ) (g : σ) (v : List Bool) (n : Nat) : List Bool × σ :=
  let ons := sh g (onIdx v)
  let offs := sh ons.2 (offIdx v)
  let k := min n (min (onIdx v).length (offIdx v).length)
  let toOff := ons.1.take k
  let toOn := offs.1.take k
  ((List.range v.length).map (fun i =>
      if i ∈ toOff then false else if i ∈ toOn then true else v.getD i false),
    offs.2)

/-- Modelled from the spec: one step of the drift, from the current vector, the
rate and the position of the random generator. -/
def driftStep {σ : Type} (sh : Shuffle σ) (r : ℚ) (v : List Bool) (g : σ) : List Bool × σ :=
  FlipBits sh g v (nDrift r v)

/-- Modelled from the spec: the `n` vectors that follow `v` in a chain, and the
position of the random generator after them. -/
def driftRows {σ : Type} (sh : Shuffle σ) (r : ℚ) : Nat → List Bool → σ → List (List Bool) × σ
  | 0, _, g => ([], g)
  | n + 1, v, g =>
    let s := driftStep sh r v g
    let rest := driftRows sh r n s.1 s.2
    (s.1 :: rest.1, rest.2)

/-- Modelled from the spec: `patgen.AddVocabDrift` is missing from src/. A chain
of `rows` vectors at rate `r`: the seed row is the first vector and the drift
starts in the second one; with the position of the random generator after the
chain. -/
def AddVocabDrift {σ : Type} (sh : Shuffle σ) (rows : Nat) (r : ℚ) (seed : List Bool) (g : σ) :
    List (List Bool) × σ :=
  match rows with
  | 0 => ([], g)
  | n + 1 =>
    let rest := driftRows sh r n seed g
    (seed :: rest.1, rest.2)

/-- An example generator: its position is a counter, and a shuffle rotates the
list by the counter and advances it. -/
def rotShuffle : Shuffle Nat := fun g l => (l.rotate g, g + 1)

/-- An example seed row: 6 components, 2 of them active. -/
def exSeed : List Bool := [true, false, false, true, false, false]

end patgen

/-! ## A degenerate modulation range -/

/-- The default parameters with the range collapsed to the single point
`0.5`. -/
def degenerateMod : ErrLrateModParams :=
  { Base := 1 / 100, Err := 1, Range := { Min := 1 / 2, Max := 1 / 2 } }

/-! ## The scored window of `MemStats` -/

/-- Two states agree on the scored window: the same layout (`wpvc`, `cvcn`,
pool size, `targortemp`), the same `MemThr`, and the same ECout `ActM`, ECout
`Targ` and ECin `ActQ1` at every unit of the window. Nothing is asked of the
units outside the window. -/
def WindowInputsEq (a b : Sim) : Prop :=
  a.wpvc = b.wpvc ∧ a.cvcn = b.cvcn ∧ a.Hip.ECPool = b.Hip.ECPool ∧
    a.targortemp = b.targortemp ∧ a.MemThr = b.MemThr ∧
    ∀ ni ∈ window a.ind1 a.ind2,
      a.Net.ECout.ActM ni = b.Net.ECout.ActM ni ∧ a.Net.ECout.Targ ni = b.Net.ECout.Targ ni ∧
        a.Net.ECin.ActQ1 ni = b.Net.ECin.ActQ1 ni

/-- An ECout layer that differs from `exECout` at the cue-slot units 0 and 1
only: there the target is on and ECout is fully active. -/
def outsideECout : leabra.Layer where
  Typ := .Target
  ActM := fun ni => if ni = 0 ∨ ni = 1 then 1 else exECout.ActM ni
  Targ := fun ni => if ni = 0 ∨ ni = 1 then 1 else exECout.Targ ni
  ActQ1 := fun _ => 0

/-- An ECin layer that differs from `exECin` at the cue-slot units 0 and 1
only: there the cue was on in the first quarter. -/
def outsideECin : leabra.Layer where
  Typ := .Hidden
  ActM := fun _ => 0
  Targ := fun _ => 0
  ActQ1 := fun ni => if ni = 0 ∨ ni = 1 then 1 else 0

/-- The example state with the cue-slot units changed; the scored window
(units 2 and 3) holds what it holds in `exSim`. -/
def outsideSim : Sim := { exSim with Net := { exNet with ECin := outsideECin, ECout := outsideECout } }

/-! ## An epoch change of `TrainTrial` -/

/-- A trial whose step starts epoch `epc`: the epoch counter changed, the run
does not end in `Run.Incr`, no test trial is past `MaxEpcs`. -/
def epochStart (epc : Int) : TrialOracle :=
  { epc := epc, chg := true, runDone := false, tstAtMax := false }

/-- The example state in a run without drift between the epochs, with a prefix
other than `fcurve/`. -/
def exNoDrift : TrainSim := { exTrain with driftbetween := 0, pfix := "sp/" }

/-! ## A training trial that misses its completion units -/

/-- An ECout layer whose target is on at every unit and whose activity stayed
low: every unit is a target-ON unit that ECout left off. -/
def missECout : leabra.Layer where
  Typ := .Target
  ActM := fun _ => 1 / 10
  Targ := fun _ => 1
  ActQ1 := fun _ => 0

/-- An example trial with two completion units (the units 2 and 3 of the
window; the cue of `exECin` supplied neither), both missed. -/
def missSim : Sim := { exSim with Net := { exNet with ECout := missECout } }

/-! ## The zero-error counters of `Sim` -/

/-- The fields `NZeroStop`, `FirstZero` and `NZero` of `Sim`. -/
structure ZeroStats where
  NZeroStop : Int
  FirstZero : Int
  NZero : Int
  deriving DecidableEq, Repr

/-- InitStats, as far as these fields go: `FirstZero = -1`, `NZero = 0`. -/
def ZeroStats.InitStats (z : ZeroStats) : ZeroStats :=
  { z with FirstZero := -1, NZero := 0 }

/-- The statements of `LogTstEpc` on these fields; `epc` is
`TrainEnv.Epoch.Prv` and `mem` the cell `AB Mem` (or `AC Mem`) of the log row
of this test epoch. -/
def ZeroStats.LogTstEpc (z : ZeroStats) (epc : Int) (mem : ℚ) : ZeroStats :=
  let z := if z.FirstZero < 0 ∧ mem = 1 then { z with FirstZero := epc } else z
  if mem = 1 then { z with NZero := z.NZero + 1 } else { z with NZero := 0 }

/-- What one `TrainTrial` does to the zero-error counters: `NewRun`, when it
runs, resets them through `InitStats`; `TestAll`, when the epoch change runs
it, ends in `LogTstEpc`. No statement of `TrainTrial` reads `NZeroStop` or
`NZero`: `NZeroStop` is assigned in `ConfigEnv` and read nowhere. -/
def TrainSim.zeroStats (ts : TrainSim) (o : TrialOracle) (z : ZeroStats) (prv : Int)
    (mem : ℚ) : ZeroStats :=
  let z := if ts.NeedsNewRun then z.InitStats else z
  if o.chg && (decide (ts.TestInterval > 0) && decide (o.epc % ts.TestInterval = 0)) then
    z.LogTstEpc prv mem
  else z

/-- The counters at the start of a run, with `NZeroStop = 1` as `ConfigEnv`
sets it. -/
def exZero : ZeroStats := { NZeroStop := 1, FirstZero := -1, NZero := 0 }

/-! ## The experiment number of `Sim.New` -/

/-- The fields of `Sim` that `New` derives from the experiment number. -/
structure ExpCode where
  expnum : Int
  exptype : Int
  interval : Int
  drifttype : Int
  pfix : String
  ttrav : Int
  smithetal : Int
  lvc : Int
  cvcn : Int
  do_sequences : Int
  seq_numact : Int
  seq_tce : Int
  MaxEpcs : Int
  deriving DecidableEq, Repr

/-- The three assignments
`exptype, interval, drifttype = n/(nints*drifttypes), n%nints, n/nints` of
`New`; the Go operators `/` and `%` on `int` truncate towards zero. -/
def ExpCode.decode (c : ExpCode) (nints drifttypes n : Int) : ExpCode :=
  { c with exptype := Int.tdiv n (nints * drifttypes),
           interval := Int.tmod n nints,
           drifttype := Int.tdiv n nints }

/-- New, from the constants of the experiments to the prefix `pfix`; `expnum`
and `epcs` are the values of the flags `-expnum` and `-epcs` (`-1` and `5`
when they are not given). -/
def New (expnum epcs : Int) : ExpCode :=
  let cepeda_stop : Int := 27
  let nints : Int := 9
  let drifttypes : Int := cepeda_stop + 0
  let expnum := if expnum = -1 then 0 else expnum
  let c : ExpCode :=
    { expnum := expnum, exptype := 0, interval := 0, drifttype := 0, pfix := "", ttrav := 0,
      smithetal := 0, lvc := 0, cvcn := 4, do_sequences := 0, seq_numact := 0, seq_tce := 0,
      MaxEpcs := epcs }
  let smiththresh : Int := 500
  let seqthresh : Int := 550
  let travthresh : Int := 600
  let ttrav2thresh : Int := 700
  let ttrav3thresh : Int := 800
  let c :=
    if expnum > smiththresh ∧ expnum < seqthresh then
      let c := { c with smithetal := expnum - smiththresh }
      let c := { c with lvc := 1 }
      let c := { c with cvcn := c.cvcn - c.lvc }
      let texpnum : Int := 14
      c.decode nints drifttypes texpnum
    else if expnum > seqthresh ∧ expnum < travthresh then
      let buff := expnum - (seqthresh + 1)
      let texpnum : Int := 5
      let c := c.decode nints drifttypes texpnum
      { c with do_sequences := Int.tmod (Int.tdiv buff 4) 3 + 1,
               seq_numact := Int.tmod (Int.tdiv buff 2) 2 + 1,
               seq_tce := Int.tmod buff 2 }
    else if expnum > travthresh ∧ expnum < ttrav2thresh then
      let buff := expnum - travthresh
      let c := { c with ttrav := 1 }
      c.decode nints drifttypes buff
    else if expnum > ttrav2thresh ∧ expnum < ttrav3thresh then
      let buff := expnum - ttrav2thresh
      let c := { c with ttrav := 2 }
      c.decode nints drifttypes buff
    else if expnum > ttrav3thresh then
      let buff := expnum - ttrav3thresh
      let c := { c with ttrav := 3 }
      c.decode nints drifttypes buff
    else
      c.decode nints drifttypes expnum
  let c := if c.do_sequences > 0 then { c with MaxEpcs := 1 } else c
  let c :=
    if expnum ≥ nints * drifttypes ∧ expnum < smiththresh then
      { c with drifttype := drifttypes + expnum - nints * drifttypes, exptype := 0 }
    else c
  if c.exptype = 0 then { c with pfix := "fcurve/" }
  else if c.exptype = 1 then { c with pfix := "sp/" }
  else if c.exptype = 2 then { c with pfix := "pi/" }
  else if c.exptype = 3 then { c with pfix := "ri/" }
  else if c.exptype = 4 then { c with pfix := "rin/" }
  else c

/-! ## The spacing schedule of `Sim.ConfigPats` -/

/-- The Go conversion `int(x)` of a float: the fraction is dropped. -/
def truncInt (q : ℚ) : Int := if 0 ≤ q then ⌊q⌋ else ⌈q⌉

/-- The Go expression `int(math.Pow(2, float64(e)))`. -/
def pow2Int (e : Int) : Int := truncInt ((2 : ℚ) ^ e)

/-- The locals `fscale`, `expand`, `eqmatch` and `fractioned` of `ConfigPats`
and the fields `driftbetween` and `fillers` (a `[5]int`) of `Sim`. -/
structure FillVars where
  fscale : Int
  expand : ℚ
  eqmatch : Int
  fractioned : Int
  driftbetween : Int
  fillers : List Int
  deriving DecidableEq, Repr

namespace ConfigPats

/-- The statements of `ConfigPats` from `fscale := ss.drifttype` to
`if ss.drifttype >= cepeda_stop ...`, which choose the condition; the locals
`ece_start`, `rawson_start`, `cepeda_start`, `cepeda_stop` hold 11, 15, 18
and 27, as `New` and `ConfigPats` assign them. -/
def defaults (drifttype driftbetween : Int) (fillers : List Int) : FillVars :=
  let ece_start : Int := 11
  let rawson_start : Int := 15
  let cepeda_start : Int := 18
  let cepeda_stop : Int := 27
  let v : FillVars :=
    { fscale := drifttype, expand := 1, eqmatch := 0, fractioned := 1,
      driftbetween := driftbetween, fillers := fillers }
  let v :=
    if drifttype = 0 then { v with driftbetween := 0 }
    else if drifttype = 10 then { v with driftbetween := 2 }
    else if drifttype ≥ ece_start ∧ drifttype < rawson_start then
      if drifttype = ece_start then { v with fscale := 6, expand := 2 }
      else if drifttype = ece_start + 1 then { v with fscale := 8, expand := 1 / 2 }
      else if drifttype = ece_start + 2 then { v with eqmatch := 1 }
      else if drifttype = ece_start + 3 then { v with eqmatch := 1, fractioned := 8 }
      else v
    else if drifttype = rawson_start then { v with fscale := 1 }
    else if drifttype = rawson_start + 1 then { v with fscale := 3 }
    else if drifttype = rawson_start + 2 then { v with fscale := 5 }
    else if drifttype ≥ cepeda_start ∧ drifttype < cepeda_stop then
      { v with fscale := drifttype - cepeda_start }
    else v
  if drifttype ≥ cepeda_stop then { v with fscale := 1 } else v

/-- The body of the loop over the pools, as far as it computes `filler` and
writes `ss.fillers`; the calls of `patgen` between these statements build the
vocabulary and write none of these variables. -/
def pool (drifttype MaxEpcs : Int) (v : FillVars) : FillVars :=
  let ece_start : Int := 11
  let rawson_start : Int := 15
  let cepeda_start : Int := 18
  let cepeda_stop : Int := 27
  let maxfscale : Int := 7
  let filler := pow2Int v.fscale
  let filler :=
    if drifttype ≥ cepeda_start ∧ drifttype < cepeda_stop then pow2Int 1 else filler
  let filler2 : Int := 0
  let filler2 :=
    if drifttype ≥ ece_start ∧ drifttype < rawson_start then pow2Int 1 else filler2
  let fe : Int × ℚ :=
    if v.expand = 1 / 2 then (pow2Int v.fscale, v.expand)
    else if v.eqmatch = 1 then
      let filler :=
        if MaxEpcs = 4 then 37
        else if MaxEpcs = 5 then 160
        else if MaxEpcs = 6 then 99
        else filler
      (Int.tdiv filler v.fractioned, 1)
    else (filler, v.expand)
  let filler := fe.1
  let expand := fe.2
  let filler :=
    if drifttype ≥ cepeda_start ∧ drifttype < cepeda_stop then pow2Int 1 else filler
  let fillers :=
    if drifttype ≥ ece_start ∧ drifttype < rawson_start then v.fillers.set 0 (filler2 + 0)
    else v.fillers.set 0 (filler + 0)
  let filler :=
    if drifttype ≥ cepeda_start ∧ drifttype < cepeda_stop then pow2Int 1 else filler
  let fillers :=
    if drifttype ≥ ece_start ∧ drifttype < rawson_start then fillers.set 1 (filler2 + 0)
    else fillers.set 1 (filler + 0)
  let filler :=
    if drifttype ≥ rawson_start ∧ drifttype < rawson_start + 3 then
      if MaxEpcs = 5 then pow2Int maxfscale else filler
    else filler
  let filler :=
    if drifttype ≥ cepeda_start ∧ drifttype < cepeda_stop then
      pow2Int (drifttype - (cepeda_start - 1))
    else filler
  let fillers :=
    if v.eqmatch = 1 ∧ MaxEpcs = 4 then fillers.set 2 (filler + 1)
    else if v.eqmatch = 1 ∧ MaxEpcs = 6 then fillers.set 2 (filler + 1)
    else fillers.set 2 filler
  let fillers :=
    if MaxEpcs > 4 then
      let filler := truncInt ((filler : ℚ) * expand ^ 2)
      let filler :=
        if drifttype ≥ rawson_start ∧ drifttype < cepeda_start then pow2Int maxfscale
        else if drifttype ≥ cepeda_start ∧ drifttype < cepeda_stop then pow2Int 1
        else filler
      let fillers := fillers.set 3 filler
      if MaxEpcs > 5 then
        let filler := truncInt ((filler : ℚ) * expand)
        let filler :=
          if drifttype > rawson_start ∧ drifttype < rawson_start + 3 then pow2Int maxfscale
          else filler
        fillers.set 4 filler
      else fillers
    else fillers
  { v with expand := expand, fillers := fillers }

/-- The field `ss.fillers` after `ConfigPats`: the conditions are chosen, then
the loop `for i := 0; i < cvcn*2; i++` runs over the pools. -/
def fillers (cvcn drifttype MaxEpcs driftbetween : Int) (fillers0 : List Int) : List Int :=
  ((List.range (cvcn * 2).toNat).foldl (fun v _ => pool drifttype MaxEpcs v)
    (defaults drifttype driftbetween fillers0)).fillers

end ConfigPats

/-! ## The epoch accumulators of `Sim` -/

/-- What the ECout layer reports when `TrialStats` runs: `CosDiff.Cos` and the
two results of `MSE(0.5)`. -/
structure TrlOut where
  CosDiff : ℚ
  SSE : ℚ
  AvgSSE : ℚ
  deriving DecidableEq, Repr

/-- The trial statistics, the epoch accumulators and the epoch statistics of
`Sim`. -/
structure EpochStats where
  TrlSSE : ℚ
  TrlAvgSSE : ℚ
  TrlCosDiff : ℚ
  SumSSE : ℚ
  SumAvgSSE : ℚ
  SumCosDiff : ℚ
  CntErr : Int
  EpcSSE : ℚ
  EpcAvgSSE : ℚ
  EpcPctErr : ℚ
  EpcPctCor : ℚ
  EpcCosDiff : ℚ
  deriving DecidableEq, Repr

namespace EpochStats

/-- InitStats clears the accumulators at the start of a run (the other
statistics are zero in a new `Sim`). -/
def InitStats : EpochStats :=
  { TrlSSE := 0, TrlAvgSSE := 0, TrlCosDiff := 0, SumSSE := 0, SumAvgSSE := 0,
    SumCosDiff := 0, CntErr := 0, EpcSSE := 0, EpcAvgSSE := 0, EpcPctErr := 0,
    EpcPctCor := 0, EpcCosDiff := 0 }

/-- TrialStats computes the trial-level statistics and adds them to the epoch
accumulators if `accum` is true (the statements up to `ss.CntErr++`). -/
def TrialStats (a : EpochStats) (accum : Bool) (out : TrlOut) : EpochStats :=
  let a := { a with TrlCosDiff := out.CosDiff }
  let a := { a with TrlSSE := out.SSE, TrlAvgSSE := out.AvgSSE }
  if accum then
    let a := { a with SumSSE := a.SumSSE + a.TrlSSE }
    let a := { a with SumAvgSSE := a.SumAvgSSE + a.TrlAvgSSE }
    let a := { a with SumCosDiff := a.SumCosDiff + a.TrlCosDiff }
    if a.TrlSSE ≠ 0 then { a with CntErr := a.CntErr + 1 } else a
  else a

/-- AlphaCyc, as far as these fields go: its statement `ss.TrialStats(train)`
after the quarter loop; `out` is what ECout reports at the end of the alpha
cycle. -/
def AlphaCyc (a : EpochStats) (train : Bool) (out : TrlOut) : EpochStats :=
  a.TrialStats train out

/-- The replay loop `for i := 0; i < ss.Cycs; i++` of `TrainTrial`, as far as
these fields go: every pass ends in `ss.AlphaCyc(true)`; `out i` is what ECout
reports at the end of pass `i`. The statements of `TrainTrial` after the loop
do not call `TrialStats`. -/
def TrainTrial (a : EpochStats) (Cycs : Int) (out : Nat → TrlOut) : EpochStats :=
  (List.range Cycs.toNat).foldl (fun a i => a.AlphaCyc true (out i)) a

/-- PreTrainTrial, as far as these fields go: `ss.AlphaCyc(true)` followed by
`ss.TrialStats(true)`, on the same state of ECout. -/
def PreTrainTrial (a : EpochStats) (out : TrlOut) : EpochStats :=
  let a := a.AlphaCyc true out
  a.TrialStats true out

/-- LogTrnEpc, as far as these fields go; `len` is `ss.TrainEnv.Table.Len()`,
the number of trials of the epoch. -/
def LogTrnEpc (a : EpochStats) (len : Nat) : EpochStats :=
  let nt : ℚ := (len : ℚ)
  let a := { a with EpcSSE := a.SumSSE / nt }
  let a := { a with SumSSE := 0 }
  let a := { a with EpcAvgSSE := a.SumAvgSSE / nt }
  let a := { a with SumAvgSSE := 0 }
  let a := { a with EpcPctErr := (a.CntErr : ℚ) / nt }
  let a := { a with CntErr := 0 }
  let a := { a with EpcPctCor := 1 - a.EpcPctErr }
  let a := { a with EpcCosDiff := a.SumCosDiff / nt }
  { a with SumCosDiff := 0 }

end EpochStats

/-- A trial that ends with an error: `SSE = 3`. -/
def errOut : TrlOut := { CosDiff := 1 / 2, SSE := 3, AvgSSE := 3 / 8 }

/-! ## Theorems -/

/-! ## `float32` rounding -/

namespace Binary32

theorem roundEven_cases (q : ℚ) : roundEven q = ⌊q⌋ ∨ roundEven q = ⌊q⌋ + 1 := by
  unfold roundEven
  simp only
  split_ifs <;> simp

theorem roundEven_intCast (n : Int) : roundEven (n : ℚ) = n := by
  unfold roundEven
  simp

theorem abs_roundEven_sub_le (q : ℚ) : |(roundEven q : ℚ) - q| ≤ 1 / 2 := by
  have h1 := Int.floor_le q
  have h2 := Int.lt_floor_add_one q
  rw [abs_le]
  unfold roundEven
  simp only
  split_ifs with a b c
  · constructor <;> linarith
  · constructor <;> push_cast <;> linarith
  · constructor <;> linarith
  · constructor <;> push_cast <;> linarith

theorem roundEven_mono {a b : ℚ} (h : a ≤ b) : roundEven a ≤ roundEven b := by
  have hf : ⌊a⌋ ≤ ⌊b⌋ := Int.floor_mono h
  rcases lt_or_eq_of_le hf with hlt | heq
  · have h1 : roundEven a ≤ ⌊a⌋ + 1 := by rcases roundEven_cases a with h | h <;> omega
    have h2 : ⌊b⌋ ≤ roundEven b := by rcases roundEven_cases b with h | h <;> omega
    omega
  · unfold roundEven
    simp only [heq]
    split_ifs <;> first | omega | (exfalso; linarith)

theorem roundEven_neg (q : ℚ) : roundEven (-q) = -roundEven q := by
  by_cases hq : ((⌊q⌋ : Int) : ℚ) = q
  · rw [← hq, ← Int.cast_neg, roundEven_intCast, roundEven_intCast]
  · have h1 := Int.floor_le q
    have h2 := Int.lt_floor_add_one q
    have h3 : (⌊q⌋ : ℚ) < q := lt_of_le_of_ne h1 hq
    have hfl : ⌊-q⌋ = -⌊q⌋ - 1 := by
      rw [Int.floor_eq_iff]
      constructor <;> push_cast <;> linarith
    unfold roundEven
    simp only [hfl]
    push_cast
    split_ifs <;> first | omega | (exfalso; linarith)

theorem roundEven_le_int {z : ℚ} {n : Int} (h : z ≤ n) : roundEven z ≤ n := by
  have := roundEven_mono h
  rwa [roundEven_intCast] at this

theorem int_le_roundEven {z : ℚ} {n : Int} (h : (n : ℚ) ≤ z) : n ≤ roundEven z := by
  have := roundEven_mono h
  rwa [roundEven_intCast] at this

theorem roundEven_eq_of_abs_lt (z : ℚ) (m : Int) (h : |z - m| < 1 / 2) : roundEven z = m := by
  have h1 := abs_roundEven_sub_le z
  rw [abs_le] at h1
  rw [abs_lt] at h
  have h2 : ((roundEven z : Int) : ℚ) < ((m + 1 : Int) : ℚ) := by
    push_cast
    linarith
  have h3 : ((m - 1 : Int) : ℚ) < ((roundEven z : Int) : ℚ) := by
    push_cast
    linarith
  have h4 := Int.cast_lt.mp h2
  have h5 := Int.cast_lt.mp h3
  omega

theorem roundEven_tie_even (z : ℚ) (m : Int) (he : m % 2 = 0)
    (h : z = m + 1 / 2 ∨ z = m - 1 / 2) : roundEven z = m := by
  rcases h with h | h
  · have hf : ⌊z⌋ = m := by
      rw [Int.floor_eq_iff]
      constructor <;> rw [h] <;> linarith
    unfold roundEven
    simp only [hf]
    rw [h]
    norm_num [he]
  · have hf : ⌊z⌋ = m - 1 := by
      rw [Int.floor_eq_iff]
      constructor <;> rw [h] <;> push_cast <;> linarith
    have ho : ¬ ((m - 1) % 2 = 0) := by omega
    unfold roundEven
    simp only [hf]
    rw [h]
    push_cast
    norm_num [ho]

theorem two_zpow_pos (k : Int) : (0 : ℚ) < (2 : ℚ) ^ k := zpow_pos (by norm_num) k

theorem two_zpow_add (a b : Int) : (2 : ℚ) ^ (a + b) = (2 : ℚ) ^ a * (2 : ℚ) ^ b :=
  zpow_add₀ (by norm_num) a b

theorem two_zpow_sub (a b : Int) : (2 : ℚ) ^ (a - b) = (2 : ℚ) ^ a / (2 : ℚ) ^ b :=
  zpow_sub₀ (by norm_num) a b

theorem two_zpow_mono {a b : Int} (h : a ≤ b) : (2 : ℚ) ^ a ≤ (2 : ℚ) ^ b :=
  zpow_le_zpow_right₀ (by norm_num) h

theorem two_zpow_intCast (k : Int) (hk : 0 ≤ k) :
    (2 : ℚ) ^ k = (((2 : Int) ^ k.toNat : Int) : ℚ) := by
  obtain ⟨n, rfl⟩ := Int.eq_ofNat_of_zero_le hk
  simp

theorem log_eq_of {x : ℚ} {e : Int} (h1 : (2 : ℚ) ^ e ≤ |x|) (h2 : |x| < (2 : ℚ) ^ (e + 1)) :
    Int.log 2 |x| = e := by
  have hpos : 0 < |x| := lt_of_lt_of_le (two_zpow_pos e) h1
  have a1 : e ≤ Int.log 2 |x| := by
    rw [← Int.zpow_le_iff_le_log (by norm_num) hpos]
    exact_mod_cast h1
  have a2 : Int.log 2 |x| < e + 1 := by
    rw [← Int.lt_zpow_iff_log_lt (by norm_num) hpos]
    exact_mod_cast h2
  omega

theorem zpow_log_le {x : ℚ} (hx : x ≠ 0) : (2 : ℚ) ^ Int.log 2 |x| ≤ |x| := by
  have := Int.zpow_log_le_self (b := 2) (r := |x|) (by norm_num) (abs_pos.mpr hx)
  exact_mod_cast this

theorem lt_zpow_log_succ (x : ℚ) : |x| < (2 : ℚ) ^ (Int.log 2 |x| + 1) := by
  have := Int.lt_zpow_succ_log_self (b := 2) (by norm_num) (|x|)
  exact_mod_cast this

theorem quantum_neg (x : ℚ) : quantum (-x) = quantum x := by
  unfold quantum
  rw [abs_neg]

theorem nearest_neg (x : ℚ) : nearest (-x) = -nearest x := by
  unfold nearest
  rw [quantum_neg, neg_div, roundEven_neg]
  push_cast
  ring

theorem nearest_zero : nearest 0 = 0 := by
  unfold nearest
  rw [zero_div]
  have := roundEven_intCast 0
  simp only [Int.cast_zero] at this
  rw [this]
  simp

theorem nearest_nonneg {x : ℚ} (h : 0 ≤ x) : 0 ≤ nearest x := by
  unfold nearest
  have hp := two_zpow_pos (quantum x)
  have h1 : ((0 : Int) : ℚ) ≤ x / (2 : ℚ) ^ quantum x := by
    simp only [Int.cast_zero]
    exact div_nonneg h (le_of_lt hp)
  have h2 := int_le_roundEven h1
  have h3 : (0 : ℚ) ≤ (roundEven (x / (2 : ℚ) ^ quantum x) : ℚ) := by exact_mod_cast h2
  exact mul_nonneg h3 (le_of_lt hp)

theorem quantum_mono {x y : ℚ} (hx : 0 < |x|) (h : |x| ≤ |y|) : quantum x ≤ quantum y := by
  unfold quantum
  have := Int.log_mono_right (b := 2) hx h
  omega

theorem nearest_mono_pos {x y : ℚ} (hx : 0 < x) (h : x ≤ y) : nearest x ≤ nearest y := by
  have hy : 0 < y := lt_of_lt_of_le hx h
  have hax : |x| = x := abs_of_pos hx
  have hay : |y| = y := abs_of_pos hy
  have hq : quantum x ≤ quantum y := quantum_mono (by rw [hax]; exact hx) (by rw [hax, hay]; exact
      h)
  rcases lt_or_eq_of_le hq with hlt | heq
  · -- different quanta: both sides compare with the power of two below `y`
    have hqy : quantum y = Int.log 2 |y| - 23 := by
      have h149 : -149 ≤ quantum x := by unfold quantum; omega
      unfold quantum at hlt ⊢
      omega
    have hqx : Int.log 2 |x| - 23 ≤ quantum x := by unfold quantum; omega
    have hT : (2 : ℚ) ^ Int.log 2 |y| ≤ y := by
      have := zpow_log_le (ne_of_gt hy)
      exact le_trans this (le_of_eq hay)
    have hxT : x ≤ (2 : ℚ) ^ Int.log 2 |y| := by
      have h1 := lt_zpow_log_succ x
      have h2 : Int.log 2 |x| + 1 ≤ Int.log 2 |y| := by omega
      exact le_trans (le_of_eq hax.symm) (le_trans (le_of_lt h1) (two_zpow_mono h2))
    have upper : nearest x ≤ (2 : ℚ) ^ Int.log 2 |y| := by
      unfold nearest
      have hp := two_zpow_pos (quantum x)
      have hk : 0 ≤ Int.log 2 |y| - quantum x := by omega
      have h1 : x / (2 : ℚ) ^ quantum x ≤
          ((((2 : Int) ^ (Int.log 2 |y| - quantum x).toNat : Int)) : ℚ) := by
        rw [← two_zpow_intCast _ hk, two_zpow_sub]
        exact div_le_div_of_nonneg_right hxT (le_of_lt hp)
      have h2 := roundEven_le_int h1
      have h3 : (roundEven (x / (2 : ℚ) ^ quantum x) : ℚ) ≤
          (2 : ℚ) ^ (Int.log 2 |y| - quantum x) := by
        rw [two_zpow_intCast _ hk]
        exact_mod_cast h2
      calc (roundEven (x / (2 : ℚ) ^ quantum x) : ℚ) * (2 : ℚ) ^ quantum x
          ≤ (2 : ℚ) ^ (Int.log 2 |y| - quantum x) * (2 : ℚ) ^ quantum x :=
            mul_le_mul_of_nonneg_right h3 (le_of_lt hp)
        _ = (2 : ℚ) ^ Int.log 2 |y| := by rw [← two_zpow_add]; congr 1; ring
    have lower : (2 : ℚ) ^ Int.log 2 |y| ≤ nearest y := by
      unfold nearest
      have hp := two_zpow_pos (quantum y)
      have h1 : ((((2 : Int) ^ (23 : Int).toNat : Int)) : ℚ) ≤ y / (2 : ℚ) ^ quantum y := by
        rw [← two_zpow_intCast _ (by norm_num), le_div_iff₀ hp, ← two_zpow_add, hqy]
        have : (23 : Int) + (Int.log 2 |y| - 23) = Int.log 2 |y| := by ring
        rw [this]
        exact hT
      have h2 := int_le_roundEven h1
      have h3 : (2 : ℚ) ^ (23 : Int) ≤ (roundEven (y / (2 : ℚ) ^ quantum y) : ℚ) := by
        rw [two_zpow_intCast _ (by norm_num)]
        exact_mod_cast h2
      calc (2 : ℚ) ^ Int.log 2 |y| = (2 : ℚ) ^ (23 : Int) * (2 : ℚ) ^ quantum y := by
            rw [← two_zpow_add, hqy]; congr 1; ring
        _ ≤ (roundEven (y / (2 : ℚ) ^ quantum y) : ℚ) * (2 : ℚ) ^ quantum y :=
            mul_le_mul_of_nonneg_right h3 (le_of_lt hp)
    exact le_trans upper lower
  · unfold nearest
    rw [heq]
    have hp := two_zpow_pos (quantum y)
    have h1 : x / (2 : ℚ) ^ quantum y ≤ y / (2 : ℚ) ^ quantum y :=
      div_le_div_of_nonneg_right h (le_of_lt hp)
    have h2 := roundEven_mono h1
    have h3 : (roundEven (x / (2 : ℚ) ^ quantum y) : ℚ) ≤
        (roundEven (y / (2 : ℚ) ^ quantum y) : ℚ) := by exact_mod_cast h2
    exact mul_le_mul_of_nonneg_right h3 (le_of_lt hp)

theorem nearest_mono {x y : ℚ} (h : x ≤ y) : nearest x ≤ nearest y := by
  rcases lt_trichotomy 0 x with hx | hx | hx
  · exact nearest_mono_pos hx h
  · rw [← hx, nearest_zero]
    exact nearest_nonneg (by rw [hx]; exact h)
  · rcases lt_or_le y 0 with hy | hy
    · have h1 : nearest (-y) ≤ nearest (-x) := nearest_mono_pos (by linarith) (by linarith)
      rw [nearest_neg, nearest_neg] at h1
      linarith
    · have h1 : 0 ≤ nearest (-x) := nearest_nonneg (by linarith)
      rw [nearest_neg] at h1
      have h2 := nearest_nonneg hy
      linarith

theorem nearest_sub_eq (x : ℚ) :
    nearest x - x =
      ((roundEven (x / (2 : ℚ) ^ quantum x) : ℚ) - x / (2 : ℚ) ^ quantum x) *
        (2 : ℚ) ^ quantum x := by
  unfold nearest
  have hp := two_zpow_pos (quantum x)
  field_simp

theorem nearest_error (x : ℚ) :
    |nearest x - x| ≤ (2 : ℚ) ^ (-24 : Int) * |x| + (2 : ℚ) ^ (-150 : Int) := by
  by_cases hx : x = 0
  · rw [hx, nearest_zero]
    norm_num
  have hp := two_zpow_pos (quantum x)
  have h1 : |nearest x - x| ≤ 1 / 2 * (2 : ℚ) ^ quantum x := by
    rw [nearest_sub_eq, abs_mul, abs_of_pos hp]
    exact mul_le_mul_of_nonneg_right (abs_roundEven_sub_le _) (le_of_lt hp)
  have hlog := zpow_log_le hx
  have hu : 0 ≤ (2 : ℚ) ^ (-24 : Int) * |x| := mul_nonneg (le_of_lt (two_zpow_pos _)) (abs_nonneg x)
  have he : 0 < (2 : ℚ) ^ (-150 : Int) := two_zpow_pos _
  rcases le_total (Int.log 2 |x| - 23) (-149) with hq | hq
  · have hq2 : quantum x = -149 := by unfold quantum; omega
    rw [hq2] at h1
    have : (1 / 2 : ℚ) * (2 : ℚ) ^ (-149 : Int) = (2 : ℚ) ^ (-150 : Int) := by
      rw [show (-150 : Int) = -1 + -149 by norm_num, two_zpow_add]
      norm_num
    rw [this] at h1
    linarith
  · have hq2 : quantum x = Int.log 2 |x| - 23 := by unfold quantum; omega
    rw [hq2] at h1
    have : (1 / 2 : ℚ) * (2 : ℚ) ^ (Int.log 2 |x| - 23) =
        (2 : ℚ) ^ (-24 : Int) * (2 : ℚ) ^ Int.log 2 |x| := by
      rw [show Int.log 2 |x| - 23 = -23 + Int.log 2 |x| by ring, two_zpow_add]
      norm_num
      ring
    rw [this] at h1
    have h2 : (2 : ℚ) ^ (-24 : Int) * (2 : ℚ) ^ Int.log 2 |x| ≤ (2 : ℚ) ^ (-24 : Int) * |x| :=
      mul_le_mul_of_nonneg_left hlog (le_of_lt (two_zpow_pos _))
    linarith

theorem nearest_fixed (m e : Int) (hm : |m| < 2 ^ 24) (he : -149 ≤ e) :
    nearest ((m : ℚ) * (2 : ℚ) ^ e) = (m : ℚ) * (2 : ℚ) ^ e := by
  by_cases h0 : m = 0
  · rw [h0]
    simp [nearest_zero]
  have hpe := two_zpow_pos e
  have hx : (m : ℚ) * (2 : ℚ) ^ e ≠ 0 := by
    have : (m : ℚ) ≠ 0 := by exact_mod_cast h0
    exact mul_ne_zero this (ne_of_gt hpe)
  have habs : |(m : ℚ) * (2 : ℚ) ^ e| < (2 : ℚ) ^ (e + 24) := by
    rw [abs_mul, abs_of_pos hpe, two_zpow_add, mul_comm]
    have h1 : |(m : ℚ)| < (2 : ℚ) ^ (24 : Int) := by
      have : ((|m| : Int) : ℚ) < (((2 : Int) ^ 24 : Int) : ℚ) := by exact_mod_cast hm
      rw [Int.cast_abs] at this
      rw [two_zpow_intCast _ (by norm_num)]
      exact_mod_cast this
    exact mul_lt_mul_of_pos_left h1 hpe
  have hlog : Int.log 2 |(m : ℚ) * (2 : ℚ) ^ e| < e + 24 := by
    rw [← Int.lt_zpow_iff_log_lt (by norm_num) (abs_pos.mpr hx)]
    exact_mod_cast habs
  have hq : quantum ((m : ℚ) * (2 : ℚ) ^ e) ≤ e := by unfold quantum; omega
  unfold nearest
  generalize quantum ((m : ℚ) * (2 : ℚ) ^ e) = q at hq
  have hk : 0 ≤ e - q := by omega
  have hz : (m : ℚ) * (2 : ℚ) ^ e / (2 : ℚ) ^ q = ((m * (2 : Int) ^ (e - q).toNat : Int) : ℚ) := by
    rw [mul_div_assoc, ← two_zpow_sub, two_zpow_intCast _ hk]
    push_cast
    rfl
  rw [hz, roundEven_intCast]
  push_cast
  rw [mul_assoc]
  congr 1
  have := two_zpow_intCast _ hk
  push_cast at this
  rw [← this, ← two_zpow_add]
  congr 1
  ring

theorem nearest_eq_of (x : ℚ) (e m : Int) (h1 : (2 : ℚ) ^ e ≤ |x|)
    (h2 : |x| < (2 : ℚ) ^ (e + 1)) (h3 : -126 ≤ e)
    (h4 : roundEven (x / (2 : ℚ) ^ (e - 23)) = m) :
    nearest x = (m : ℚ) * (2 : ℚ) ^ (e - 23) := by
  have hl := log_eq_of h1 h2
  have hq : quantum x = e - 23 := by unfold quantum; omega
  unfold nearest
  rw [hq, h4]


theorem abs_nearest_le (x : ℚ) (k : Int) (hk : -149 ≤ k) (h : |x| ≤ (2 : ℚ) ^ k) :
    |nearest x| ≤ (2 : ℚ) ^ k := by
  have hfix : nearest ((2 : ℚ) ^ k) = (2 : ℚ) ^ k := by
    have := nearest_fixed 1 k (by norm_num) hk
    simpa using this
  rw [abs_le] at h ⊢
  constructor
  · have := nearest_mono h.1
    rwa [nearest_neg, hfix] at this
  · have := nearest_mono h.2
    rwa [hfix] at this

theorem ofRat_eq_fin (x : ℚ) (h : |x| ≤ 170141183460469231731687303715884105728) :
    ofRat x = fin (nearest x) := by
  have h0 : |x| ≤ (2 : ℚ) ^ (127 : Int) := le_trans h (by norm_num)
  have h1 := abs_nearest_le x 127 (by norm_num) h0
  rw [abs_le] at h1
  have h2 : (2 : ℚ) ^ (127 : Int) < (2 : ℚ) ^ 128 := by norm_num
  unfold ofRat
  simp only
  rw [if_neg (by linarith), if_neg (by linarith)]

theorem add_fin (a b : ℚ) : add (fin a) (fin b) = ofRat (a + b) := rfl

theorem sub_fin (a b : ℚ) : sub (fin a) (fin b) = ofRat (a - b) := rfl

theorem mul_fin (a b : ℚ) : mul (fin a) (fin b) = ofRat (a * b) := rfl

theorem div_fin (a b : ℚ) (hb : b ≠ 0) : div (fin a) (fin b) = ofRat (a / b) := by
  simp [div, hb]

theorem abs_nearest_le_lit (x B : ℚ) (k : Int) (hk : -149 ≤ k) (hB : B = (2 : ℚ) ^ k)
    (h : |x| ≤ B) : |nearest x| ≤ B := by
  rw [hB] at h ⊢
  exact abs_nearest_le x k hk h

theorem nearest_between {x : ℚ} (hx : 0 ≤ x) :
    x - (x / 16777216 + 1 / 1427247692705959881058285969449495136382746624) ≤ nearest x ∧ nearest x
        ≤ x + (x / 16777216 + 1 / 1427247692705959881058285969449495136382746624) := by
  have h := nearest_error x
  rw [abs_of_nonneg hx, abs_le] at h
  have e1 : (2 : ℚ) ^ (-24 : Int) = 1 / 16777216 := by norm_num
  have e2 : (2 : ℚ) ^ (-150 : Int) = 1 / 1427247692705959881058285969449495136382746624 := by
      norm_num
  rw [e1, e2] at h
  constructor <;> linarith [h.1, h.2]

theorem nearest_rel {x : ℚ} (hx : 1 / 85070591730234615865843651857942052864 ≤ x) :
    (1 - 2 / 16777216) * x ≤ nearest x ∧ nearest x ≤ (1 + 2 / 16777216) * x := by
  have hx0 : 0 ≤ x := le_trans (by norm_num) hx
  have h := nearest_between hx0
  constructor <;> linarith [h.1, h.2]

theorem nearest_one : nearest 1 = 1 := by
  have := nearest_fixed 1 0 (by norm_num) (by norm_num)
  simpa using this

/-- The rounded chain of `NormVal`: for a range `R` and an offset `D` into it,
the value computed as `nearest (nearest D * nearest (1 / nearest R))` lies
within `10 / 2 ^ 24` of `D / R`, and no operation leaves the finite range. -/
theorem norm_chain (R D : ℚ) (hR1 : 1 / 1267650600228229401496703205376 ≤ R)
    (hR2 : R ≤ 2535301200456458802993406410752) (hD0 : 0 ≤ D) (hDR : D ≤ R) :
    nearest R ≠ 0 ∧ |1 / nearest R| ≤ 5070602400912917605986812821504 ∧ 0 ≤ nearest (1 / nearest R)
        ∧
      0 ≤ nearest D ∧ |nearest D * nearest (1 / nearest R)| ≤ 2 ∧
      0 ≤ nearest (nearest D * nearest (1 / nearest R)) ∧
      nearest (nearest D * nearest (1 / nearest R)) ≤ 2 ∧
      |nearest (nearest D * nearest (1 / nearest R)) - D / R| ≤ 10 / 16777216 := by
  have hRpos : 0 < R := lt_of_lt_of_le (by norm_num) hR1
  have hr := nearest_rel (x := R) (le_trans (by norm_num) hR1)
  generalize nearest R = r at hr ⊢
  have hrpos : 0 < r := by
    have : 0 < (1 - 2 / 16777216) * R := mul_pos (by norm_num) hRpos
    linarith [hr.1]
  have hrne : r ≠ 0 := ne_of_gt hrpos
  have hy1 : (1 : ℚ) / 5070602400912917605986812821504 ≤ 1 / r := by
    rw [div_le_div_iff₀ (by norm_num) hrpos]
    linarith [hr.2]
  have hy2 : 1 / r ≤ 5070602400912917605986812821504 := by
    rw [div_le_iff₀ hrpos]
    linarith [hr.1]
  have hypos : 0 < 1 / r := one_div_pos.mpr hrpos
  have hs := nearest_rel (x := 1 / r) (le_trans (by norm_num) hy1)
  have hs0 : 0 ≤ nearest (1 / r) := nearest_nonneg (le_of_lt hypos)
  generalize nearest (1 / r) = s at hs hs0 ⊢
  have hyr : 1 / r * r = 1 := by field_simp
  have hsr1 : 1 - 2 / 16777216 ≤ s * r := by
    have := mul_le_mul_of_nonneg_right hs.1 (le_of_lt hrpos)
    rw [mul_assoc, hyr] at this
    linarith
  have hsr2 : s * r ≤ 1 + 2 / 16777216 := by
    have := mul_le_mul_of_nonneg_right hs.2 (le_of_lt hrpos)
    rw [mul_assoc, hyr] at this
    linarith
  have hsR2 : s * R ≤ 1 + 5 / 16777216 := by
    have h1 : s * ((1 - 2 / 16777216) * R) ≤ s * r := mul_le_mul_of_nonneg_left hr.1 hs0
    have h2 : s * ((1 - 2 / 16777216) * R) = (1 - 2 / 16777216) * (s * R) := by ring
    linarith
  have hsR1 : 1 - 4 / 16777216 ≤ s * R := by
    have h1 : s * r ≤ s * ((1 + 2 / 16777216) * R) := mul_le_mul_of_nonneg_left hr.2 hs0
    have h2 : s * ((1 + 2 / 16777216) * R) = (1 + 2 / 16777216) * (s * R) := by ring
    linarith
  have hsle : s ≤ 2535301200456458802993406410752 := by
    have h1 : s * (1 / 1267650600228229401496703205376) ≤ s * R := mul_le_mul_of_nonneg_left hR1 hs0
    linarith
  have hd := nearest_between hD0
  have hd0 : 0 ≤ nearest D := nearest_nonneg hD0
  generalize nearest D = d at hd hd0 ⊢
  obtain ⟨t, ht⟩ : ∃ t, t = D / R := ⟨_, rfl⟩
  have htR : t * R = D := by rw [ht]; field_simp
  have ht0 : 0 ≤ t := by rw [ht]; exact div_nonneg hD0 (le_of_lt hRpos)
  have ht1 : t ≤ 1 := by rw [ht, div_le_one hRpos]; exact hDR
  have hDs : D * s = t * (s * R) := by rw [← htR]; ring
  have hDs2 : D * s ≤ t + 5 / 16777216 := by
    rw [hDs]
    have h1 := mul_le_mul_of_nonneg_left hsR2 ht0
    have h2 : t * (1 + 5 / 16777216) = t + t * (5 / 16777216) := by ring
    have h3 : t * (5 / 16777216) ≤ 1 * (5 / 16777216) :=
      mul_le_mul_of_nonneg_right ht1 (by norm_num)
    linarith
  have hDs1 : t - 4 / 16777216 ≤ D * s := by
    rw [hDs]
    have h1 := mul_le_mul_of_nonneg_left hsR1 ht0
    have h2 : t * (1 - 4 / 16777216) = t - t * (4 / 16777216) := by ring
    have h3 : t * (4 / 16777216) ≤ 1 * (4 / 16777216) :=
      mul_le_mul_of_nonneg_right ht1 (by norm_num)
    linarith
  have hDs0 : 0 ≤ D * s := mul_nonneg hD0 hs0
  have hes : (1 : ℚ) / 1427247692705959881058285969449495136382746624 * s ≤ 1 / 562949953421312 :=
      by
    have h1 : (1 : ℚ) / 1427247692705959881058285969449495136382746624 * s ≤ 1 /
        1427247692705959881058285969449495136382746624 * 2535301200456458802993406410752 :=
        mul_le_mul_of_nonneg_left hsle (by norm_num)
    have h2 : (1 : ℚ) / 1427247692705959881058285969449495136382746624 *
        2535301200456458802993406410752 = 1 / 562949953421312 := by norm_num
    linarith
  have hds2 : d * s ≤ t + 7 / 16777216 := by
    have h1 : d * s ≤ (D + (D / 16777216 + 1 / 1427247692705959881058285969449495136382746624)) * s
        := mul_le_mul_of_nonneg_right hd.2 hs0
    have h2 : (D + (D / 16777216 + 1 / 1427247692705959881058285969449495136382746624)) * s =
        D * s + D * s / 16777216 + 1 / 1427247692705959881058285969449495136382746624 * s := by ring
    linarith
  have hds1 : t - 6 / 16777216 ≤ d * s := by
    have h1 : (D - (D / 16777216 + 1 / 1427247692705959881058285969449495136382746624)) * s ≤ d * s
        := mul_le_mul_of_nonneg_right hd.1 hs0
    have h2 : (D - (D / 16777216 + 1 / 1427247692705959881058285969449495136382746624)) * s =
        D * s - D * s / 16777216 - 1 / 1427247692705959881058285969449495136382746624 * s := by ring
    linarith
  have hds0 : 0 ≤ d * s := mul_nonneg hd0 hs0
  have hdsle : d * s ≤ 2 := by linarith
  have hn := nearest_between hds0
  have hn0 : 0 ≤ nearest (d * s) := nearest_nonneg hds0
  generalize nearest (d * s) = n at hn hn0 ⊢
  refine ⟨hrne, ?_, hs0, hd0, ?_, hn0, ?_, ?_⟩
  · rw [abs_of_pos hypos]
    exact hy2
  · rw [abs_of_nonneg hds0]
    exact hdsle
  · linarith [hn.2]
  · rw [← ht, abs_le]
    constructor
    · linarith [hn.1]
    · linarith [hn.2]


theorem ofRat_eval (x y : ℚ) (e m : Int) (h1 : (2 : ℚ) ^ e ≤ x) (h2 : x < (2 : ℚ) ^ (e + 1))
    (h3 : -126 ≤ e) (h3b : e ≤ 126) (h4 : |x / (2 : ℚ) ^ (e - 23) - m| < 1 / 2)
    (h5 : y = (m : ℚ) * (2 : ℚ) ^ (e - 23)) : ofRat x = fin y := by
  have hx : 0 < x := lt_of_lt_of_le (two_zpow_pos e) h1
  have hn : nearest x = y := by
    rw [h5]
    exact nearest_eq_of x e m (by rw [abs_of_pos hx]; exact h1) (by rw [abs_of_pos hx]; exact h2)
      h3 (roundEven_eq_of_abs_lt _ _ h4)
  rw [← hn]
  apply ofRat_eq_fin
  rw [abs_of_pos hx]
  have : (2 : ℚ) ^ (e + 1) ≤ (2 : ℚ) ^ (127 : Int) := two_zpow_mono (by omega)
  exact le_trans (le_of_lt h2) (le_trans this (by norm_num))

theorem ofRat_exact (x : ℚ) (m e : Int) (hx : x = (m : ℚ) * (2 : ℚ) ^ e) (hm : |m| < 2 ^ 24)
    (he : -149 ≤ e) (he2 : e ≤ 100) : ofRat x = fin x := by
  have hn : nearest x = x := by
    rw [hx]
    exact nearest_fixed m e hm he
  have h := ofRat_eq_fin x (by
    rw [hx, abs_mul, abs_of_pos (two_zpow_pos e)]
    have h1 : |(m : ℚ)| ≤ (2 : ℚ) ^ (24 : Int) := by
      have : ((|m| : Int) : ℚ) < (((2 : Int) ^ 24 : Int) : ℚ) := by exact_mod_cast hm
      rw [Int.cast_abs] at this
      have h2 : (2 : ℚ) ^ (24 : Int) = (((2 : Int) ^ 24 : Int) : ℚ) := by norm_num
      rw [h2]
      exact le_of_lt this
    have h3 : (2 : ℚ) ^ e ≤ (2 : ℚ) ^ (100 : Int) := two_zpow_mono he2
    calc |(m : ℚ)| * (2 : ℚ) ^ e ≤ (2 : ℚ) ^ (24 : Int) * (2 : ℚ) ^ (100 : Int) :=
          mul_le_mul h1 h3 (le_of_lt (two_zpow_pos e)) (by norm_num)
      _ ≤ 170141183460469231731687303715884105728 := by norm_num)
  rw [h, hn]

theorem ofRat_zero : ofRat 0 = fin 0 := by
  have := ofRat_exact 0 0 0 (by norm_num) (by norm_num) (by norm_num) (by norm_num)
  exact this


end Binary32

namespace ErrLrateModParams

/-- Inside the range, for parameters of magnitude at most `2 ^ 100` and a range
of at least `2 ^ -100`, every operation of `LrateMod32` stays finite, and the
result is the chain of roundings written out. -/
theorem LrateMod32_mid (em : ErrLrateModParams) (err : ℚ)
    (hB : |em.Base| ≤ 1267650600228229401496703205376) (hMin : |em.Range.Min| ≤
        1267650600228229401496703205376) (hMax : |em.Range.Max| ≤ 1267650600228229401496703205376)
    (hR : 1 / 1267650600228229401496703205376 ≤ em.Range.Max - em.Range.Min)
    (h1 : em.Range.Min ≤ err) (h2 : err ≤ em.Range.Max) :
    em.LrateMod32 err =
      .fin (Binary32.nearest (em.Base +
        Binary32.nearest (Binary32.nearest (Binary32.nearest (err - em.Range.Min) *
          Binary32.nearest (1 / Binary32.nearest (em.Range.Max - em.Range.Min))) *
          Binary32.nearest (1 - em.Base)))) := by
  obtain ⟨base, er, ⟨mn, mx⟩⟩ := em
  simp only at hB hMin hMax hR h1 h2 ⊢
  rw [abs_le] at hB hMin hMax
  have hR2 : mx - mn ≤ 2535301200456458802993406410752 := by linarith [hMax.2, hMin.1]
  have hD0 : 0 ≤ err - mn := by linarith
  have hDR : err - mn ≤ mx - mn := by linarith
  obtain ⟨c1, c2, c3, c4, c5, c6, c7, -⟩ := Binary32.norm_chain (mx - mn) (err - mn) hR hR2 hD0 hDR
  have hc : |Binary32.nearest (1 - base)| ≤ 2535301200456458802993406410752 := by
    apply Binary32.abs_nearest_le_lit _ _ 101 (by norm_num) (by norm_num)
    rw [abs_le]
    constructor <;> linarith [hB.1, hB.2]
  unfold LrateMod32 minmax.F32.NormVal32 minmax.F32.Scale32 minmax.F32.Range32 minmax.F32.ClipVal
  simp only [if_neg (not_lt.mpr h1), if_neg (not_lt.mpr h2), gt_iff_lt, Binary32.sub_fin]
  have e1 : Binary32.ofRat (err - mn) = .fin (Binary32.nearest (err - mn)) :=
    Binary32.ofRat_eq_fin _ (by rw [abs_of_nonneg hD0]; linarith)
  have e2 : Binary32.ofRat (mx - mn) = .fin (Binary32.nearest (mx - mn)) :=
    Binary32.ofRat_eq_fin _ (by rw [abs_of_nonneg (by linarith)]; linarith)
  have e3 : Binary32.ofRat (1 - base) = .fin (Binary32.nearest (1 - base)) :=
    Binary32.ofRat_eq_fin _ (by rw [abs_le]; constructor <;> linarith [hB.1, hB.2])
  rw [e1, e2, e3]
  have hne : (Binary32.fin (Binary32.nearest (mx - mn)) ≠ Binary32.fin 0) := by
    intro h
    exact c1 (Binary32.fin.inj h)
  rw [if_pos hne, Binary32.div_fin _ _ c1]
  have e4 : Binary32.ofRat (1 / Binary32.nearest (mx - mn)) =
      .fin (Binary32.nearest (1 / Binary32.nearest (mx - mn))) :=
    Binary32.ofRat_eq_fin _ (le_trans c2 (by norm_num))
  rw [e4, Binary32.mul_fin]
  have e5 : Binary32.ofRat (Binary32.nearest (err - mn) *
      Binary32.nearest (1 / Binary32.nearest (mx - mn))) =
      .fin (Binary32.nearest (Binary32.nearest (err - mn) *
        Binary32.nearest (1 / Binary32.nearest (mx - mn)))) :=
    Binary32.ofRat_eq_fin _ (le_trans c5 (by norm_num))
  rw [e5, Binary32.mul_fin]
  generalize Binary32.nearest (Binary32.nearest (err - mn) *
      Binary32.nearest (1 / Binary32.nearest (mx - mn))) = n at c6 c7 ⊢
  generalize Binary32.nearest (1 - base) = c at hc ⊢
  have hnc : |n * c| ≤ 5070602400912917605986812821504 := by
    rw [abs_mul, abs_of_nonneg c6]
    calc n * |c| ≤ 2 * 2535301200456458802993406410752 := mul_le_mul c7 hc (abs_nonneg c) (by
        norm_num)
      _ = 5070602400912917605986812821504 := by norm_num
  have e6 : Binary32.ofRat (n * c) = .fin (Binary32.nearest (n * c)) :=
    Binary32.ofRat_eq_fin _ (le_trans hnc (by norm_num))
  rw [e6, Binary32.add_fin]
  have hp : |Binary32.nearest (n * c)| ≤ 5070602400912917605986812821504 :=
    Binary32.abs_nearest_le_lit _ _ 102 (by norm_num) (by norm_num) hnc
  generalize Binary32.nearest (n * c) = p at hp ⊢
  rw [abs_le] at hp
  exact Binary32.ofRat_eq_fin _ (by rw [abs_le]; constructor <;> linarith [hB.1, hB.2, hp.1, hp.2])


end ErrLrateModParams


theorem emit_eq (ss : Sim) (e : Event) : ss.emit e = { ss with Trace := ss.Trace ++ [e] } := rfl

theorem cycleStep_eq (train : Bool) (vu : leabra.TimeScales) (qtr : Nat) (ss : Sim) (cyc : Nat) :
    Sim.cycleStep train vu qtr ss cyc =
      { ss with Trace := ss.Trace ++ (cycEvs ss.ViewOn train vu ss.Time.CycPerQtr
          ss.Net.ca1FmECin.WtScale.Abs ss.Net.ca1FmCa3.WtScale.Abs
          ss.Net.ca3FmDg.WtScale.Rel qtr cyc) } := by
  unfold Sim.cycleStep Sim.cycView cycEvs cycViewEvs
  cases train <;> cases hv : ss.ViewOn <;> cases vu <;> simp [Sim.emit, hv] <;> split <;> simp

theorem cycles_fold_eq (train : Bool) (vu : leabra.TimeScales) (qtr : Nat) (ss : Sim) (n : Nat) :
    (List.range n).foldl (Sim.cycleStep train vu qtr) ss =
      { ss with Trace := ss.Trace ++ ((List.range n).flatMap
          (cycEvs ss.ViewOn train vu ss.Time.CycPerQtr
          ss.Net.ca1FmECin.WtScale.Abs ss.Net.ca1FmCa3.WtScale.Abs
          ss.Net.ca3FmDg.WtScale.Rel qtr)) } := by
  induction n with
  | zero => simp
  | succ n ih =>
    rw [List.range_succ, List.foldl_append, ih]
    simp [cycleStep_eq, List.flatMap_append, List.flatMap_singleton]

theorem qtrSwitch_eq (ss : Sim) (train : Bool) (dg : ℚ) (qtr : Nat) :
    ss.qtrSwitch train dg qtr =
      { ss with Net := switchNet ss.Net train dg ss.Hip.MossyDelTest qtr,
                Trace := ss.Trace ++ switchEvs train qtr } := by
  unfold Sim.qtrSwitch switchNet switchEvs
  by_cases h1 : qtr + 1 = 1
  · cases train <;> simp [h1, Sim.emit]
  · by_cases h3 : qtr + 1 = 3
    · cases train <;> simp [h3, Sim.emit]
    · simp [h1, h3]

theorem qtrView_eq (ss : Sim) (train : Bool) (vu : leabra.TimeScales) (qtr : Nat) :
    ss.qtrView train vu qtr =
      { ss with Trace := ss.Trace ++ qtrViewEvs ss.ViewOn train vu qtr } := by
  obtain ⟨net, hip, el, tm, viewOn, tru, teu, thr, edl, wpvc, cvcn, tt, lm, n1, n2, n3, n4, n5,
    ed, m, s1, s2, s3, plot, tr⟩ := ss
  unfold Sim.qtrView qtrViewEvs
  cases viewOn <;> simp [Sim.emit, leabra.TimeScales.toNat]
  split
  · rfl
  · split
    · split <;> simp
    · simp

theorem quarterStep_eq (train : Bool) (vu : leabra.TimeScales) (dg : ℚ) (ss : Sim) (qtr : Nat) :
    Sim.quarterStep train vu dg ss qtr =
      { ss with Net := switchNet ss.Net train dg ss.Hip.MossyDelTest qtr,
                Trace := ss.Trace ++ (cyclesEvs ss.ViewOn train vu ss.Time.CycPerQtr
                  ss.Net.ca1FmECin.WtScale.Abs ss.Net.ca1FmCa3.WtScale.Abs
                  ss.Net.ca3FmDg.WtScale.Rel qtr ++ qtrTailEvs ss.ViewOn train vu qtr) } := by
  unfold Sim.quarterStep
  simp only [cycles_fold_eq, qtrSwitch_eq, emit_eq, qtrView_eq]
  by_cases h3 : qtr + 1 = 3 <;> simp [h3, cyclesEvs, qtrTailEvs, Sim.emit]

theorem setNoLearn_dg (ss : Sim) :
    ss.setNoLearn.Net.ca3FmDg.WtScale = ss.Net.ca3FmDg.WtScale := by
  unfold Sim.setNoLearn
  simp only
  split_ifs <;> rfl

theorem range_four : List.range 4 = [0, 1, 2, 3] := rfl

theorem alphaEnd_eq (ss : Sim) (train : Bool) (vu : leabra.TimeScales) (dg : ℚ) :
    ss.alphaEnd train vu dg =
      { ss with Net := endNet ss.Net dg,
                Trace := ss.Trace ++ endEvs ss.ViewOn train vu ss.lratemulton ss.TstCycPlot } := by
  obtain ⟨net, hip, el, tm, viewOn, tru, teu, thr, edl, wpvc, cvcn, tt, lm, n1, n2, n3, n4, n5,
    ed, m, s1, s2, s3, plot, tr⟩ := ss
  unfold Sim.alphaEnd endEvs endNet
  cases train <;> cases viewOn <;> cases plot <;> by_cases hl : lm = 0 <;>
    by_cases hv : vu = .AlphaCycle <;> simp [Sim.emit, hl, hv]

theorem alphaStart_eq (ss : Sim) (train : Bool) (dg : ℚ) :
    ss.alphaStart train dg =
      { ss with Net := startNet ss.Net train ss.edl dg ss.Hip.MossyDel,
                Trace := ss.Trace ++ [.UpdateExtFlags, .AlphaCycInit, .AlphaCycStart] } := by
  obtain ⟨net, hip, el, tm, viewOn, tru, teu, thr, edl, wpvc, cvcn, tt, lm, n1, n2, n3, n4, n5,
    ed, m, s1, s2, s3, plot, tr⟩ := ss
  unfold Sim.alphaStart startNet
  cases train <;> by_cases he : edl = 1 <;> simp [Sim.emit, he]

theorem AlphaCyc_trace (ss : Sim) (train : Bool) :
    (ss.AlphaCyc train).Trace = ss.Trace ++ alphaEvents ss train := by
  have hdg := setNoLearn_dg ss
  have e1 : ss.setNoLearn.ViewOn = ss.ViewOn := rfl
  have e2 : ss.setNoLearn.Time = ss.Time := rfl
  have e3 : ss.setNoLearn.Hip = ss.Hip := rfl
  have e4 : ss.setNoLearn.edl = ss.edl := rfl
  have e5 : ss.setNoLearn.lratemulton = ss.lratemulton := rfl
  have e6 : ss.setNoLearn.TstCycPlot = ss.TstCycPlot := rfl
  have e7 : ss.setNoLearn.Trace = ss.Trace := rfl
  unfold Sim.AlphaCyc
  simp only [range_four, List.foldl_cons, List.foldl_nil, quarterStep_eq, alphaEnd_eq,
    alphaStart_eq]
  generalize ss.setNoLearn = s1 at *
  unfold alphaEvents qtrEvs Sim.dgRelQ1 Sim.dgRelQ234
  cases train <;> by_cases he : ss.edl = 1 <;>
    simp [hdg, e1, e2, e3, e4, e5, e6, e7, switchNet, startNet, he]

theorem range_flatMap_const {α : Type} (x : α) (n : Nat) :
    (List.range n).filterMap (fun _ => some x) = List.replicate n x := by
  induction n with
  | zero => rfl
  | succ n ih => rw [List.range_succ, List.filterMap_append, ih, List.replicate_succ']; rfl

theorem filterMap_const_none {α β : Type} (l : List α) :
    l.filterMap (fun _ => (none : Option β)) = [] := by
  induction l with
  | nil => rfl
  | cons x xs ih => simp [List.filterMap_cons]

theorem filterMap_cycViewEvs {α : Type} (f : Event → Option α)
    (hv : ∀ t, f (.UpdateView t) = none) (vo train : Bool) (vu : leabra.TimeScales)
    (cpq : Int) (cyc : Nat) : (cycViewEvs vo train vu cpq cyc).filterMap f = [] := by
  unfold cycViewEvs
  cases vo <;> cases vu <;> simp [hv]

theorem filterMap_cyclesEvs {α : Type} (f : Event → Option α)
    (hv : ∀ t, f (.UpdateView t) = none) (hl : f .LogTstCyc = none) (hc : f .CycleInc = none)
    (vo train : Bool) (vu : leabra.TimeScales) (cpq : Int) (a b r : ℚ) (qtr : Nat) :
    (cyclesEvs vo train vu cpq a b r qtr).filterMap f =
      (List.range cpq.toNat).filterMap (fun cyc => f (.Cycle qtr cyc a b r)) := by
  unfold cyclesEvs
  rw [List.filterMap_flatMap]
  have h : ∀ cyc, (cycEvs vo train vu cpq a b r qtr cyc).filterMap f =
      (f (.Cycle qtr cyc a b r)).toList := by
    intro cyc
    unfold cycEvs
    simp only [List.filterMap_append, filterMap_cycViewEvs f hv]
    cases train <;> cases hf : f (.Cycle qtr cyc a b r) <;> simp [hl, hc, hf]
  simp only [h]
  induction cpq.toNat with
  | zero => rfl
  | succ n ih =>
    rw [List.range_succ, List.flatMap_append, List.filterMap_append, ih]
    cases hf : f (.Cycle qtr n a b r) <;> simp [hf, List.flatMap]

theorem filterMap_qtrViewEvs {α : Type} (f : Event → Option α)
    (hv : ∀ t, f (.UpdateView t) = none) (vo train : Bool) (vu : leabra.TimeScales)
    (qtr : Nat) : (qtrViewEvs vo train vu qtr).filterMap f = [] := by
  unfold qtrViewEvs
  split
  · split
    · simp [hv]
    · split
      · split <;> simp [hv]
      · rfl
  · rfl

theorem filterMap_endEvs_view {α : Type} (f : Event → Option α)
    (hv : ∀ t, f (.UpdateView t) = none) (ht : ∀ t, f (.TrialStats t) = none)
    (hm : f .LrateMult = none) (hp : f .TstCycPlotGoUpdate = none)
    (vo train : Bool) (vu : leabra.TimeScales) (lm : Int) (plot : Bool) :
    (endEvs vo train vu lm plot).filterMap f =
      if train then [Event.DWt, Event.WtFmDWt].filterMap f else [] := by
  unfold endEvs
  cases hd : f .DWt <;> cases hw : f .WtFmDWt <;>
    cases train <;> cases vo <;> cases plot <;> by_cases h1 : lm = 0 <;>
    by_cases h2 : vu = .AlphaCycle <;>
    simp [List.filterMap_cons, hv, ht, hm, hp, h1, h2, hd, hw]

theorem filterMap_qtrTailEvs {α : Type} (f : Event → Option α)
    (hv : ∀ t, f (.UpdateView t) = none) (hg : f .GScaleFmAvgAct = none)
    (hi : f .InitGInc = none) (ha : f .ApplyExtECout = none) (hq : f .QuarterFinal = none)
    (hn : f .QuarterInc = none) (vo train : Bool) (vu : leabra.TimeScales) (qtr : Nat) :
    (qtrTailEvs vo train vu qtr).filterMap f =
      if qtr + 1 = 3 then [Event.MemStats train].filterMap f else [] := by
  unfold qtrTailEvs switchEvs
  simp only [List.filterMap_append, filterMap_qtrViewEvs f hv]
  by_cases h1 : qtr + 1 = 1
  · have h3 : ¬ (qtr + 1 = 3) := by omega
    simp [h1, hg, hi, hq, hn]
  · by_cases h3 : qtr + 1 = 3
    · cases train <;> simp [h3, hg, hi, ha, hq, hn]
    · simp [h1, h3, hq, hn]

/-- C1: in every `AlphaCyc` (train or test, whatever `edl` is), the cycle steps
are `CycPerQtr` steps of quarter 1 with (`CA1<-ECin`, `CA1<-CA3`) `WtScale.Abs`
equal to (1, 0), then `CycPerQtr` steps of quarter 2 and `CycPerQtr` steps of
quarter 3 with (0, 1), then `CycPerQtr` steps of quarter 4 with (1, 0). Each
entry of the list is (loop index `qtr`, which is the quarter minus one,
`CA1<-ECin WtScale.Abs`, `CA1<-CA3 WtScale.Abs`). -/
theorem C1_alphaCyc_pathway_scales (ss : Sim) (train : Bool) :
    ∃ evs, (ss.AlphaCyc train).Trace = ss.Trace ++ evs ∧
      evs.filterMap Event.cycleScales =
        List.replicate ss.Time.CycPerQtr.toNat (0, 1, 0)
          ++ List.replicate ss.Time.CycPerQtr.toNat (1, 0, 1)
          ++ List.replicate ss.Time.CycPerQtr.toNat (2, 0, 1)
          ++ List.replicate ss.Time.CycPerQtr.toNat (3, 1, 0) := by
  refine ⟨alphaEvents ss train, AlphaCyc_trace ss train, ?_⟩
  have hv : ∀ t, Event.cycleScales (.UpdateView t) = none := fun _ => rfl
  unfold alphaEvents qtrEvs
  simp only [List.filterMap_append,
    filterMap_cyclesEvs Event.cycleScales hv rfl rfl,
    filterMap_qtrTailEvs Event.cycleScales hv rfl rfl rfl rfl rfl,
    filterMap_endEvs_view Event.cycleScales hv (fun _ => rfl) rfl rfl]
  simp [Event.cycleScales, range_flatMap_const]

/-- C2: in every `AlphaCyc`, the cycle steps and `MemStats` come in this order:
`CycPerQtr` steps of quarter 1, of quarter 2, of quarter 3, then the one call
of `MemStats`, then `CycPerQtr` steps of quarter 4; `DWt` and `WtFmDWt` (when
training) come after all of them. `Step.cycle qtr` carries the loop index
`qtr`, which is the quarter minus one. -/
theorem C2_alphaCyc_phase_order (ss : Sim) (train : Bool) :
    ∃ evs, (ss.AlphaCyc train).Trace = ss.Trace ++ evs ∧
      evs.filterMap Event.step =
        List.replicate ss.Time.CycPerQtr.toNat (Step.cycle 0)
          ++ List.replicate ss.Time.CycPerQtr.toNat (Step.cycle 1)
          ++ List.replicate ss.Time.CycPerQtr.toNat (Step.cycle 2)
          ++ [Step.memStats]
          ++ List.replicate ss.Time.CycPerQtr.toNat (Step.cycle 3)
          ++ (if train then [Step.dwt, Step.wtFmDWt] else []) := by
  refine ⟨alphaEvents ss train, AlphaCyc_trace ss train, ?_⟩
  have hv : ∀ t, Event.step (.UpdateView t) = none := fun _ => rfl
  unfold alphaEvents qtrEvs
  simp only [List.filterMap_append,
    filterMap_cyclesEvs Event.step hv rfl rfl,
    filterMap_qtrTailEvs Event.step hv rfl rfl rfl rfl rfl,
    filterMap_endEvs_view Event.step hv (fun _ => rfl) rfl rfl]
  cases train <;> simp [Event.step, range_flatMap_const]

/-- C3: the weight-update calls of an `AlphaCyc` are `Net.DWt` then
`Net.WtFmDWt`, once, when `train` is true, and none when `train` is false. -/
theorem C3_alphaCyc_weight_update_iff_train (ss : Sim) (train : Bool) :
    ∃ evs, (ss.AlphaCyc train).Trace = ss.Trace ++ evs ∧
      evs.filter Event.isWeightUpdate = if train then [Event.DWt, Event.WtFmDWt] else [] := by
  refine ⟨alphaEvents ss train, AlphaCyc_trace ss train, ?_⟩
  have hv : ∀ t, Option.guard (fun e => Event.isWeightUpdate e = true) (.UpdateView t) = none :=
    fun _ => rfl
  rw [← List.filterMap_eq_filter]
  unfold alphaEvents qtrEvs
  simp only [List.filterMap_append,
    filterMap_cyclesEvs _ hv rfl rfl,
    filterMap_qtrTailEvs _ hv rfl rfl rfl rfl rfl,
    filterMap_endEvs_view _ hv (fun _ => rfl) rfl rfl]
  cases train <;> simp [Event.isWeightUpdate, Option.guard, filterMap_const_none]

theorem foldl_memStatsUnit (ss : Sim) (l : List Int) (c : MemCounts) :
    l.foldl (memStatsUnit ss.Net.ECout ss.Net.ECin) c =
      { trgOnWasOffAll := c.trgOnWasOffAll + (l.filter ss.isTrgOnMiss).length,
        trgOnWasOffCmp := c.trgOnWasOffCmp + (l.filter ss.isCmpMiss).length,
        trgOffWasOn := c.trgOffWasOn + (l.filter ss.isFalseAlarm).length,
        cmpN := c.cmpN + (l.filter ss.isCmp).length,
        trgOnN := c.trgOnN + (l.filter ss.isTrgOn).length,
        trgOffN := c.trgOffN + (l.filter ss.isTrgOff).length } := by
  induction l generalizing c with
  | nil => simp
  | cons ni l ih =>
    rw [List.foldl_cons, ih]
    unfold memStatsUnit
    simp only [List.filter_cons, Sim.isTrgOnMiss, Sim.isCmpMiss, Sim.isFalseAlarm, Sim.isCmp,
      Sim.isTrgOn, Sim.isTrgOff, one_div]
    by_cases ht : ss.Net.ECout.Targ ni < 2⁻¹
    · have ht2 : ¬ (ss.Net.ECout.Targ ni ≥ 2⁻¹) := not_le.mpr ht
      by_cases ha : ss.Net.ECout.ActM ni > 2⁻¹ <;> simp [ht, ht2, ha] <;> omega
    · have ht2 : ss.Net.ECout.Targ ni ≥ 2⁻¹ := not_lt.mp ht
      by_cases hi : ss.Net.ECin.ActQ1 ni < 2⁻¹ <;>
        by_cases ha : ss.Net.ECout.ActM ni < 2⁻¹ <;> simp [ht, ht2, hi, ha] <;> omega

theorem memCounts_eq (ss : Sim) :
    ss.memCounts =
      { trgOnWasOffAll := countWin ss.ind1 ss.ind2 ss.isTrgOnMiss,
        trgOnWasOffCmp := countWin ss.ind1 ss.ind2 ss.isCmpMiss,
        trgOffWasOn := countWin ss.ind1 ss.ind2 ss.isFalseAlarm,
        cmpN := countWin ss.ind1 ss.ind2 ss.isCmp,
        trgOnN := countWin ss.ind1 ss.ind2 ss.isTrgOn,
        trgOffN := countWin ss.ind1 ss.ind2 ss.isTrgOff } := by
  unfold Sim.memCounts
  rw [foldl_memStatsUnit]
  simp [MemCounts.zero, countWin]

theorem div_ofCount_pos (n d : Nat) (h : 1 ≤ d) :
    F64.div (F64.ofCount n) (F64.ofCount d) = F64.fin ((n : ℚ) / (d : ℚ)) := by
  have hd : (d : ℚ) ≠ 0 := by
    have : 0 < d := h
    exact_mod_cast this.ne'
  simp [F64.div, F64.ofCount, hd]

theorem gt_ofCount_zero (n : Nat) : F64.gt (F64.ofCount n) (F64.fin 0) = decide (1 ≤ n) := by
  simp [F64.gt, F64.lt, F64.ofCount, Nat.pos_iff_ne_zero, Nat.one_le_iff_ne_zero]

/-- C4: in test mode, when the scored window has a completion unit and a
target-OFF unit, `Mem` becomes 1 if the completion miss rate and the
false-alarm rate are both strictly below `MemThr`, and 0 otherwise. -/
theorem C4_memStats_test_mem (ss : Sim)
    (hc : 1 ≤ countWin ss.ind1 ss.ind2 ss.isCmp)
    (ho : 1 ≤ countWin ss.ind1 ss.ind2 ss.isTrgOff) :
    (ss.MemStats false).Mem =
      if F64.lt (F64.fin ss.cmpMissRate) ss.MemThr = true ∧
          F64.lt (F64.fin ss.falseAlarmRate) ss.MemThr = true
      then F64.fin 1 else F64.fin 0 := by
  unfold Sim.MemStats
  simp only [memCounts_eq, gt_ofCount_zero, div_ofCount_pos _ _ hc, div_ofCount_pos _ _ ho,
    Sim.cmpMissRate, Sim.falseAlarmRate]
  simp only [hc, decide_True, if_true, Bool.false_eq_true, if_false, Bool.and_eq_true]
  split <;> rfl

/-- C5: in test mode, when the scored window has a completion unit, the stored
`TrgOnWasOffCmp` is the number of completion units that ECout left off divided
by the number of completion units. -/
theorem C5_memStats_test_cmp_rate (ss : Sim)
    (hc : 1 ≤ countWin ss.ind1 ss.ind2 ss.isCmp) :
    (ss.MemStats false).TrgOnWasOffCmp =
      F64.fin ((countWin ss.ind1 ss.ind2 ss.isCmpMiss : ℚ) /
        (countWin ss.ind1 ss.ind2 ss.isCmp : ℚ)) := by
  unfold Sim.MemStats
  simp only [memCounts_eq, gt_ofCount_zero, div_ofCount_pos _ _ hc]
  simp only [hc, decide_True, if_true, Bool.false_eq_true, if_false]
  split <;> rfl

/-- C6: in either mode, when the scored window has a target-OFF unit, the
stored `TrgOffWasOn` is the number of target-OFF units with `ActM > 0.5`
divided by the number of target-OFF units; and a unit whose `ActM` is exactly
`0.5` does not raise the loop's counter `trgOffWasOn`. -/
theorem C6_memStats_false_alarm_rate (ss : Sim) (train : Bool)
    (ho : 1 ≤ countWin ss.ind1 ss.ind2 ss.isTrgOff) :
    (ss.MemStats train).TrgOffWasOn =
        F64.fin ((countWin ss.ind1 ss.ind2 ss.isFalseAlarm : ℚ) /
          (countWin ss.ind1 ss.ind2 ss.isTrgOff : ℚ)) ∧
      ∀ (c : MemCounts) (ni : Int), ss.Net.ECout.ActM ni = 1 / 2 →
        (memStatsUnit ss.Net.ECout ss.Net.ECin c ni).trgOffWasOn = c.trgOffWasOn := by
  constructor
  · unfold Sim.MemStats
    simp only [memCounts_eq, div_ofCount_pos _ _ ho]
  · intro c ni h
    unfold memStatsUnit
    simp only [h]
    split_ifs <;> first | rfl | (exfalso; linarith)

theorem LrateMod_below (em : ErrLrateModParams) (err : ℚ) (h : err < em.Range.Min) :
    em.LrateMod err = em.Base := by
  simp [ErrLrateModParams.LrateMod, h]

theorem LrateMod_above (em : ErrLrateModParams) (err : ℚ) (hr : em.Range.Min < em.Range.Max)
    (h : em.Range.Max < err) : em.LrateMod err = 1 := by
  have h1 : ¬ err < em.Range.Min := not_lt.mpr (le_of_lt (lt_trans hr h))
  simp [ErrLrateModParams.LrateMod, h, h1]

theorem LrateMod_linear (em : ErrLrateModParams) (err : ℚ) (hr : em.Range.Min < em.Range.Max)
    (h1 : em.Range.Min ≤ err) (h2 : err ≤ em.Range.Max) :
    em.LrateMod err =
      em.Base + ((err - em.Range.Min) / (em.Range.Max - em.Range.Min)) * (1 - em.Base) := by
  have hne : em.Range.Max - em.Range.Min ≠ 0 := sub_ne_zero.mpr (ne_of_gt hr)
  simp [ErrLrateModParams.LrateMod, minmax.F32.NormVal, minmax.F32.ClipVal, minmax.F32.Scale,
    minmax.F32.Range, not_lt.mpr h1, not_lt.mpr h2, hne, div_eq_mul_inv]

theorem memCounts_congr (a b : Sim) (h : MemInputsEq a b) : a.memCounts = b.memCounts := by
  obtain ⟨h1, h2, h3, h4, h5, h6, h7, _⟩ := h
  have hi1 : a.ind1 = b.ind1 := by simp [Sim.ind1, h4, h6, h7]
  have hi2 : a.ind2 = b.ind2 := by simp [Sim.ind2, h4, h5, h6, h7]
  have hu : memStatsUnit a.Net.ECout a.Net.ECin = memStatsUnit b.Net.ECout b.Net.ECin := by
    funext c ni
    simp [memStatsUnit, h1, h2, h3]
  simp [Sim.memCounts, hi1, hi2, hu]

/-- C10 as amended: on identical inputs `MemStats` stores identical
`TrgOnWasOffAll`, `TrgOnWasOffCmp` and `TrgOffWasOn`, whatever the four fields
held before; `Mem` too, in training mode and, in test mode, when the scored
window has a completion unit; in test mode without a completion unit `Mem`
keeps the value it had before the call. -/
theorem C10_memStats_pure_except_stale_mem (a b : Sim) (train : Bool) (h : MemInputsEq a b) :
    (a.MemStats train).TrgOnWasOffAll = (b.MemStats train).TrgOnWasOffAll ∧
      (a.MemStats train).TrgOnWasOffCmp = (b.MemStats train).TrgOnWasOffCmp ∧
      (a.MemStats train).TrgOffWasOn = (b.MemStats train).TrgOffWasOn ∧
      ((train = true ∨ 1 ≤ countWin a.ind1 a.ind2 a.isCmp) →
        (a.MemStats train).Mem = (b.MemStats train).Mem) ∧
      (train = false → countWin a.ind1 a.ind2 a.isCmp = 0 →
        (a.MemStats train).Mem = a.Mem) := by
  have hc := memCounts_congr a b h
  have hthr : a.MemThr = b.MemThr := h.2.2.2.2.2.2.2
  have hcmp : a.memCounts.cmpN = countWin a.ind1 a.ind2 a.isCmp := by rw [memCounts_eq]
  refine ⟨?_, ?_, ?_, ?_, ?_⟩
  · simp [Sim.MemStats, hc]
  · cases train
    · simp only [Sim.MemStats, hc, hthr]
      split_ifs <;> rfl
    · simp only [Sim.MemStats, hc, hthr]
      split_ifs <;> rfl
  · simp [Sim.MemStats, hc]
  · intro hm
    cases train
    · have h1 : 1 ≤ b.memCounts.cmpN := by
        rw [← hc, hcmp]
        rcases hm with hm | hm
        · exact absurd hm (by decide)
        · exact hm
      simp only [Sim.MemStats, hc, hthr, gt_ofCount_zero, h1]
      simp
    · simp only [Sim.MemStats, hc, hthr]
      simp
  · intro ht h0
    subst ht
    have h1 : ¬ (1 ≤ a.memCounts.cmpN) := by rw [hcmp, h0]; decide
    simp only [Sim.MemStats, gt_ofCount_zero, h1]
    simp

/-! ## The statements at concrete inputs -/

theorem exSim_window : window exSim.ind1 exSim.ind2 = [2, 3] := by decide

theorem exSim_cmp : countWin exSim.ind1 exSim.ind2 exSim.isCmp = 1 := by
  rw [countWin, exSim_window]
  simp only [List.filter_cons, List.filter_nil, Sim.isCmp]
  norm_num [exSim, exNet, exECout, exECin]

theorem exSim_cmpMiss : countWin exSim.ind1 exSim.ind2 exSim.isCmpMiss = 0 := by
  rw [countWin, exSim_window]
  simp only [List.filter_cons, List.filter_nil, Sim.isCmpMiss, Sim.isCmp]
  norm_num [exSim, exNet, exECout, exECin]

theorem exSim_trgOff : countWin exSim.ind1 exSim.ind2 exSim.isTrgOff = 1 := by
  rw [countWin, exSim_window]
  simp only [List.filter_cons, List.filter_nil, Sim.isTrgOff]
  norm_num [exSim, exNet, exECout, exECin]

theorem exSim_falseAlarm : countWin exSim.ind1 exSim.ind2 exSim.isFalseAlarm = 0 := by
  rw [countWin, exSim_window]
  simp only [List.filter_cons, List.filter_nil, Sim.isFalseAlarm, Sim.isTrgOff]
  norm_num [exSim, exNet, exECout, exECin]

/-- C4 at `exSim`: one completion unit, recalled, and one target-OFF unit, left
off, so both rates are 0, below `MemThr = 0.2`, and `Mem` is 1. -/
theorem C4_memStats_test_mem_witness :
    1 ≤ countWin exSim.ind1 exSim.ind2 exSim.isCmp ∧
      1 ≤ countWin exSim.ind1 exSim.ind2 exSim.isTrgOff ∧
      (exSim.MemStats false).Mem = F64.fin 1 :=
  ⟨by rw [exSim_cmp], by rw [exSim_trgOff],
    (C4_memStats_test_mem exSim (by rw [exSim_cmp]) (by rw [exSim_trgOff])).trans (by
      simp only [Sim.cmpMissRate, Sim.falseAlarmRate, exSim_cmp, exSim_cmpMiss, exSim_trgOff,
        exSim_falseAlarm]
      norm_num [F64.lt, exSim])⟩

/-- C5 at `exSim`: no missed completion unit out of one. -/
theorem C5_memStats_test_cmp_rate_witness :
    1 ≤ countWin exSim.ind1 exSim.ind2 exSim.isCmp ∧
      (exSim.MemStats false).TrgOnWasOffCmp = F64.fin 0 :=
  ⟨by rw [exSim_cmp],
    (C5_memStats_test_cmp_rate exSim (by rw [exSim_cmp])).trans (by
      rw [exSim_cmp, exSim_cmpMiss]; norm_num)⟩

/-- C6 at `exSim`, in training mode: no false alarm out of one target-OFF
unit. -/
theorem C6_memStats_false_alarm_rate_witness :
    1 ≤ countWin exSim.ind1 exSim.ind2 exSim.isTrgOff ∧
      (exSim.MemStats true).TrgOffWasOn = F64.fin 0 :=
  ⟨by rw [exSim_trgOff],
    (C6_memStats_false_alarm_rate exSim true (by rw [exSim_trgOff])).1.trans (by
      rw [exSim_trgOff, exSim_falseAlarm]; norm_num)⟩

theorem staleA_window : window staleA.ind1 staleA.ind2 = [2, 3] := by decide

theorem staleB_window : window staleB.ind1 staleB.ind2 = [2, 3] := by decide

theorem staleA_cmp : countWin staleA.ind1 staleA.ind2 staleA.isCmp = 0 := by
  rw [countWin, staleA_window]
  simp only [List.filter_cons, List.filter_nil, Sim.isCmp]
  norm_num [staleA, exSim, exNet, exECout, staleECin]

theorem staleB_cmp : countWin staleB.ind1 staleB.ind2 staleB.isCmp = 0 := by
  rw [countWin, staleB_window]
  simp only [List.filter_cons, List.filter_nil, Sim.isCmp]
  norm_num [staleB, staleA, exSim, exNet, exECout, staleECin]

theorem staleA_inputs : MemInputsEq staleA staleB :=
  ⟨rfl, rfl, rfl, rfl, rfl, rfl, rfl, rfl⟩

theorem MemStats_test_no_cmp (ss : Sim) (h : countWin ss.ind1 ss.ind2 ss.isCmp = 0) :
    (ss.MemStats false).Mem = ss.Mem := by
  have h1 : ¬ (1 ≤ countWin ss.ind1 ss.ind2 ss.isCmp) := by rw [h]; decide
  simp only [Sim.MemStats, memCounts_eq, gt_ofCount_zero, h1]
  simp

/-- C10 fails as stated: `staleA` and `staleB` give `MemStats` identical
inputs and differ only in the `Mem` they hold before the call; in test mode,
with no completion unit in the window, `staleA` ends with `Mem = 0` and
`staleB` with `Mem = 1`. -/
theorem C10_memStats_stale_mem_counterexample :
    MemInputsEq staleA staleB ∧
      (staleA.MemStats false).Mem = F64.fin 0 ∧ (staleB.MemStats false).Mem = F64.fin 1 ∧
      (staleA.MemStats false).Mem ≠ (staleB.MemStats false).Mem := by
  have ha : (staleA.MemStats false).Mem = F64.fin 0 := MemStats_test_no_cmp staleA staleA_cmp
  have hb : (staleB.MemStats false).Mem = F64.fin 1 := MemStats_test_no_cmp staleB staleB_cmp
  refine ⟨staleA_inputs, ha, hb, ?_⟩
  rw [ha, hb]
  decide

/-- C10 as amended, at `staleA` and `staleB` in test mode: the three rates
agree, and `Mem` stays what it was. -/
theorem C10_memStats_pure_except_stale_mem_witness :
    MemInputsEq staleA staleB ∧
      (staleA.MemStats false).TrgOnWasOffAll = (staleB.MemStats false).TrgOnWasOffAll ∧
      (staleA.MemStats false).TrgOnWasOffCmp = (staleB.MemStats false).TrgOnWasOffCmp ∧
      (staleA.MemStats false).TrgOffWasOn = (staleB.MemStats false).TrgOffWasOn ∧
      (staleA.MemStats false).Mem = staleA.Mem :=
  have h := C10_memStats_pure_except_stale_mem staleA staleB false staleA_inputs
  ⟨staleA_inputs, h.1, h.2.1, h.2.2.1, h.2.2.2.2 rfl staleA_cmp⟩


/-! ## `MemStats` on a window without target-ON units -/

theorem countWin_mono (a b : Int) (p q : Int → Bool) (h : ∀ i, p i = true → q i = true) :
    countWin a b p ≤ countWin a b q := by
  unfold countWin
  rw [← List.countP_eq_length_filter, ← List.countP_eq_length_filter]
  exact List.countP_mono_left (fun x _ hx => h x hx)

theorem countWin_cmp_le_trgOn (ss : Sim) :
    countWin ss.ind1 ss.ind2 ss.isCmp ≤ countWin ss.ind1 ss.ind2 ss.isTrgOn := by
  apply countWin_mono
  intro i hi
  simp only [Sim.isCmp, Sim.isTrgOn, Bool.and_eq_true] at hi ⊢
  exact hi.1

theorem countWin_cmpMiss_le_cmp (ss : Sim) :
    countWin ss.ind1 ss.ind2 ss.isCmpMiss ≤ countWin ss.ind1 ss.ind2 ss.isCmp := by
  apply countWin_mono
  intro i hi
  simp only [Sim.isCmpMiss, Bool.and_eq_true] at hi
  exact hi.1

theorem countWin_trgOnMiss_le_trgOn (ss : Sim) :
    countWin ss.ind1 ss.ind2 ss.isTrgOnMiss ≤ countWin ss.ind1 ss.ind2 ss.isTrgOn := by
  apply countWin_mono
  intro i hi
  simp only [Sim.isTrgOnMiss, Bool.and_eq_true] at hi
  exact hi.1

theorem MemStats_train_no_trgOn (ss : Sim)
    (h : countWin ss.ind1 ss.ind2 ss.isTrgOn = 0) :
    (ss.MemStats true).TrgOnWasOffAll = F64.nan ∧ (ss.MemStats true).Mem = F64.fin 0 := by
  have hm : countWin ss.ind1 ss.ind2 ss.isTrgOnMiss = 0 :=
    Nat.le_zero.mp (h ▸ countWin_trgOnMiss_le_trgOn ss)
  have hnan : F64.div (F64.ofCount 0) (F64.ofCount 0) = F64.nan := by
    simp [F64.div, F64.ofCount]
  constructor
  · simp only [Sim.MemStats, memCounts_eq, h, hm, hnan]
  · simp only [Sim.MemStats, memCounts_eq, h, hm, hnan]
    simp [F64.lt]

theorem blankSim_window : window blankSim.ind1 blankSim.ind2 = [2, 3] := by decide

theorem blankSim_trgOn : countWin blankSim.ind1 blankSim.ind2 blankSim.isTrgOn = 0 := by
  rw [countWin, blankSim_window]
  simp only [List.filter_cons, List.filter_nil, Sim.isTrgOn]
  norm_num [blankSim, exSim, exNet, blankECout]

theorem blankSim_trgOff : countWin blankSim.ind1 blankSim.ind2 blankSim.isTrgOff = 2 := by
  rw [countWin, blankSim_window]
  simp only [List.filter_cons, List.filter_nil, Sim.isTrgOff]
  norm_num [blankSim, exSim, exNet, blankECout]

theorem blankSim_falseAlarm :
    countWin blankSim.ind1 blankSim.ind2 blankSim.isFalseAlarm = 0 := by
  rw [countWin, blankSim_window]
  simp only [List.filter_cons, List.filter_nil, Sim.isFalseAlarm, Sim.isTrgOff]
  norm_num [blankSim, exSim, exNet, blankECout]

/-- C11 fails as stated: on `blankSim`, whose window has no target-ON unit, a
training call divides 0 by 0, so the stored miss rate `TrgOnWasOffAll` is NaN,
and `Mem` is 0 although the remaining rate, the false-alarm rate, is 0, below
`MemThr = 0.2`. -/
theorem C11_memStats_nan_counterexample :
    countWin blankSim.ind1 blankSim.ind2 blankSim.isTrgOn = 0 ∧
      (blankSim.MemStats true).TrgOnWasOffAll = F64.nan ∧
      (blankSim.MemStats true).TrgOffWasOn = F64.fin 0 ∧
      F64.lt (F64.fin 0) blankSim.MemThr = true ∧
      (blankSim.MemStats true).Mem = F64.fin 0 := by
  refine ⟨blankSim_trgOn, (MemStats_train_no_trgOn blankSim blankSim_trgOn).1, ?_, ?_,
    (MemStats_train_no_trgOn blankSim blankSim_trgOn).2⟩
  · have h2 : 1 ≤ countWin blankSim.ind1 blankSim.ind2 blankSim.isTrgOff := by
      rw [blankSim_trgOff]; decide
    simp only [Sim.MemStats, memCounts_eq, div_ofCount_pos _ _ h2]
    rw [blankSim_trgOff, blankSim_falseAlarm]
    norm_num
  · norm_num [F64.lt, blankSim, exSim]

/-- C11 as amended: a window without target-ON unit has no completion unit;
and in test mode, when the window has no completion unit, the completion miss
rate is not divided (`TrgOnWasOffCmp` is stored as 0, not NaN) and the memory
decision is skipped: `Mem` keeps the value it had before the call. -/
theorem C11_memStats_test_skips_without_cmp (ss : Sim) :
    (countWin ss.ind1 ss.ind2 ss.isTrgOn = 0 → countWin ss.ind1 ss.ind2 ss.isCmp = 0) ∧
      (countWin ss.ind1 ss.ind2 ss.isCmp = 0 →
        (ss.MemStats false).TrgOnWasOffCmp = F64.fin 0 ∧ (ss.MemStats false).Mem = ss.Mem) := by
  refine ⟨fun h => Nat.le_zero.mp (h ▸ countWin_cmp_le_trgOn ss), fun h => ?_⟩
  have hm : countWin ss.ind1 ss.ind2 ss.isCmpMiss = 0 :=
    Nat.le_zero.mp (h ▸ countWin_cmpMiss_le_cmp ss)
  have h1 : ¬ (1 ≤ countWin ss.ind1 ss.ind2 ss.isCmp) := by rw [h]; decide
  constructor
  · simp only [Sim.MemStats, memCounts_eq, gt_ofCount_zero, h1, hm]
    simp [F64.ofCount]
  · simp only [Sim.MemStats, memCounts_eq, gt_ofCount_zero, h1]
    simp

/-- C11 as amended, at `blankSim` in test mode. -/
theorem C11_memStats_test_skips_without_cmp_witness :
    countWin blankSim.ind1 blankSim.ind2 blankSim.isTrgOn = 0 ∧
      (blankSim.MemStats false).TrgOnWasOffCmp = F64.fin 0 ∧
      (blankSim.MemStats false).Mem = blankSim.Mem :=
  have h := C11_memStats_test_skips_without_cmp blankSim
  ⟨blankSim_trgOn, (h.2 (h.1 blankSim_trgOn)).1, (h.2 (h.1 blankSim_trgOn)).2⟩


/-! ## The clamp and `MemStats`; the mossy pathway -/

theorem filterMap_qtrTailEvs_clamp {α : Type} (f : Event → Option α)
    (hv : ∀ t, f (.UpdateView t) = none) (hg : f .GScaleFmAvgAct = none)
    (hi : f .InitGInc = none) (hq : f .QuarterFinal = none)
    (hn : f .QuarterInc = none) (vo train : Bool) (vu : leabra.TimeScales) (qtr : Nat) :
    (qtrTailEvs vo train vu qtr).filterMap f =
      if qtr + 1 = 3 then
        (if train then [Event.ApplyExtECout].filterMap f else [])
          ++ [Event.MemStats train].filterMap f
      else [] := by
  unfold qtrTailEvs switchEvs
  simp only [List.filterMap_append, filterMap_qtrViewEvs f hv]
  by_cases h1 : qtr + 1 = 1
  · have h3 : ¬ (qtr + 1 = 3) := by omega
    simp [h1, hg, hi, hq, hn]
  · by_cases h3 : qtr + 1 = 3
    · cases train <;> simp [h3, hg, hi, hq, hn]
    · simp [h1, h3, hq, hn]

theorem alphaEvents_clamp_memStats (ss : Sim) (train : Bool) :
    (alphaEvents ss train).filter Event.isClampOrMemStats =
      if train then [Event.ApplyExtECout, Event.MemStats true] else [Event.MemStats false] := by
  have hv : ∀ t, Option.guard (fun e => Event.isClampOrMemStats e = true) (.UpdateView t) = none :=
    fun _ => rfl
  rw [← List.filterMap_eq_filter]
  unfold alphaEvents qtrEvs
  simp only [List.filterMap_append,
    filterMap_cyclesEvs _ hv rfl rfl,
    filterMap_qtrTailEvs_clamp _ hv rfl rfl rfl rfl,
    filterMap_endEvs_view _ hv (fun _ => rfl) rfl rfl]
  cases train <;> simp [Event.isClampOrMemStats, Option.guard, filterMap_const_none]

theorem alphaEvents_dgRel (ss : Sim) (train : Bool) :
    (alphaEvents ss train).filterMap Event.cycleDgRel =
      List.replicate ss.Time.CycPerQtr.toNat (0, ss.dgRelQ1)
        ++ List.replicate ss.Time.CycPerQtr.toNat (1, ss.dgRelQ234 train)
        ++ List.replicate ss.Time.CycPerQtr.toNat (2, ss.dgRelQ234 train)
        ++ List.replicate ss.Time.CycPerQtr.toNat (3, ss.dgRelQ234 train) := by
  have hv : ∀ t, Event.cycleDgRel (.UpdateView t) = none := fun _ => rfl
  unfold alphaEvents qtrEvs
  simp only [List.filterMap_append,
    filterMap_cyclesEvs Event.cycleDgRel hv rfl rfl,
    filterMap_qtrTailEvs Event.cycleDgRel hv rfl rfl rfl rfl rfl,
    filterMap_endEvs_view Event.cycleDgRel hv (fun _ => rfl) rfl rfl]
  simp [Event.cycleDgRel, range_flatMap_const]

theorem exSim_alphaCyc_trace (train : Bool) :
    (exSim.AlphaCyc train).Trace = alphaEvents exSim train := by
  rw [AlphaCyc_trace]
  rfl

/-- C12, what the code does at the failing input: in the training trial
`exSim.AlphaCyc true` the clamp of ECout from ECin (`ApplyExtECout`, made in
`case 3` of the `switch qtr + 1`) is called before `MemStats`, not after it. -/
theorem C12_alphaCyc_clamp_precedes_memStats :
    (exSim.AlphaCyc true).Trace.filter Event.isClampOrMemStats =
      [Event.ApplyExtECout, Event.MemStats true] := by
  rw [exSim_alphaCyc_trace, alphaEvents_clamp_memStats]
  rfl

/-- C13 fails as stated: with `MossyDel = 4`, `MossyDelTest = 3` and a baseline
`WtScale.Rel = 4` (`exSim`), the cycles of quarters 2 and 3 run with
`WtScale.Rel = 4` in a training trial and with `WtScale.Rel = 1` in a test
trial: the training value is not lower than the test value. -/
theorem C13_mossy_train_not_lower_counterexample :
    0 < exSim.Hip.MossyDel ∧ 0 < exSim.Hip.MossyDelTest ∧
      (exSim.AlphaCyc true).Trace.filterMap Event.cycleDgRel =
        List.replicate 25 (0, 0) ++ List.replicate 25 (1, 4) ++ List.replicate 25 (2, 4)
          ++ List.replicate 25 (3, 4) ∧
      (exSim.AlphaCyc false).Trace.filterMap Event.cycleDgRel =
        List.replicate 25 (0, 0) ++ List.replicate 25 (1, 1) ++ List.replicate 25 (2, 1)
          ++ List.replicate 25 (3, 1) ∧
      ¬ (exSim.dgRelQ234 true < exSim.dgRelQ234 false) := by
  have q1 : exSim.dgRelQ1 = 0 := by
    norm_num [Sim.dgRelQ1, exSim, exNet, exPrjn, Binary32.subFin, Binary32.nearest_zero]
  have qt : exSim.dgRelQ234 true = 4 := by norm_num [Sim.dgRelQ234, exSim, exNet, exPrjn]
  have qf : exSim.dgRelQ234 false = 1 := by
    norm_num [Sim.dgRelQ234, exSim, exNet, exPrjn, Binary32.subFin, Binary32.nearest_one]
  have hn : exSim.Time.CycPerQtr.toNat = 25 := by decide
  refine ⟨by norm_num [exSim], by norm_num [exSim], ?_, ?_, by rw [qt, qf]; norm_num⟩
  · rw [exSim_alphaCyc_trace, alphaEvents_dgRel, q1, qt, hn]
  · rw [exSim_alphaCyc_trace, alphaEvents_dgRel, q1, qf, hn]

theorem nearest_abs_error (x : ℚ) :
    |Binary32.nearest x - x| ≤
      |x| / 16777216 + 1 / 1427247692705959881058285969449495136382746624 := by
  have h := Binary32.nearest_error x
  have e1 : (2 : ℚ) ^ (-24 : Int) = 1 / 16777216 := by norm_num
  have e2 : (2 : ℚ) ^ (-150 : Int) = 1 / 1427247692705959881058285969449495136382746624 := by
    norm_num
  rw [e1, e2] at h
  linarith

theorem subFin_le (a b : ℚ) (ha : Binary32.nearest a = a) (hb : 0 ≤ b) :
    Binary32.subFin a b ≤ a := by
  have h := Binary32.nearest_mono (x := a - b) (y := a) (by linarith)
  rw [ha] at h
  exact h

theorem subFin_lt (a b : ℚ) (ha : Binary32.nearest a = a)
    (hb : |a| / 2 ^ 23 + 1 / 2 ^ 149 < b) : Binary32.subFin a b < a := by
  have hA : 0 ≤ |a| := abs_nonneg a
  have hb2 : |a| / 8388608 + 1 / 713623846352979940529142984724747568191373312 < b := by
    have e : |a| / 2 ^ 23 + 1 / 2 ^ 149 =
        |a| / 8388608 + 1 / 713623846352979940529142984724747568191373312 := by norm_num
    rw [← e]
    exact hb
  have hb0 : 0 < b := by
    have : 0 ≤ |a| / 8388608 := div_nonneg hA (by norm_num)
    linarith
  rcases lt_or_eq_of_le (subFin_le a b ha (le_of_lt hb0)) with h | h
  · exact h
  · exfalso
    have he := nearest_abs_error (a - b)
    unfold Binary32.subFin at h
    rw [h, abs_le] at he
    have h1 : |a - b| ≤ |a| + b := by
      have := abs_sub a b
      rwa [abs_of_pos hb0] at this
    have h2 : |a - b| / 16777216 ≤ (|a| + b) / 16777216 :=
      div_le_div_of_nonneg_right h1 (by norm_num)
    linarith [he.2]

theorem sub_fin_subFin (a b : ℚ) (ha : |a| ≤ 2 ^ 126) (hb : |b| ≤ 2 ^ 126) :
    Binary32.sub (.fin a) (.fin b) = .fin (Binary32.subFin a b) := by
  rw [Binary32.sub_fin]
  apply Binary32.ofRat_eq_fin
  have h1 : |a - b| ≤ |a| + |b| := abs_sub a b
  have h2 : (2 : ℚ) ^ 126 + 2 ^ 126 = 170141183460469231731687303715884105728 := by norm_num
  linarith

/-- A small `MossyDelTest` is absorbed by the `float32` subtraction:
`4 - 2 ^ -30` is `4`. -/
theorem subFin_absorbs : Binary32.subFin 4 (1 / 2 ^ 30) = 4 := by
  unfold Binary32.subFin
  have h := Binary32.nearest_eq_of (4 - 1 / 2 ^ 30) 1 16777216 (by norm_num [abs_of_pos])
    (by norm_num [abs_of_pos]) (by norm_num)
    (Binary32.roundEven_eq_of_abs_lt _ _ (by norm_num [abs_lt]))
  rw [h]
  norm_num

/-- C13 as amended: the cycles of quarter 1 run with `CA3<-DG WtScale.Rel`
equal to the `float32` difference baseline minus `MossyDel` when `edl = 1` (the
baseline otherwise), in both modes; the cycles of quarters 2, 3 and 4 run with
the baseline when training and with the `float32` difference baseline minus
`MossyDelTest` when testing (the difference Go computes, for magnitudes up to
`2 ^ 126`); so for `MossyDelTest > 0` the value of quarters 2 and 3 in a test
trial is not above the value in a training trial, and it is lower whenever
`MossyDelTest` exceeds `2 ^ -23` times the magnitude of the baseline plus
`2 ^ -149`, so that the subtraction does not absorb it. The baseline is a
`float32` value. Each entry of the list is (loop index `qtr`, which is the
quarter minus one, `WtScale.Rel`). -/
theorem C13_mossy_scale_by_quarter (ss : Sim) (train : Bool) :
    (∃ evs, (ss.AlphaCyc train).Trace = ss.Trace ++ evs ∧
      evs.filterMap Event.cycleDgRel =
        List.replicate ss.Time.CycPerQtr.toNat (0, ss.dgRelQ1)
          ++ List.replicate ss.Time.CycPerQtr.toNat (1, ss.dgRelQ234 train)
          ++ List.replicate ss.Time.CycPerQtr.toNat (2, ss.dgRelQ234 train)
          ++ List.replicate ss.Time.CycPerQtr.toNat (3, ss.dgRelQ234 train)) ∧
      ss.dgRelQ1 =
        (if ss.edl = 1 then Binary32.subFin ss.Net.ca3FmDg.WtScale.Rel ss.Hip.MossyDel
          else ss.Net.ca3FmDg.WtScale.Rel) ∧
      ss.dgRelQ234 true = ss.Net.ca3FmDg.WtScale.Rel ∧
      ss.dgRelQ234 false = Binary32.subFin ss.Net.ca3FmDg.WtScale.Rel ss.Hip.MossyDelTest ∧
      (|ss.Net.ca3FmDg.WtScale.Rel| ≤ 2 ^ 126 → |ss.Hip.MossyDelTest| ≤ 2 ^ 126 →
        Binary32.sub (.fin ss.Net.ca3FmDg.WtScale.Rel) (.fin ss.Hip.MossyDelTest) =
          .fin (ss.dgRelQ234 false)) ∧
      (Binary32.nearest ss.Net.ca3FmDg.WtScale.Rel = ss.Net.ca3FmDg.WtScale.Rel →
        0 < ss.Hip.MossyDelTest → ss.dgRelQ234 false ≤ ss.dgRelQ234 true) ∧
      (Binary32.nearest ss.Net.ca3FmDg.WtScale.Rel = ss.Net.ca3FmDg.WtScale.Rel →
        |ss.Net.ca3FmDg.WtScale.Rel| / 2 ^ 23 + 1 / 2 ^ 149 < ss.Hip.MossyDelTest →
        ss.dgRelQ234 false < ss.dgRelQ234 true) := by
  refine ⟨⟨alphaEvents ss train, AlphaCyc_trace ss train, alphaEvents_dgRel ss train⟩,
    rfl, rfl, rfl, fun ha hb => ?_, fun hr h => ?_, fun hr h => ?_⟩
  · exact sub_fin_subFin _ _ ha hb
  · exact subFin_le _ _ hr (le_of_lt h)
  · exact subFin_lt _ _ hr h

/-- C13 as amended, at `exSim`: the baseline 4 is a `float32` value and
`MossyDelTest = 3` is not absorbed; in quarters 2 and 3 the test value 1 is
below the training value 4. -/
theorem C13_mossy_scale_by_quarter_witness :
    exSim.dgRelQ234 false = 1 ∧ exSim.dgRelQ234 true = 4 ∧
      exSim.dgRelQ234 false < exSim.dgRelQ234 true := by
  have h4 : Binary32.nearest exSim.Net.ca3FmDg.WtScale.Rel = exSim.Net.ca3FmDg.WtScale.Rel := by
    have := Binary32.nearest_fixed 4 0 (by norm_num) (by norm_num)
    norm_num at this
    norm_num [exSim, exNet, exPrjn, this]
  refine ⟨?_, ?_, (C13_mossy_scale_by_quarter exSim true).2.2.2.2.2.2 h4
    (by norm_num [exSim, exNet, exPrjn, abs_of_pos])⟩
  · norm_num [Sim.dgRelQ234, exSim, exNet, exPrjn, Binary32.subFin, Binary32.nearest_one]
  · norm_num [Sim.dgRelQ234, exSim, exNet, exPrjn]


/-! ## `Config` when the build fails -/

/-- C14 fails as stated: when `net.Build()` returns an error, `Config` still
makes its six log-configuration calls after `ConfigNet` has returned; the
error is only printed. -/
theorem C14_config_continues_counterexample :
    (Config (some "layer size mismatch")).filter ConfigEvent.isLogConfig =
        [ConfigEvent.ConfigTrnTrlLog, .ConfigTrnEpcLog, .ConfigTstEpcLog, .ConfigTstTrlLog,
          .ConfigTstCycLog, .ConfigRunLog] ∧
      ConfigEvent.LogPrintln "layer size mismatch" ∈ Config (some "layer size mismatch") := by
  constructor
  · rfl
  · simp [Config, ConfigNet]

/-- C14 as amended: when `net.Build()` returns an error, `ConfigNet` prints it
with `log.Println` and returns without calling `net.InitWts`; the error is not
passed on, and `Config` goes on with its six log-configuration calls exactly as
after a successful build. -/
theorem C14_config_logs_build_error_and_continues (err : String) :
    Config (some err) =
        [ConfigEvent.ConfigPats, .ConfigEnv, .NetTopology, .NetDefaults, .SetParams, .NetBuild,
          .LogPrintln err, .ConfigTrnTrlLog, .ConfigTrnEpcLog, .ConfigTstEpcLog,
          .ConfigTstTrlLog, .ConfigTstCycLog, .ConfigRunLog] ∧
      Config none =
        [ConfigEvent.ConfigPats, .ConfigEnv, .NetTopology, .NetDefaults, .SetParams, .NetBuild,
          .InitWts, .ConfigTrnTrlLog, .ConfigTrnEpcLog, .ConfigTstEpcLog,
          .ConfigTstTrlLog, .ConfigTstCycLog, .ConfigRunLog] :=
  ⟨rfl, rfl⟩

/-! ## The drift rates -/

theorem drv_spect1 (cvcn : Int) (i : Nat) : drv 1 cvcn i = 1 / (2 : ℚ) ^ (i + 2) := by
  have h : ((i : Int) + 2) = ((i + 2 : Nat) : Int) := by push_cast; ring
  simp only [drv, if_true]
  rw [h, zpow_natCast]

/-- C17: with `spect_type = 1`, the rate `drv` of pool `i` is
`(1/4) / 2^i = 1 / 2^(i+2)`; it lies in (0, 1]; the rates strictly decrease
with `i`; and the within-list rate `drvL` is `drv / 4`. The list `driftRates`
is what the pool loop computes for `i = 0 .. 2*cvcn - 1`. -/
theorem C17_spectral_drift_rates (cvcn : Int) (i j : Nat) :
    drv 1 cvcn i = (1 / 4) / (2 : ℚ) ^ i ∧
      drv 1 cvcn i = 1 / (2 : ℚ) ^ (i + 2) ∧
      0 < drv 1 cvcn i ∧ drv 1 cvcn i ≤ 1 ∧
      (i < j → drv 1 cvcn j < drv 1 cvcn i) ∧
      drvL 1 cvcn i = drv 1 cvcn i / 4 ∧
      driftRates 1 cvcn = (List.range (cvcn * 2).toNat).map
        (fun k => (1 / (2 : ℚ) ^ (k + 2), (1 / (2 : ℚ) ^ (k + 2)) / 4)) := by
  have hpos : ∀ k : Nat, (0 : ℚ) < 2 ^ k := fun k => pow_pos (by norm_num) k
  refine ⟨?_, drv_spect1 cvcn i, ?_, ?_, ?_, ?_, ?_⟩
  · rw [drv_spect1, pow_add]
    field_simp
    ring
  · rw [drv_spect1]
    exact one_div_pos.mpr (hpos _)
  · rw [drv_spect1, div_le_one (hpos _)]
    exact one_le_pow₀ (by norm_num)
  · intro hij
    rw [drv_spect1, drv_spect1]
    apply one_div_lt_one_div_of_lt (hpos _)
    exact pow_lt_pow_right₀ (by norm_num) (by omega)
  · simp only [drvL]
    norm_num
  · simp only [driftRates, drvL, drv_spect1]
    norm_num

/-- C17 at pools 0 and 1: the rates are 1/4 and 1/8. -/
theorem C17_spectral_drift_rates_witness :
    drv 1 4 1 < drv 1 4 0 ∧ drv 1 4 0 = 1 / 4 ∧ drv 1 4 1 = 1 / 8 ∧ drvL 1 4 0 = 1 / 16 :=
  have h0 := C17_spectral_drift_rates 4 0 1
  have h1 := C17_spectral_drift_rates 4 1 2
  ⟨h0.2.2.2.2.1 (by decide), h0.1.trans (by norm_num), h1.1.trans (by norm_num),
    h0.2.2.2.2.2.1.trans (by rw [h0.1]; norm_num)⟩



/-! ## `TrainTrial`: the trial count and the bound table -/

theorem reaches_refl (a : TrainSim) : a.Reaches a [] :=
  ⟨rfl, rfl, [], by simp, rfl⟩

theorem reaches_trans {a b c : TrainSim} {l1 l2 : List TrialStep}
    (h1 : a.Reaches b l1) (h2 : b.Reaches c l2) : a.Reaches c (l1 ++ l2) := by
  obtain ⟨t1, m1, e1, he1, hf1⟩ := h1
  obtain ⟨t2, m2, e2, he2, hf2⟩ := h2
  refine ⟨t2.trans t1, m2.trans m1, e1 ++ e2, ?_, ?_⟩
  · rw [he2, he1, List.append_assoc]
  · rw [List.filterMap_append, hf1, hf2]

theorem reaches_emit (a : TrainSim) (e : TrialEvent) :
    a.Reaches (a.emit e) (e.trialStep).toList :=
  ⟨rfl, rfl, [e], rfl, by cases h : e.trialStep <;> simp [List.filterMap_cons, h]⟩

theorem reaches_frame (a b : TrainSim) (ht : b.ttrav = a.ttrav) (hm : b.MaxEpcs = a.MaxEpcs)
    (hr : b.Trace = a.Trace) : a.Reaches b [] :=
  ⟨ht, hm, [], by simp [hr], rfl⟩

theorem reaches_ite (c : Prop) [Decidable c] (a b : TrainSim) (h : a.Reaches b []) :
    a.Reaches (if c then b else a) [] := by
  split_ifs
  · exact h
  · exact reaches_refl a

theorem NewRun_reaches (ts : TrainSim) : ts.Reaches ts.NewRun [] := by
  have h1 : ts.Reaches (ts.emit .NewRun) [] := reaches_emit ts .NewRun
  refine reaches_trans h1 (reaches_frame _ _ ?_ ?_ ?_)
  all_goals (unfold TrainSim.NewRun; simp only; split_ifs <;> rfl)

theorem TestAll_reaches (ts : TrainSim) (o : TrialOracle) : ts.Reaches (ts.TestAll o) [] := by
  have h1 : ts.Reaches (ts.emit .TestAll) [] := reaches_emit ts .TestAll
  refine reaches_trans h1 (reaches_frame _ _ ?_ ?_ ?_)
  all_goals (unfold TrainSim.TestAll; simp only; split_ifs <;> rfl)

theorem switchTable_reaches (ts : TrainSim) (epc : Int) :
    ts.Reaches (ts.switchTable epc) [] := by
  apply reaches_frame
  all_goals (unfold TrainSim.switchTable; split_ifs <;> rfl)

theorem epochChange_reaches (ts : TrainSim) (o : TrialOracle) :
    ts.Reaches (ts.epochChange o) [] := by
  unfold TrainSim.epochChange
  have h1 : ts.Reaches (ts.emit .LogTrnEpc) [] := reaches_emit ts .LogTrnEpc
  have hv : ∀ s : TrainSim, s.Reaches (s.emit (.UpdateView true)) [] :=
    fun s => reaches_emit s (.UpdateView true)
  have hn : ∀ s : TrainSim, s.Reaches ((s.switchTable o.epc).emit .SetTrialName) [] :=
    fun s => reaches_trans (switchTable_reaches s o.epc) (reaches_emit _ .SetTrialName)
  have hg : ∀ s : TrainSim,
      s.Reaches (((s.switchTable o.epc).emit .SetTrialName).emit .SetGroupName) [] :=
    fun s => reaches_trans (hn s) (reaches_emit _ .SetGroupName)
  exact reaches_trans (reaches_trans (reaches_trans (reaches_trans h1
    (reaches_ite _ _ _ (hv _))) (reaches_ite _ _ _ (TestAll_reaches _ o)))
    (reaches_ite _ _ _ (hg _))) (reaches_ite _ _ _ (switchTable_reaches _ _))

theorem afterStep_reaches (ts : TrainSim) (o : TrialOracle) :
    ts.Reaches (ts.afterStep o) [TrialStep.step] := by
  unfold TrainSim.afterStep
  have h1 : ts.Reaches (if ts.NeedsNewRun then ts.NewRun else ts) [] :=
    reaches_ite _ _ _ (NewRun_reaches ts)
  have h2 : ts.Reaches ((if ts.NeedsNewRun then ts.NewRun else ts).emit .Step)
      [TrialStep.step] := reaches_trans h1 (reaches_emit _ .Step)
  exact reaches_trans h2 (reaches_ite _ _ _ (epochChange_reaches _ o))

theorem setCycs_reaches (ts : TrainSim) (o : TrialOracle) : ts.Reaches (ts.setCycs o) [] := by
  apply reaches_frame
  all_goals (unfold TrainSim.setCycs; simp only; split_ifs <;> rfl)


theorem replayPass_reaches (solonc : Int) (ts : TrainSim) (i : Nat) :
    ts.Reaches (ts.replayPass solonc i) [TrialStep.alphaCyc] ∧
      (ts.replayPass solonc i).Cycs = ts.Cycs ∧
      (ts.replayPass solonc i).CycsMultC = ts.CycsMultC := by
  refine ⟨⟨?_, ?_, ?_⟩, ?_, ?_⟩
  · unfold TrainSim.replayPass; simp only; split_ifs <;> rfl
  · unfold TrainSim.replayPass; simp only; split_ifs <;> rfl
  · unfold TrainSim.replayPass TrainSim.emit
    simp only
    split_ifs <;> (simp only [List.append_assoc]; exact ⟨_, rfl, rfl⟩)
  · unfold TrainSim.replayPass; simp only; split_ifs <;> rfl
  · unfold TrainSim.replayPass; simp only; split_ifs <;> rfl

theorem replayFold_reaches (solonc : Int) (l : List Nat) (ts : TrainSim) :
    ts.Reaches (l.foldl (TrainSim.replayPass solonc) ts)
      (List.replicate l.length TrialStep.alphaCyc) := by
  induction l generalizing ts with
  | nil => exact reaches_refl ts
  | cons i l ih =>
    rw [List.foldl_cons, List.length_cons, List.replicate_succ]
    exact reaches_trans (replayPass_reaches solonc ts i).1 (ih _)

theorem afterLoop_reaches (ts : TrainSim) (o : TrialOracle) :
    ts.Reaches (ts.afterLoop o) [TrialStep.logTrnTrl] := by
  unfold TrainSim.afterLoop
  have h1 : ts.Reaches (if ts.ttrav > 0 ∧ o.epc ≥ ts.MaxEpcs then { ts with Cycs := 1 } else ts)
      [] := reaches_ite _ _ _ (reaches_frame _ _ rfl rfl rfl)
  exact reaches_trans h1 (reaches_emit _ .LogTrnTrl)

theorem returnsEarly_afterStep (ts : TrainSim) (o : TrialOracle) :
    (ts.afterStep o).returnsEarly o = ts.returnsEarly o := by
  unfold TrainSim.returnsEarly
  rw [(afterStep_reaches ts o).2.1]

theorem solonc_afterStep (ts : TrainSim) (o : TrialOracle) :
    (ts.afterStep o).solonc o = ts.solonc o := by
  unfold TrainSim.solonc
  rw [(afterStep_reaches ts o).1]

theorem TrainTrial_of_not_early (ts : TrainSim) (o : TrialOracle)
    (h : ts.returnsEarly o = false) :
    ts.TrainTrial o = ((ts.beforeLoop o).replayLoop (ts.solonc o)).afterLoop o := by
  unfold TrainSim.TrainTrial TrainSim.beforeLoop
  simp only [returnsEarly_afterStep, h, solonc_afterStep]
  rfl

theorem emit_Cycs (ts : TrainSim) (e : TrialEvent) : (ts.emit e).Cycs = ts.Cycs := rfl

theorem switchTable_Cycs (ts : TrainSim) (epc : Int) : (ts.switchTable epc).Cycs = ts.Cycs := by
  unfold TrainSim.switchTable
  split_ifs <;> rfl

theorem NewRun_Cycs (ts : TrainSim) : ts.NewRun.Cycs = ts.Cycs := by
  unfold TrainSim.NewRun
  simp only
  split_ifs <;> rfl

theorem TestAll_Cycs (ts : TrainSim) (o : TrialOracle) :
    (ts.TestAll o).Cycs = ts.Cycs ∨ (ts.TestAll o).Cycs = 1 := by
  unfold TrainSim.TestAll
  simp only
  split_ifs
  · exact Or.inr rfl
  · exact Or.inl rfl

theorem epochChange_Cycs (ts : TrainSim) (o : TrialOracle) :
    (ts.epochChange o).Cycs = ts.Cycs ∨ (ts.epochChange o).Cycs = 1 := by
  unfold TrainSim.epochChange
  simp only
  split_ifs <;> simp only [emit_Cycs, switchTable_Cycs] <;>
    first
    | exact Or.inl trivial
    | exact Or.inl rfl
    | exact TestAll_Cycs _ o

theorem afterStep_Cycs (ts : TrainSim) (o : TrialOracle) :
    (ts.afterStep o).Cycs = ts.Cycs ∨ (ts.afterStep o).Cycs = 1 := by
  have hn : ((if ts.NeedsNewRun then ts.NewRun else ts).emit .Step).Cycs = ts.Cycs := by
    rw [emit_Cycs]
    split_ifs
    · exact NewRun_Cycs ts
    · rfl
  unfold TrainSim.afterStep
  simp only
  generalize (if ts.NeedsNewRun then ts.NewRun else ts).emit .Step = s at hn
  by_cases hc : o.chg = true
  · rw [if_pos hc]
    rcases epochChange_Cycs s o with h | h
    · exact Or.inl (h.trans hn)
    · exact Or.inr h
  · rw [if_neg hc]
    exact Or.inl hn

theorem setCycs_Cycs (ts : TrainSim) (o : TrialOracle) :
    (ts.setCycs o).Cycs = ts.Cycs ∨ (ts.setCycs o).Cycs = 1 ∨ (ts.setCycs o).Cycs = 2 := by
  unfold TrainSim.setCycs
  simp only
  split_ifs <;> simp

/-- C15: a `TrainTrial` call that does not end the run (and so reaches the
replay loop) makes, in this order, one `TrainEnv.Step`, then as many
`AlphaCyc(true)` calls as `ss.Cycs` holds when the loop is entered, then one
`LogTrnTrl`, and no other step or trial-log call, whatever `ttrav` is; and
when `Cycs >= 1` on entry the loop runs at least once. -/
theorem C15_trainTrial_one_step_one_log (ts : TrainSim) (o : TrialOracle)
    (h : ts.returnsEarly o = false) :
    (∃ evs, (ts.TrainTrial o).Trace = ts.Trace ++ evs ∧
      evs.filterMap TrialEvent.trialStep =
        [TrialStep.step]
          ++ List.replicate (ts.beforeLoop o).Cycs.toNat TrialStep.alphaCyc
          ++ [TrialStep.logTrnTrl]) ∧
      (1 ≤ ts.Cycs → 1 ≤ (ts.beforeLoop o).Cycs) := by
  constructor
  · rw [TrainTrial_of_not_early ts o h]
    have h1 := afterStep_reaches ts o
    have h2 := setCycs_reaches (ts.afterStep o) o
    have h3 := replayFold_reaches (ts.solonc o) (List.range (ts.beforeLoop o).Cycs.toNat)
      (ts.beforeLoop o)
    have h4 := afterLoop_reaches ((ts.beforeLoop o).replayLoop (ts.solonc o)) o
    have h5 := reaches_trans (reaches_trans (reaches_trans h1 h2) h3) h4
    rw [List.length_range] at h5
    obtain ⟨_, _, evs, he, hf⟩ := h5
    exact ⟨evs, he, by simpa using hf⟩
  · intro hc
    unfold TrainSim.beforeLoop
    rcases setCycs_Cycs (ts.afterStep o) o with h1 | h1 | h1
    · rw [h1]
      rcases afterStep_Cycs ts o with h2 | h2
      · rw [h2]; exact hc
      · rw [h2]
    · rw [h1]
    · rw [h1]; decide

/-- C15 at `exTrav1` in the middle of epoch 1: `ttrav = 1` makes two replay
passes, and the trial still has one step and one trial-log record. -/
theorem C15_trainTrial_one_step_one_log_witness :
    exTrav1.returnsEarly midEpoch1 = false ∧
      (exTrav1.TrainTrial midEpoch1).Trace.filterMap TrialEvent.trialStep =
        [TrialStep.step, .alphaCyc, .alphaCyc, .logTrnTrl] := by
  have h : exTrav1.returnsEarly midEpoch1 = false := by decide
  refine ⟨h, ?_⟩
  obtain ⟨evs, he, hf⟩ := (C15_trainTrial_one_step_one_log exTrav1 midEpoch1 h).1
  have hc : (exTrav1.beforeLoop midEpoch1).Cycs.toNat = 2 := by decide
  rw [he]
  show List.filterMap TrialEvent.trialStep ([] ++ evs) = _
  rw [List.nil_append, hf, hc]
  rfl


theorem afterLoop_Table (ts : TrainSim) (o : TrialOracle) :
    (ts.afterLoop o).Table = ts.Table := by
  unfold TrainSim.afterLoop TrainSim.emit
  simp only
  split_ifs <;> rfl

theorem replayLoop_table_two (ts : TrainSim) (h : ts.Cycs = 2) :
    (ts.replayLoop 0).Table = ts.Table := by
  obtain ⟨nn, sn, vo, tu, ti, me, pf, dt, db, edl, ev, rn, cy, cm, tt, tb, tr⟩ := ts
  simp only at h
  subst h
  show (List.foldl (TrainSim.replayPass 0) _ [0, 1]).Table = tb
  simp only [List.foldl_cons, List.foldl_nil]
  unfold TrainSim.replayPass TrainSim.emit
  by_cases h0 : cm = 0
  · simp [h0]
  · by_cases h1 : cm = 1
    · simp [h1]
    · simp [h0, h1]

theorem replayLoop_table_le_one (ts : TrainSim) (h : ts.Cycs ≤ 1) :
    (ts.replayLoop 0).Table = ts.Table := by
  unfold TrainSim.replayLoop
  have hn : ts.Cycs.toNat = 0 ∨ ts.Cycs.toNat = 1 := by omega
  rcases hn with hn | hn
  · rw [hn]; rfl
  · rw [hn]
    show (List.foldl (TrainSim.replayPass 0) ts [0]).Table = ts.Table
    simp only [List.foldl_cons, List.foldl_nil]
    unfold TrainSim.replayPass TrainSim.emit
    have h1 : ¬ (ts.Cycs > 1) := by omega
    simp [h1]

theorem replayLoop_table_solo (ts : TrainSim) (h : ts.Cycs = 1) :
    (ts.replayLoop 1).Table = .TrainABnc := by
  unfold TrainSim.replayLoop
  rw [h]
  show (List.foldl (TrainSim.replayPass 1) ts [0]).Table = .TrainABnc
  simp only [List.foldl_cons, List.foldl_nil]
  unfold TrainSim.replayPass TrainSim.emit
  simp [h]

theorem beforeLoop_Cycs_solo (ts : TrainSim) (o : TrialOracle)
    (h : ts.ttrav = 3 ∧ o.epc > 0) : (ts.beforeLoop o).Cycs = 1 := by
  have ht : (ts.afterStep o).ttrav = 3 := (afterStep_reaches ts o).1.trans h.1
  unfold TrainSim.beforeLoop TrainSim.setCycs
  simp [ht, h.2]

theorem solonc_eq_one (ts : TrainSim) (o : TrialOracle) (h : ts.ttrav = 3 ∧ o.epc > 0) :
    ts.solonc o = 1 := by
  unfold TrainSim.solonc
  rw [if_pos h]

theorem solonc_eq_zero (ts : TrainSim) (o : TrialOracle) (h : ¬ (ts.ttrav = 3 ∧ o.epc > 0)) :
    ts.solonc o = 0 := by
  unfold TrainSim.solonc
  rw [if_neg h]

/-- C16 fails as stated: with `ttrav = 3`, in a trial of epoch 1 (`exTrav3`,
`midEpoch1`), the single pass binds `TrainABnc` (guard `solonc == 1`) and the
restore, guarded by `ss.Cycs > 1`, does not run: `TrainAB` was bound when the
loop was entered and `TrainABnc` is bound when `TrainTrial` returns. -/
theorem C16_trainTrial_table_not_restored_counterexample :
    exTrav3.returnsEarly midEpoch1 = false ∧
      (exTrav3.beforeLoop midEpoch1).Table = PatTable.TrainAB ∧
      (exTrav3.TrainTrial midEpoch1).Table = PatTable.TrainABnc ∧
      (exTrav3.TrainTrial midEpoch1).Table ≠ (exTrav3.beforeLoop midEpoch1).Table := by
  decide

/-- C16 as amended: in a `TrainTrial` call that reaches the replay loop, the
table bound to `TrainEnv` on return is the one bound when the loop was entered
if the loop makes two passes (`Cycs = 2`, as `ttrav` 1 and 2 set it after
epoch 0), and also if it makes at most one pass without the no-context switch
(not `ttrav == 3 && epc > 0`); with `ttrav == 3 && epc > 0` the single pass
binds `TrainABnc` and it stays bound on return. -/
theorem C16_trainTrial_table_restored_two_passes (ts : TrainSim) (o : TrialOracle)
    (h : ts.returnsEarly o = false) :
    ((ts.beforeLoop o).Cycs = 2 → (ts.TrainTrial o).Table = (ts.beforeLoop o).Table) ∧
      ((ts.beforeLoop o).Cycs ≤ 1 → ¬ (ts.ttrav = 3 ∧ o.epc > 0) →
        (ts.TrainTrial o).Table = (ts.beforeLoop o).Table) ∧
      (ts.ttrav = 3 ∧ o.epc > 0 → (ts.TrainTrial o).Table = PatTable.TrainABnc) := by
  rw [TrainTrial_of_not_early ts o h, afterLoop_Table]
  refine ⟨fun h2 => ?_, fun h1 hs => ?_, fun hs => ?_⟩
  · have hs : ¬ (ts.ttrav = 3 ∧ o.epc > 0) := by
      intro hs
      rw [beforeLoop_Cycs_solo ts o hs] at h2
      exact absurd h2 (by decide)
    rw [solonc_eq_zero ts o hs]
    exact replayLoop_table_two _ h2
  · rw [solonc_eq_zero ts o hs]
    exact replayLoop_table_le_one _ h1
  · rw [solonc_eq_one ts o hs]
    exact replayLoop_table_solo _ (beforeLoop_Cycs_solo ts o hs)

/-- C16 as amended, at `exTrav1` in the middle of epoch 1: the second pass
binds `TrainABnc`, and `TrainAB` is bound again on return. -/
theorem C16_trainTrial_table_restored_two_passes_witness :
    exTrav1.returnsEarly midEpoch1 = false ∧ (exTrav1.beforeLoop midEpoch1).Cycs = 2 ∧
      TrialEvent.ApplyInputsNC PatTable.TrainABnc ∈ (exTrav1.TrainTrial midEpoch1).Trace ∧
      (exTrav1.TrainTrial midEpoch1).Table = PatTable.TrainAB :=
  ⟨by decide, by decide, by decide,
    ((C16_trainTrial_table_restored_two_passes exTrav1 midEpoch1 (by decide)).1
      (by decide)).trans (by decide)⟩


/-! ## The drift chain generator -/

namespace patgen

theorem map_getD_range (v : List Bool) :
    (List.range v.length).map (fun i => v.getD i false) = v := by
  apply List.ext_getElem
  · simp
  · intro i h1 h2
    simp [List.getD_eq_getElem?_getD, List.getElem?_eq_getElem h2]

theorem countP_range_eq_card (p : Nat → Bool) (n : Nat) :
    (List.range n).countP p = ((Finset.range n).filter (fun i => p i = true)).card := by
  rw [List.countP_eq_length_filter]
  have hnd : ((List.range n).filter p).Nodup := (List.nodup_range n).filter _
  rw [← List.toFinset_card_of_nodup hnd]
  congr 1
  ext i
  simp

theorem NOn_eq_card (v : List Bool) :
    NOn v = ((Finset.range v.length).filter (fun i => v.getD i false = true)).card := by
  unfold NOn
  conv_lhs => rw [← map_getD_range v]
  rw [List.count, List.countP_map, ← countP_range_eq_card]
  congr 1
  funext i
  simp

theorem onIdx_length (v : List Bool) : (onIdx v).length = NOn v := by
  rw [NOn_eq_card, ← countP_range_eq_card, List.countP_eq_length_filter]
  rfl

end patgen

namespace patgen

theorem take_shuffle_facts {σ : Type} (sh : Shuffle σ) (hp : sh.IsPerm) (g : σ) (l : List Nat)
    (hl : l.Nodup) (k : Nat) (hk : k ≤ l.length) :
    (∀ i, i ∈ (sh g l).1.take k → i ∈ l) ∧ ((sh g l).1.take k).Nodup ∧
      ((sh g l).1.take k).length = k := by
  have hperm := hp g l
  refine ⟨fun i hi => hperm.mem_iff.mp (List.mem_of_mem_take hi), ?_, ?_⟩
  · exact (hperm.nodup_iff.mpr hl).sublist (List.take_sublist _ _)
  · rw [List.length_take, hperm.length_eq]
    exact Nat.min_eq_left hk

theorem FlipBits_length {σ : Type} (sh : Shuffle σ) (g : σ) (v : List Bool) (n : Nat) :
    (FlipBits sh g v n).1.length = v.length := by
  simp [FlipBits]

theorem FlipBits_NOn {σ : Type} (sh : Shuffle σ) (hp : sh.IsPerm) (g : σ) (v : List Bool)
    (n : Nat) : NOn (FlipBits sh g v n).1 = NOn v := by
  set k := min n (min (onIdx v).length (offIdx v).length) with hk
  set A := (sh g (onIdx v)).1.take k with hA
  set B := (sh (sh g (onIdx v)).2 (offIdx v)).1.take k with hB
  have hkon : k ≤ (onIdx v).length := le_trans (min_le_right _ _) (min_le_left _ _)
  have hkoff : k ≤ (offIdx v).length := le_trans (min_le_right _ _) (min_le_right _ _)
  have hndon : (onIdx v).Nodup := (List.nodup_range _).filter _
  have hndoff : (offIdx v).Nodup := (List.nodup_range _).filter _
  obtain ⟨hAmem, hAnd, hAlen⟩ := take_shuffle_facts sh hp g (onIdx v) hndon k hkon
  obtain ⟨hBmem, hBnd, hBlen⟩ :=
    take_shuffle_facts sh hp (sh g (onIdx v)).2 (offIdx v) hndoff k hkoff
  have hAon : ∀ i, i ∈ A → i < v.length ∧ v.getD i false = true := by
    intro i hi
    have := hAmem i hi
    simpa [onIdx] using this
  have hBoff : ∀ i, i ∈ B → i < v.length ∧ v.getD i false = false := by
    intro i hi
    have := hBmem i hi
    simpa [offIdx] using this
  have hnew : (FlipBits sh g v n).1 =
      (List.range v.length).map (fun i =>
        if i ∈ A then false else if i ∈ B then true else v.getD i false) := rfl
  rw [NOn_eq_card, NOn_eq_card, FlipBits_length, hnew]
  have hset : (Finset.range v.length).filter (fun i =>
        ((List.range v.length).map (fun i =>
          if i ∈ A then false else if i ∈ B then true else v.getD i false)).getD i false = true) =
      (((Finset.range v.length).filter (fun i => v.getD i false = true)) \ A.toFinset)
        ∪ B.toFinset := by
    ext i
    simp only [Finset.mem_filter, Finset.mem_range, Finset.mem_union, Finset.mem_sdiff,
      List.mem_toFinset]
    constructor
    · rintro ⟨hi, hf⟩
      have hget : ((List.range v.length).map (fun i =>
          if i ∈ A then false else if i ∈ B then true else v.getD i false)).getD i false =
          (if i ∈ A then false else if i ∈ B then true else v.getD i false) := by
        simp [List.getD_eq_getElem?_getD, hi]
      rw [hget] at hf
      by_cases ha : i ∈ A
      · simp [ha] at hf
      · by_cases hb : i ∈ B
        · exact Or.inr hb
        · simp only [ha, hb, if_false] at hf
          exact Or.inl ⟨⟨hi, hf⟩, ha⟩
    · rintro (⟨⟨hi, hv⟩, ha⟩ | hb)
      · refine ⟨hi, ?_⟩
        have hb : i ∉ B := fun hb => by
          have := (hBoff i hb).2
          rw [hv] at this
          exact absurd this (by decide)
        simp [List.getD_eq_getElem?_getD, hi, ha, hb]
        simpa [List.getD_eq_getElem?_getD, List.getElem?_eq_getElem hi] using hv
      · have hi := (hBoff i hb).1
        have ha : i ∉ A := fun ha => by
          have h1 := (hAon i ha).2
          rw [(hBoff i hb).2] at h1
          exact absurd h1 (by decide)
        refine ⟨hi, ?_⟩
        simp [List.getD_eq_getElem?_getD, hi, ha, hb]
  rw [hset]
  have hdisj : Disjoint
      (((Finset.range v.length).filter (fun i => v.getD i false = true)) \ A.toFinset)
      B.toFinset := by
    rw [Finset.disjoint_left]
    intro i hi hb
    simp only [Finset.mem_sdiff, Finset.mem_filter, List.mem_toFinset] at hi hb
    have := (hBoff i hb).2
    rw [hi.1.2] at this
    exact absurd this (by decide)
  have hsub : A.toFinset ⊆ (Finset.range v.length).filter (fun i => v.getD i false = true) := by
    intro i hi
    simp only [List.mem_toFinset] at hi
    simp only [Finset.mem_filter, Finset.mem_range]
    exact hAon i hi
  rw [Finset.card_union_of_disjoint hdisj, Finset.card_sdiff hsub,
    List.toFinset_card_of_nodup hAnd, List.toFinset_card_of_nodup hBnd, hAlen, hBlen]
  have hle : k ≤ ((Finset.range v.length).filter (fun i => v.getD i false = true)).card := by
    rw [← NOn_eq_card, ← onIdx_length]
    exact hkon
  omega

end patgen

namespace patgen

theorem driftStep_keeps {σ : Type} (sh : Shuffle σ) (hp : sh.IsPerm) (r : ℚ) (v : List Bool)
    (g : σ) : NOn (driftStep sh r v g).1 = NOn v ∧ (driftStep sh r v g).1.length = v.length :=
  ⟨FlipBits_NOn sh hp g v _, FlipBits_length sh g v _⟩

theorem driftRows_keeps {σ : Type} (sh : Shuffle σ) (hp : sh.IsPerm) (r : ℚ) (n : Nat)
    (v : List Bool) (g : σ) :
    ∀ w ∈ (driftRows sh r n v g).1, NOn w = NOn v ∧ w.length = v.length := by
  induction n generalizing v g with
  | zero => intro w hw; simp [driftRows] at hw
  | succ n ih =>
    intro w hw
    simp only [driftRows, List.mem_cons] at hw
    have hs := driftStep_keeps sh hp r v g
    rcases hw with hw | hw
    · rw [hw]; exact hs
    · have := ih _ _ w hw
      exact ⟨this.1.trans hs.1, this.2.trans hs.2⟩

theorem driftRows_length {σ : Type} (sh : Shuffle σ) (r : ℚ) (n : Nat) (v : List Bool) (g : σ) :
    (driftRows sh r n v g).1.length = n := by
  induction n generalizing v g with
  | zero => rfl
  | succ n ih => simp [driftRows, ih]

theorem driftRows_add {σ : Type} (sh : Shuffle σ) (r : ℚ) (m n : Nat) (v : List Bool) (g : σ) :
    driftRows sh r (m + n) v g =
      ((driftRows sh r m v g).1
          ++ (driftRows sh r n ((v :: (driftRows sh r m v g).1).getLast (List.cons_ne_nil _ _))
            (driftRows sh r m v g).2).1,
        (driftRows sh r n ((v :: (driftRows sh r m v g).1).getLast (List.cons_ne_nil _ _))
          (driftRows sh r m v g).2).2) := by
  induction m generalizing v g with
  | zero => simp [driftRows]
  | succ m ih =>
    have h : m + 1 + n = (m + n) + 1 := by omega
    rw [h]
    simp only [driftRows]
    rw [ih]
    simp [List.getLast_cons]

theorem drop_chain {α : Type} (x : α) (a b : List α) :
    (x :: a ++ b).drop a.length = (x :: a).getLast (List.cons_ne_nil _ _) :: b := by
  have h := List.dropLast_append_getLast (List.cons_ne_nil x a)
  have hl : ((x :: a).dropLast).length = a.length := by simp
  conv_lhs => rw [show x :: a ++ b = (x :: a) ++ b from rfl, ← h, List.append_assoc, ← hl]
  rw [List.drop_left]
  rfl

theorem getElem_chain {α : Type} (x : α) (a b : List α) :
    (x :: a ++ b)[a.length]? = some ((x :: a).getLast (List.cons_ne_nil _ _)) := by
  have h := drop_chain x a b
  have := congrArg List.head? h
  simpa [List.head?_drop] using this

end patgen

theorem rotShuffle_isPerm : patgen.Shuffle.IsPerm patgen.rotShuffle :=
  fun g l => List.rotate_perm l g

/-- C18: every vector of a chain built by `AddVocabDrift` has exactly as many
active components as the seed row it was started from (and the same length),
whatever the rate, the number of rows and the draws of the random generator;
this covers every chain of `ConfigPats`, each being started from a row of a
pool or of an earlier chain. -/
theorem C18_drift_chain_keeps_active_count {σ : Type} (sh : patgen.Shuffle σ)
    (hp : patgen.Shuffle.IsPerm sh) (rows : Nat) (r : ℚ) (seed : List Bool) (g : σ) :
    ∀ w ∈ (patgen.AddVocabDrift sh rows r seed g).1,
      patgen.NOn w = patgen.NOn seed ∧ w.length = seed.length := by
  intro w hw
  cases rows with
  | zero => simp [patgen.AddVocabDrift] at hw
  | succ n =>
    simp only [patgen.AddVocabDrift, List.mem_cons] at hw
    rcases hw with hw | hw
    · rw [hw]; exact ⟨rfl, rfl⟩
    · exact patgen.driftRows_keeps sh hp r n seed g w hw

/-- C18 at the example seed (2 active components of 6), for a chain of 5 rows
at rate 1/2 drawn by the rotating generator. -/
theorem C18_drift_chain_keeps_active_count_witness :
    patgen.Shuffle.IsPerm patgen.rotShuffle ∧
      ∀ w ∈ (patgen.AddVocabDrift patgen.rotShuffle 5 (1 / 2) patgen.exSeed 0).1,
        patgen.NOn w = 2 :=
  ⟨rotShuffle_isPerm, fun w hw =>
    (C18_drift_chain_keeps_active_count patgen.rotShuffle rotShuffle_isPerm 5 (1 / 2)
      patgen.exSeed 0 w hw).1.trans (by decide)⟩

/-- C19: let `chain` be the `o + 1 + n` rows that `AddVocabDrift` generates
from `seed`, and let the generator be stopped after row `o`. The derived chain
of `n + 1` rows started from `chain[o]` at the same rate, from the position the
random generator then has, begins with `chain[o]` and equals `chain` from row
`o` on, element for element; the generator ends at the same position. -/
theorem C19_derived_chain_continues {σ : Type} (sh : patgen.Shuffle σ) (r : ℚ)
    (seed : List Bool) (g0 : σ) (o n : Nat) :
    ∃ co, (patgen.AddVocabDrift sh (o + 1 + n) r seed g0).1[o]? = some co ∧
      (patgen.AddVocabDrift sh (o + 1) r seed g0).1[o]? = some co ∧
      (patgen.AddVocabDrift sh (n + 1) r co
        (patgen.AddVocabDrift sh (o + 1) r seed g0).2).1.head? = some co ∧
      (patgen.AddVocabDrift sh (n + 1) r co
        (patgen.AddVocabDrift sh (o + 1) r seed g0).2).1 =
          (patgen.AddVocabDrift sh (o + 1 + n) r seed g0).1.drop o ∧
      (patgen.AddVocabDrift sh (n + 1) r co
        (patgen.AddVocabDrift sh (o + 1) r seed g0).2).2 =
          (patgen.AddVocabDrift sh (o + 1 + n) r seed g0).2 := by
  have h : o + 1 + n = (o + n) + 1 := by omega
  have hl := patgen.driftRows_length sh r o seed g0
  refine ⟨(seed :: (patgen.driftRows sh r o seed g0).1).getLast (List.cons_ne_nil _ _),
    ?_, ?_, rfl, ?_, ?_⟩
  · rw [h]
    simp only [patgen.AddVocabDrift, patgen.driftRows_add]
    have := patgen.getElem_chain seed (patgen.driftRows sh r o seed g0).1
      (patgen.driftRows sh r n ((seed :: (patgen.driftRows sh r o seed g0).1).getLast
        (List.cons_ne_nil _ _)) (patgen.driftRows sh r o seed g0).2).1
    rw [hl] at this
    exact this
  · simp only [patgen.AddVocabDrift]
    have := patgen.getElem_chain seed (patgen.driftRows sh r o seed g0).1 []
    rw [hl, List.append_nil] at this
    exact this
  · rw [h]
    simp only [patgen.AddVocabDrift, patgen.driftRows_add]
    have := patgen.drop_chain seed (patgen.driftRows sh r o seed g0).1
      (patgen.driftRows sh r n ((seed :: (patgen.driftRows sh r o seed g0).1).getLast
        (List.cons_ne_nil _ _)) (patgen.driftRows sh r o seed g0).2).1
    rw [hl] at this
    exact this.symm
  · rw [h]
    simp only [patgen.AddVocabDrift, patgen.driftRows_add]

/-! ## The degenerate range of `LrateMod`; the mossy scale after `AlphaCyc` -/

/-- C27: when the modulation range is degenerate, `Range.Min = Range.Max = m`,
the scale of the range is 0 and `LrateMod m` is `Base`; `LrateMod err` is 1
for every `err` above `m` and `Base` for every `err` below `m`. -/
theorem C27_lrateMod_degenerate_range (em : ErrLrateModParams) (m : ℚ)
    (hmin : em.Range.Min = m) (hmax : em.Range.Max = m) :
    em.Range.Scale = 0 ∧ em.LrateMod m = em.Base ∧
      (∀ err, m < err → em.LrateMod err = 1) ∧
      (∀ err, err < m → em.LrateMod err = em.Base) := by
  refine ⟨?_, ?_, fun err h => ?_, fun err h => ?_⟩
  · simp [minmax.F32.Scale, minmax.F32.Range, hmin, hmax]
  · simp [ErrLrateModParams.LrateMod, minmax.F32.NormVal, minmax.F32.ClipVal, minmax.F32.Scale,
      minmax.F32.Range, hmin, hmax]
  · have h1 : ¬ err < m := not_lt.mpr (le_of_lt h)
    simp [ErrLrateModParams.LrateMod, hmin, hmax, h, h1]
  · simp [ErrLrateModParams.LrateMod, hmin, h]

/-- The statement C27 at the range `[1/2, 1/2]` with `Base = 1/100`: the value
at `1/2` is `1/100`, not 1. -/
theorem C27_lrateMod_degenerate_range_witness :
    (degenerateMod.LrateMod (1 / 2) = 1 / 100 ∧ degenerateMod.LrateMod (1 / 2) ≠ 1) ∧
      degenerateMod.LrateMod (51 / 100) = 1 ∧ degenerateMod.LrateMod (49 / 100) = 1 / 100 := by
  have h := C27_lrateMod_degenerate_range degenerateMod (1 / 2) rfl rfl
  refine ⟨⟨h.2.1, ?_⟩, h.2.2.1 _ (by norm_num), h.2.2.2 _ (by norm_num)⟩
  rw [h.2.1]
  norm_num [degenerateMod]

/-- C28: for every mode, every `edl` and every `MossyDel` / `MossyDelTest`, the
`WtScale.Rel` of the DG to CA3 projection after `AlphaCyc` is the value it had
when `AlphaCyc` was entered. -/
theorem C28_alphaCyc_restores_mossy_scale (ss : Sim) (train : Bool) :
    (ss.AlphaCyc train).Net.ca3FmDg.WtScale.Rel = ss.Net.ca3FmDg.WtScale.Rel := by
  unfold Sim.AlphaCyc
  simp only [alphaEnd_eq, endNet]
  exact congrArg leabra.WtScaleParams.Rel (setNoLearn_dg ss)

/-! ## `MemStats` in training mode; the scored window -/

theorem exSim_trgOn : countWin exSim.ind1 exSim.ind2 exSim.isTrgOn = 1 := by
  rw [countWin, exSim_window]
  simp only [List.filter_cons, List.filter_nil, Sim.isTrgOn]
  norm_num [exSim, exNet, exECout, exECin]

/-- C22: in training mode, when the scored window has a target-ON unit and a
target-OFF unit, the stored `TrgOnWasOffAll` is the number of target-ON units
that ECout left off divided by the number of target-ON units, and `Mem` becomes
1 if that rate and the false-alarm rate are both strictly below `MemThr` (the
field the test mode compares with), and 0 otherwise; replacing the ECin layer,
which alone decides what a completion unit is, leaves `Mem` as it is. -/
theorem C22_memStats_train_mem (ss : Sim)
    (hn : 1 ≤ countWin ss.ind1 ss.ind2 ss.isTrgOn)
    (ho : 1 ≤ countWin ss.ind1 ss.ind2 ss.isTrgOff) :
    (ss.MemStats true).TrgOnWasOffAll =
        F64.fin ((countWin ss.ind1 ss.ind2 ss.isTrgOnMiss : ℚ) /
          (countWin ss.ind1 ss.ind2 ss.isTrgOn : ℚ)) ∧
      (ss.MemStats true).Mem =
        (if F64.lt (F64.fin ((countWin ss.ind1 ss.ind2 ss.isTrgOnMiss : ℚ) /
              (countWin ss.ind1 ss.ind2 ss.isTrgOn : ℚ))) ss.MemThr = true ∧
            F64.lt (F64.fin ss.falseAlarmRate) ss.MemThr = true
        then F64.fin 1 else F64.fin 0) ∧
      ∀ ecin : leabra.Layer,
        (Sim.MemStats { ss with Net := { ss.Net with ECin := ecin } } true).Mem =
          (ss.MemStats true).Mem := by
  have hmem : ∀ s : Sim, 1 ≤ countWin s.ind1 s.ind2 s.isTrgOn →
      1 ≤ countWin s.ind1 s.ind2 s.isTrgOff →
      (s.MemStats true).Mem =
        (if F64.lt (F64.fin ((countWin s.ind1 s.ind2 s.isTrgOnMiss : ℚ) /
              (countWin s.ind1 s.ind2 s.isTrgOn : ℚ))) s.MemThr = true ∧
            F64.lt (F64.fin s.falseAlarmRate) s.MemThr = true
        then F64.fin 1 else F64.fin 0) := by
    intro s h1 h2
    unfold Sim.MemStats
    simp only [memCounts_eq, div_ofCount_pos _ _ h1, div_ofCount_pos _ _ h2, Sim.falseAlarmRate]
    simp only [if_true, Bool.and_eq_true]
    split <;> rfl
  refine ⟨?_, hmem ss hn ho, fun ecin => ?_⟩
  · unfold Sim.MemStats
    simp only [memCounts_eq, div_ofCount_pos _ _ hn]
  · rw [hmem ss hn ho]
    exact hmem { ss with Net := { ss.Net with ECin := ecin } } hn ho

/-- The statement C22 at the example state: one target-ON unit, recalled, and
one target-OFF unit, left off, give `Mem = 1` with both rates 0. -/
theorem C22_memStats_train_mem_witness :
    (exSim.MemStats true).TrgOnWasOffAll = F64.fin 0 ∧ (exSim.MemStats true).Mem = F64.fin 1 := by
  have h := C22_memStats_train_mem exSim (by rw [exSim_trgOn]) (by rw [exSim_trgOff])
  have hm : countWin exSim.ind1 exSim.ind2 exSim.isTrgOnMiss = 0 := by
    rw [countWin, exSim_window]
    simp only [List.filter_cons, List.filter_nil, Sim.isTrgOnMiss, Sim.isTrgOn]
    norm_num [exSim, exNet, exECout, exECin]
  refine ⟨?_, ?_⟩
  · rw [h.1, hm]
    norm_num
  · rw [h.2.1, hm, Sim.falseAlarmRate, exSim_falseAlarm, exSim_trgOff]
    norm_num [F64.lt, exSim]

theorem foldl_congr_mem {α β : Type} (f g : β → α → β) (l : List α) (b : β)
    (h : ∀ x ∈ l, ∀ c, f c x = g c x) : l.foldl f b = l.foldl g b := by
  induction l generalizing b with
  | nil => rfl
  | cons x l ih =>
    rw [List.foldl_cons, List.foldl_cons, h x (List.mem_cons_self x l) b]
    exact ih _ (fun y hy c => h y (List.mem_cons_of_mem x hy) c)

theorem memCounts_window_congr (a b : Sim) (h : WindowInputsEq a b) :
    a.memCounts = b.memCounts := by
  obtain ⟨h1, h2, h3, h4, _, hw⟩ := h
  have hi1 : a.ind1 = b.ind1 := by simp [Sim.ind1, h1, h3, h4]
  have hi2 : a.ind2 = b.ind2 := by simp [Sim.ind2, h1, h2, h3, h4]
  unfold Sim.memCounts
  rw [← hi1, ← hi2]
  apply foldl_congr_mem
  intro ni hni c
  obtain ⟨e1, e2, e3⟩ := hw ni hni
  simp [memStatsUnit, e1, e2, e3]

/-- C29: the scored window starts at `wpvc * poolSize` and ends before
`2 * wpvc * poolSize` when `targortemp = 1`, and runs from
`2 * wpvc * poolSize` to `2 * (wpvc + cvcn) * poolSize` when `targortemp = 2`
(`poolSize = ECPool.Y * ECPool.X`); two states with the same layout and
threshold whose ECout `ActM`, ECout `Targ` and ECin `ActQ1` agree at every
unit of the window leave `MemStats` with identical `TrgOnWasOffAll`,
`TrgOnWasOffCmp` and `TrgOffWasOn`, in either mode, whatever the units outside
the window hold, and with identical `Mem` as well, in training mode, in test
mode when the window has a completion unit, and in any case when `Mem` was the
same on entry. -/
theorem C29_memStats_window_only (a b : Sim) (train : Bool) (h : WindowInputsEq a b) :
    (a.targortemp = 1 →
        a.ind1 = a.wpvc * (a.Hip.ECPool.Y * a.Hip.ECPool.X) ∧
          a.ind2 = 2 * a.wpvc * (a.Hip.ECPool.Y * a.Hip.ECPool.X)) ∧
      (a.targortemp = 2 →
        a.ind1 = 2 * a.wpvc * (a.Hip.ECPool.Y * a.Hip.ECPool.X) ∧
          a.ind2 = 2 * (a.wpvc + a.cvcn) * (a.Hip.ECPool.Y * a.Hip.ECPool.X)) ∧
      (a.MemStats train).TrgOnWasOffAll = (b.MemStats train).TrgOnWasOffAll ∧
      (a.MemStats train).TrgOnWasOffCmp = (b.MemStats train).TrgOnWasOffCmp ∧
      (a.MemStats train).TrgOffWasOn = (b.MemStats train).TrgOffWasOn ∧
      ((train = true ∨ 1 ≤ countWin a.ind1 a.ind2 a.isCmp ∨ a.Mem = b.Mem) →
        (a.MemStats train).Mem = (b.MemStats train).Mem) := by
  have hc := memCounts_window_congr a b h
  have hthr : a.MemThr = b.MemThr := h.2.2.2.2.1
  have hcmp : a.memCounts.cmpN = countWin a.ind1 a.ind2 a.isCmp := by rw [memCounts_eq]
  refine ⟨fun ht => ?_, fun ht => ?_, ?_, ?_, ?_, fun hm => ?_⟩
  · constructor
    · simp only [Sim.ind1, ht]
      norm_num
      ring
    · simp only [Sim.ind2, ht]
      norm_num
      ring
  · constructor
    · simp only [Sim.ind1, ht]
      norm_num
      ring
    · simp only [Sim.ind2, ht]
      norm_num
      ring
  · simp only [Sim.MemStats, hc]
  · cases train
    · simp only [Sim.MemStats, hc, hthr]
      split_ifs <;> rfl
    · simp only [Sim.MemStats, hc, hthr]
      split_ifs <;> rfl
  · simp only [Sim.MemStats, hc]
  · cases train
    · by_cases hg : 1 ≤ b.memCounts.cmpN
      · simp only [Sim.MemStats, hc, hthr, gt_ofCount_zero, hg]
        simp
      · have hm2 : a.Mem = b.Mem := by
          rcases hm with hm | hm | hm
          · exact absurd hm (by decide)
          · rw [← hcmp, hc] at hm
            exact absurd hm hg
          · exact hm
        simp only [Sim.MemStats, hc, hthr, gt_ofCount_zero, hg, hm2]
    · simp only [Sim.MemStats, hc, hthr]
      simp

theorem exSim_outside : WindowInputsEq exSim outsideSim := by
  refine ⟨rfl, rfl, rfl, rfl, rfl, ?_⟩
  rw [exSim_window]
  intro ni hni
  simp only [List.mem_cons, List.mem_singleton, List.not_mem_nil, or_false] at hni
  rcases hni with rfl | rfl <;>
    norm_num [exSim, outsideSim, exNet, exECout, exECin, outsideECout, outsideECin]

/-- The statement C29 at the example state and the state whose cue-slot units
0 and 1 were changed: the layers differ at unit 0, the four results of a test
call do not. -/
theorem C29_memStats_window_only_witness :
    exSim.Net.ECout.ActM 0 ≠ outsideSim.Net.ECout.ActM 0 ∧
      (exSim.MemStats false).TrgOnWasOffAll = (outsideSim.MemStats false).TrgOnWasOffAll ∧
      (exSim.MemStats false).TrgOnWasOffCmp = (outsideSim.MemStats false).TrgOnWasOffCmp ∧
      (exSim.MemStats false).TrgOffWasOn = (outsideSim.MemStats false).TrgOffWasOn ∧
      (exSim.MemStats false).Mem = (outsideSim.MemStats false).Mem := by
  have h := C29_memStats_window_only exSim outsideSim false exSim_outside
  refine ⟨?_, h.2.2.1, h.2.2.2.1, h.2.2.2.2.1, h.2.2.2.2.2 (Or.inr (Or.inr rfl))⟩
  norm_num [exSim, outsideSim, exNet, exECout, outsideECout]

/-! ## The table bound at an epoch change -/

theorem switchTable_Table_congr (a b : TrainSim) (epc : Int)
    (hd : a.driftbetween = b.driftbetween) (ht : a.Table = b.Table) :
    (a.switchTable epc).Table = (b.switchTable epc).Table := by
  unfold TrainSim.switchTable
  rw [hd]
  split_ifs <;> first | rfl | exact ht

theorem TestAll_Table (ts : TrainSim) (o : TrialOracle) :
    (ts.TestAll o).Table = ts.Table ∧ (ts.TestAll o).driftbetween = ts.driftbetween := by
  unfold TrainSim.TestAll
  simp only
  split_ifs <;> exact ⟨rfl, rfl⟩

theorem epochChange_Table (ts : TrainSim) (o : TrialOracle) :
    (ts.epochChange o).Table = (ts.switchTable o.epc).Table := by
  unfold TrainSim.epochChange
  simp only
  generalize hs : (if (ts.emit .LogTrnEpc).ViewOn &&
      decide ((ts.emit .LogTrnEpc).TrainUpdt.toNat > leabra.TimeScales.AlphaCycle.toNat) then
      (ts.emit .LogTrnEpc).emit (.UpdateView true) else ts.emit .LogTrnEpc) = s
  have h1 : s.Table = ts.Table ∧ s.driftbetween = ts.driftbetween ∧ s.pfix = ts.pfix := by
    rw [← hs]
    split_ifs <;> exact ⟨rfl, rfl, rfl⟩
  generalize ht : (if s.TestInterval > 0 && decide (o.epc % s.TestInterval = 0) then
      s.TestAll o else s) = t
  have h2 : t.Table = ts.Table ∧ t.driftbetween = ts.driftbetween ∧ t.pfix = ts.pfix := by
    rw [← ht]
    split_ifs
    · exact ⟨(TestAll_Table s o).1.trans h1.1, (TestAll_Table s o).2.trans h1.2.1,
        (by unfold TrainSim.TestAll; simp only; split_ifs <;> exact h1.2.2)⟩
    · exact h1
  have hp : ∀ (u : TrainSim) (e : Int), (u.switchTable e).pfix = u.pfix := by
    intro u e
    unfold TrainSim.switchTable
    split_ifs <;> rfl
  by_cases hf : t.pfix = "fcurve/"
  · rw [if_pos hf]
    have hf2 : (((t.switchTable o.epc).emit .SetTrialName).emit .SetGroupName).pfix = "fcurve/" := by
      show (t.switchTable o.epc).pfix = "fcurve/"
      rw [hp, hf]
    rw [if_neg (not_not.mpr hf2)]
    show (t.switchTable o.epc).Table = _
    exact switchTable_Table_congr t ts o.epc h2.2.1 h2.1
  · rw [if_neg hf, if_pos hf]
    exact switchTable_Table_congr t ts o.epc h2.2.1 h2.1

/-- C21: in a `TrainTrial` whose step changes the epoch counter (and that does
not start a new run), the table bound to `TrainEnv` once the epoch-change block
has run is, when `driftbetween > 0`, `TrainAB2` for the new epoch 1, `TrainAB3`
for 2, `TrainAB4` for 3, `TrainAB5` for 4 and `TrainAB6` for 5, whatever the
prefix `pfix`; when `driftbetween = 0` it is the table bound before, at every
epoch. -/
theorem C21_trainTrial_epoch_table (ts : TrainSim) (o : TrialOracle)
    (hn : ts.NeedsNewRun = false) (hc : o.chg = true) :
    (ts.driftbetween > 0 →
        (o.epc = 1 → (ts.afterStep o).Table = .TrainAB2) ∧
        (o.epc = 2 → (ts.afterStep o).Table = .TrainAB3) ∧
        (o.epc = 3 → (ts.afterStep o).Table = .TrainAB4) ∧
        (o.epc = 4 → (ts.afterStep o).Table = .TrainAB5) ∧
        (o.epc = 5 → (ts.afterStep o).Table = .TrainAB6)) ∧
      (ts.driftbetween = 0 → (ts.afterStep o).Table = ts.Table) := by
  have h : (ts.afterStep o).Table = (ts.switchTable o.epc).Table := by
    unfold TrainSim.afterStep
    simp only [hn, hc, if_true, Bool.false_eq_true, if_false]
    rw [epochChange_Table]
    exact switchTable_Table_congr _ _ _ rfl rfl
  rw [h]
  refine ⟨fun hd => ⟨fun he => ?_, fun he => ?_, fun he => ?_, fun he => ?_, fun he => ?_⟩,
    fun hd => ?_⟩
  all_goals unfold TrainSim.switchTable
  · simp [hd, he]
  · simp [hd, he]
  · simp [hd, he]
  · simp [hd, he]
  · simp [hd, he]
  · simp only [hd, gt_iff_lt, lt_self_iff_false, if_false]
    split_ifs <;> rfl

/-- The statement C21 at the example run (prefix `fcurve/`,
`driftbetween = 1`) entering epoch 3. -/
theorem C21_trainTrial_epoch_table_witness :
    (exTrain.afterStep (epochStart 3)).Table = .TrainAB4 :=
  ((C21_trainTrial_epoch_table exTrain (epochStart 3) rfl rfl).1 (by decide)).2.2.1 rfl

theorem exNoDrift_epoch_table :
    (exNoDrift.afterStep (epochStart 3)).Table = .TrainAB ∧
      ({ exNoDrift with driftbetween := 1 }.afterStep (epochStart 3)).Table = .TrainAB4 := by
  decide

/-! ## `TrgOnWasOffCmp` in training mode; `NZeroStop` -/

theorem missSim_window : window missSim.ind1 missSim.ind2 = [2, 3] := by decide

/-- C23 at a training trial with two completion units, both missed: training
mode stores the count 2 in `TrgOnWasOffCmp`, where the proportion of missed
completion units is 2 / 2 = 1; test mode stores 1 on the same state. -/
theorem C23_memStats_train_stores_count :
    countWin missSim.ind1 missSim.ind2 missSim.isCmpMiss = 2 ∧
      countWin missSim.ind1 missSim.ind2 missSim.isCmp = 2 ∧
      (missSim.MemStats true).TrgOnWasOffCmp = F64.fin 2 ∧
      (missSim.MemStats false).TrgOnWasOffCmp = F64.fin 1 := by
  have h1 : countWin missSim.ind1 missSim.ind2 missSim.isCmpMiss = 2 := by
    rw [countWin, missSim_window]
    simp only [List.filter_cons, List.filter_nil, Sim.isCmpMiss, Sim.isCmp]
    norm_num [missSim, exSim, exNet, missECout, exECin]
  have h2 : countWin missSim.ind1 missSim.ind2 missSim.isCmp = 2 := by
    rw [countWin, missSim_window]
    simp only [List.filter_cons, List.filter_nil, Sim.isCmp]
    norm_num [missSim, exSim, exNet, missECout, exECin]
  refine ⟨h1, h2, ?_, ?_⟩
  · unfold Sim.MemStats
    simp only [memCounts_eq, h1]
    simp only [if_true]
    split <;> norm_num [F64.ofCount]
  · unfold Sim.MemStats
    simp only [memCounts_eq, h1, h2, gt_ofCount_zero, div_ofCount_pos 2 2 (by norm_num)]
    simp only [Bool.false_eq_true, if_false]
    norm_num
    split <;> rfl

/-- C25 at the first run of the example state, `MaxEpcs = 5` and
`NZeroStop = 1`: the trial that starts epoch 1 runs `TestAll`, whose
`LogTstEpc` finds perfect memory and raises `NZero` to 1, the value of
`NZeroStop`; the trial does not end the run (`StopNow` and `NeedsNewRun` stay
false, the trace has no `RunEnd`) and trains its pattern; the trial that
starts epoch 2 with `NZero` raised to 2 does the same. -/
theorem C25_trainTrial_ignores_nZeroStop :
    (exTrain.zeroStats (epochStart 1) exZero 0 1).NZero = 1 ∧
      (exTrain.zeroStats (epochStart 1) exZero 0 1).NZeroStop = 1 ∧
      (exTrain.TrainTrial (epochStart 1)).StopNow = false ∧
      (exTrain.TrainTrial (epochStart 1)).NeedsNewRun = false ∧
      (exTrain.TrainTrial (epochStart 1)).Trace =
        [.Step, .LogTrnEpc, .TestAll, .SetTrialName, .SetGroupName, .InitActs,
          .ApplyInputs .TrainAB2, .AlphaCyc true, .LogTrnTrl] ∧
      (((exTrain.TrainTrial (epochStart 1)).zeroStats (epochStart 2)
          (exTrain.zeroStats (epochStart 1) exZero 0 1) 1 1).NZero = 2) ∧
      ((exTrain.TrainTrial (epochStart 1)).TrainTrial (epochStart 2)).StopNow = false ∧
      ((exTrain.TrainTrial (epochStart 1)).TrainTrial (epochStart 2)).NeedsNewRun = false ∧
      TrialEvent.RunEnd ∉ ((exTrain.TrainTrial (epochStart 1)).TrainTrial (epochStart 2)).Trace := by
  refine ⟨?_, ?_, by decide, by decide, by decide, ?_, by decide, by decide, by decide⟩
  · norm_num [TrainSim.zeroStats, ZeroStats.LogTstEpc, exTrain, epochStart, exZero]
  · norm_num [TrainSim.zeroStats, ZeroStats.LogTstEpc, exTrain, epochStart, exZero]
  · norm_num [TrainSim.zeroStats, ZeroStats.LogTstEpc, exTrain, epochStart, exZero]
    decide

/-! ## The decoding of the experiment number -/

theorem New_in_range (expnum epcs : Int) (h0 : 0 ≤ expnum) (h1 : expnum < 243) :
    New expnum epcs =
      { expnum := expnum, exptype := 0, interval := expnum % 9, drifttype := expnum / 9,
        pfix := "fcurve/", ttrav := 0, smithetal := 0, lvc := 0, cvcn := 4, do_sequences := 0,
        seq_numact := 0, seq_tce := 0, MaxEpcs := epcs } := by
  have hne : expnum ≠ -1 := by omega
  have e1 : Int.tdiv expnum (9 * (27 + 0)) = 0 := by
    rw [Int.tdiv_eq_ediv h0 (by norm_num)]
    omega
  have e2 : Int.tmod expnum 9 = expnum % 9 := Int.tmod_eq_emod h0 (by norm_num)
  have e3 : Int.tdiv expnum 9 = expnum / 9 := Int.tdiv_eq_ediv h0 (by norm_num)
  have n1 : ¬ (expnum > 500 ∧ expnum < 550) := by omega
  have n2 : ¬ (expnum > 550 ∧ expnum < 600) := by omega
  have n3 : ¬ (expnum > 600 ∧ expnum < 700) := by omega
  have n4 : ¬ (expnum > 700 ∧ expnum < 800) := by omega
  have n5 : ¬ (expnum > 800) := by omega
  have n6 : ¬ (expnum ≥ 9 * (27 + 0) ∧ expnum < 500) := by omega
  unfold New
  simp only [hne, if_false, n1, n2, n3, n4, n5, n6, ExpCode.decode, e1, e2, e3]
  simp

/-- C30: for every experiment number `expnum` with `0 <= expnum < 243`
(`nints * drifttypes = 9 * 27`), `New` decodes `interval = expnum mod 9` and
`drifttype = expnum div 9` with `exptype = 0` and the prefix `fcurve/`, so
that `expnum = 9 * drifttype + interval` with `0 <= interval < 9` and
`0 <= drifttype < 27`; and another experiment number of that range with the
same `drifttype` and `interval` is the same number. -/
theorem C30_new_decodes_expnum (expnum epcs : Int) (h0 : 0 ≤ expnum) (h1 : expnum < 243) :
    (New expnum epcs).interval = expnum % 9 ∧ (New expnum epcs).drifttype = expnum / 9 ∧
      (New expnum epcs).exptype = 0 ∧ (New expnum epcs).pfix = "fcurve/" ∧
      expnum = 9 * (New expnum epcs).drifttype + (New expnum epcs).interval ∧
      (0 ≤ (New expnum epcs).interval ∧ (New expnum epcs).interval < 9) ∧
      (0 ≤ (New expnum epcs).drifttype ∧ (New expnum epcs).drifttype < 27) ∧
      ∀ other epcs2 : Int, 0 ≤ other → other < 243 →
        (New other epcs2).drifttype = (New expnum epcs).drifttype →
        (New other epcs2).interval = (New expnum epcs).interval → other = expnum := by
  rw [New_in_range expnum epcs h0 h1]
  refine ⟨rfl, rfl, rfl, rfl, ?_, ⟨?_, ?_⟩, ⟨?_, ?_⟩, ?_⟩
  · show expnum = 9 * (expnum / 9) + expnum % 9
    omega
  · show 0 ≤ expnum % 9
    omega
  · show expnum % 9 < 9
    omega
  · show 0 ≤ expnum / 9
    omega
  · show expnum / 9 < 27
    omega
  · intro other epcs2 g0 g1
    rw [New_in_range other epcs2 g0 g1]
    intro hd hi
    have hd2 : other / 9 = expnum / 9 := hd
    have hi2 : other % 9 = expnum % 9 := hi
    omega

/-- The statement C30 at experiment number 104: drift type 11 (the expanding
condition) at retention interval 5. -/
theorem C30_new_decodes_expnum_witness :
    (New 104 5).interval = 5 ∧ (New 104 5).drifttype = 11 ∧ (New 104 5).pfix = "fcurve/" := by
  have h := C30_new_decodes_expnum 104 5 (by norm_num) (by norm_num)
  exact ⟨h.1.trans (by norm_num), h.2.1.trans (by norm_num), h.2.2.2.1⟩

/-! ## The spacing schedule of the expanding, contracting and equal conditions -/

theorem pow2Int_nat (n : Nat) : pow2Int (n : Int) = 2 ^ n := by
  unfold pow2Int truncInt
  have h : (2 : ℚ) ^ ((n : Int)) = (((2 ^ n : Int)) : ℚ) := by
    rw [zpow_natCast]
    push_cast
    rfl
  rw [h, if_pos (by positivity), Int.floor_intCast]

theorem truncInt_int (z : Int) : truncInt (z : ℚ) = z := by
  unfold truncInt
  split_ifs
  · exact Int.floor_intCast z
  · exact Int.ceil_intCast z

theorem loop_invariant {α : Type} (f : α → α) (P Q : α → Prop) (hP : ∀ a, P a → P (f a))
    (hQ : ∀ a, P a → Q (f a)) (a : α) (n : Nat) (hn : 1 ≤ n) (ha : P a) :
    Q ((List.range n).foldl (fun v _ => f v) a) := by
  obtain ⟨m, rfl⟩ : ∃ m, n = m + 1 := ⟨n - 1, by omega⟩
  rw [List.range_succ, List.foldl_append, List.foldl_cons, List.foldl_nil]
  apply hQ
  clear hn
  induction m with
  | zero => exact ha
  | succ k ih =>
    rw [List.range_succ, List.foldl_append, List.foldl_cons, List.foldl_nil]
    exact hP _ ih

theorem set_four (l : List Int) (h : l.length = 5) (a b c d : Int) :
    ((((l.set 0 a).set 1 b).set 2 c).set 3 d).take 4 = [a, b, c, d] ∧
      ((((l.set 0 a).set 1 b).set 2 c).set 3 d).length = 5 := by
  match l, h with
  | [_, _, _, _, _], _ => exact ⟨rfl, rfl⟩

theorem pool_expanding (v : FillVars) (h1 : v.fscale = 6) (h2 : v.expand = 2)
    (h3 : v.eqmatch = 0) :
    ConfigPats.pool 11 5 v =
      { v with fillers := (((v.fillers.set 0 2).set 1 2).set 2 64).set 3 256 } := by
  have p1 : pow2Int 1 = 2 := pow2Int_nat 1
  have p6 : pow2Int 6 = 64 := pow2Int_nat 6
  have t : truncInt (256 : ℚ) = 256 := by
    have h := truncInt_int 256
    simpa using h
  obtain ⟨fs, ex, eq, fr, db, fl⟩ := v
  simp only at h1 h2 h3
  subst h1 h2 h3
  unfold ConfigPats.pool
  norm_num [p1, p6, t]

theorem pool_contracting (v : FillVars) (h1 : v.fscale = 8) (h2 : v.expand = 1 / 2) :
    ConfigPats.pool 12 5 v =
      { v with fillers := (((v.fillers.set 0 2).set 1 2).set 2 256).set 3 64 } := by
  have p1 : pow2Int 1 = 2 := pow2Int_nat 1
  have p8 : pow2Int 8 = 256 := pow2Int_nat 8
  have t : truncInt (64 : ℚ) = 64 := by
    have h := truncInt_int 64
    simpa using h
  obtain ⟨fs, ex, eq, fr, db, fl⟩ := v
  simp only at h1 h2
  subst h1 h2
  unfold ConfigPats.pool
  norm_num [p1, p8, t]

theorem pool_equal (v : FillVars) (h2 : v.expand = 1) (h3 : v.eqmatch = 1)
    (h4 : v.fractioned = 1) :
    ConfigPats.pool 13 5 v =
      { v with fillers := (((v.fillers.set 0 2).set 1 2).set 2 160).set 3 160 } := by
  have p1 : pow2Int 1 = 2 := pow2Int_nat 1
  have t : truncInt (160 : ℚ) = 160 := by
    have h := truncInt_int 160
    simpa using h
  obtain ⟨fs, ex, eq, fr, db, fl⟩ := v
  simp only at h2 h3 h4
  subst h2 h3 h4
  unfold ConfigPats.pool
  norm_num [p1, t]

theorem defaults_expanding (db : Int) (f0 : List Int) :
    ConfigPats.defaults 11 db f0 =
      { fscale := 6, expand := 2, eqmatch := 0, fractioned := 1, driftbetween := db,
        fillers := f0 } := by
  unfold ConfigPats.defaults
  norm_num

theorem defaults_contracting (db : Int) (f0 : List Int) :
    ConfigPats.defaults 12 db f0 =
      { fscale := 8, expand := 1 / 2, eqmatch := 0, fractioned := 1, driftbetween := db,
        fillers := f0 } := by
  unfold ConfigPats.defaults
  norm_num

theorem defaults_equal (db : Int) (f0 : List Int) :
    ConfigPats.defaults 13 db f0 =
      { fscale := 13, expand := 1, eqmatch := 1, fractioned := 1, driftbetween := db,
        fillers := f0 } := by
  unfold ConfigPats.defaults
  norm_num

/-- C26: with `MaxEpcs = 5` and at least one context column (`cvcn >= 1`, so
that the loop over the pools runs), the entries 0 to 3 of `fillers` after
`ConfigPats` are 2, 2, 64, 256 for drift type 11 (expanding), 2, 2, 256, 64
for drift type 12 (contracting) and 2, 2, 160, 160 for drift type 13 (equal
match), whatever `driftbetween` and the array held before; each schedule adds
up to 324. -/
theorem C26_configPats_spacing_schedule (cvcn db : Int) (f0 : List Int)
    (hc : 1 ≤ cvcn) (hl : f0.length = 5) :
    (ConfigPats.fillers cvcn 11 5 db f0).take 4 = [2, 2, 64, 256] ∧
      (ConfigPats.fillers cvcn 12 5 db f0).take 4 = [2, 2, 256, 64] ∧
      (ConfigPats.fillers cvcn 13 5 db f0).take 4 = [2, 2, 160, 160] ∧
      ((ConfigPats.fillers cvcn 11 5 db f0).take 4).sum = 324 ∧
      ((ConfigPats.fillers cvcn 12 5 db f0).take 4).sum = 324 ∧
      ((ConfigPats.fillers cvcn 13 5 db f0).take 4).sum = 324 := by
  have hn : 1 ≤ (cvcn * 2).toNat := by omega
  have e11 : (ConfigPats.fillers cvcn 11 5 db f0).take 4 = [2, 2, 64, 256] := by
    unfold ConfigPats.fillers
    refine loop_invariant (ConfigPats.pool 11 5)
      (fun v => v.fscale = 6 ∧ v.expand = 2 ∧ v.eqmatch = 0 ∧ v.fillers.length = 5)
      (fun v => v.fillers.take 4 = [2, 2, 64, 256]) ?_ ?_ _ _ hn ?_
    · rintro v ⟨h1, h2, h3, h4⟩
      rw [pool_expanding v h1 h2 h3]
      exact ⟨h1, h2, h3, (set_four v.fillers h4 2 2 64 256).2⟩
    · rintro v ⟨h1, h2, h3, h4⟩
      rw [pool_expanding v h1 h2 h3]
      exact (set_four v.fillers h4 2 2 64 256).1
    · rw [defaults_expanding]
      exact ⟨rfl, rfl, rfl, hl⟩
  have e12 : (ConfigPats.fillers cvcn 12 5 db f0).take 4 = [2, 2, 256, 64] := by
    unfold ConfigPats.fillers
    refine loop_invariant (ConfigPats.pool 12 5)
      (fun v => v.fscale = 8 ∧ v.expand = 1 / 2 ∧ v.fillers.length = 5)
      (fun v => v.fillers.take 4 = [2, 2, 256, 64]) ?_ ?_ _ _ hn ?_
    · rintro v ⟨h1, h2, h4⟩
      rw [pool_contracting v h1 h2]
      exact ⟨h1, h2, (set_four v.fillers h4 2 2 256 64).2⟩
    · rintro v ⟨h1, h2, h4⟩
      rw [pool_contracting v h1 h2]
      exact (set_four v.fillers h4 2 2 256 64).1
    · rw [defaults_contracting]
      exact ⟨rfl, rfl, hl⟩
  have e13 : (ConfigPats.fillers cvcn 13 5 db f0).take 4 = [2, 2, 160, 160] := by
    unfold ConfigPats.fillers
    refine loop_invariant (ConfigPats.pool 13 5)
      (fun v => v.expand = 1 ∧ v.eqmatch = 1 ∧ v.fractioned = 1 ∧ v.fillers.length = 5)
      (fun v => v.fillers.take 4 = [2, 2, 160, 160]) ?_ ?_ _ _ hn ?_
    · rintro v ⟨h1, h2, h3, h4⟩
      rw [pool_equal v h1 h2 h3]
      exact ⟨h1, h2, h3, (set_four v.fillers h4 2 2 160 160).2⟩
    · rintro v ⟨h1, h2, h3, h4⟩
      rw [pool_equal v h1 h2 h3]
      exact (set_four v.fillers h4 2 2 160 160).1
    · rw [defaults_equal]
      exact ⟨rfl, rfl, rfl, hl⟩
  refine ⟨e11, e12, e13, ?_, ?_, ?_⟩
  · rw [e11]
    rfl
  · rw [e12]
    rfl
  · rw [e13]
    rfl

/-- The statement C26 with the four context columns of `New`, the array
zeroed, as it is when `ConfigPats` first runs. -/
theorem C26_configPats_spacing_schedule_witness :
    (ConfigPats.fillers 4 11 5 1 [0, 0, 0, 0, 0]).take 4 = [2, 2, 64, 256] ∧
      (ConfigPats.fillers 4 12 5 1 [0, 0, 0, 0, 0]).take 4 = [2, 2, 256, 64] ∧
      (ConfigPats.fillers 4 13 5 1 [0, 0, 0, 0, 0]).take 4 = [2, 2, 160, 160] := by
  have h := C26_configPats_spacing_schedule 4 1 [0, 0, 0, 0, 0] (by norm_num) rfl
  exact ⟨h.1, h.2.1, h.2.2.1⟩

/-! ## The epoch accumulators -/

/-- C24 at an epoch of one trial that ends with `SSE = 3`: after
`PreTrainTrial` the trial is counted twice, so `LogTrnEpc` stores
`EpcPctErr = 2`, `EpcPctCor = -1` and `EpcSSE = 6`; after `TrainTrial` with
`Cycs = 2` it is counted twice as well; after `TrainTrial` with `Cycs = 1` it
is counted once and `EpcPctErr = 1`. -/
theorem C24_trial_counted_once_per_alphaCyc :
    (EpochStats.InitStats.PreTrainTrial errOut).CntErr = 2 ∧
      ((EpochStats.InitStats.PreTrainTrial errOut).LogTrnEpc 1).EpcPctErr = 2 ∧
      ((EpochStats.InitStats.PreTrainTrial errOut).LogTrnEpc 1).EpcPctCor = -1 ∧
      ((EpochStats.InitStats.PreTrainTrial errOut).LogTrnEpc 1).EpcSSE = 6 ∧
      (EpochStats.InitStats.TrainTrial 2 (fun _ => errOut)).CntErr = 2 ∧
      ((EpochStats.InitStats.TrainTrial 2 (fun _ => errOut)).LogTrnEpc 1).EpcPctErr = 2 ∧
      ((EpochStats.InitStats.TrainTrial 1 (fun _ => errOut)).LogTrnEpc 1).EpcPctErr = 1 := by
  have r2 : List.range (2 : Int).toNat = [0, 1] := rfl
  have r1 : List.range (1 : Int).toNat = [0] := rfl
  have r0 : List.range 1 = [0] := rfl
  refine ⟨?_, ?_, ?_, ?_, ?_, ?_, ?_⟩ <;>
    norm_num [EpochStats.PreTrainTrial, EpochStats.TrainTrial, EpochStats.AlphaCyc,
      EpochStats.TrialStats, EpochStats.LogTrnEpc, EpochStats.InitStats, errOut, r0, r1, r2]

/-! ## `LrateMod` in `float32` -/

theorem nearest_eval (x y : ℚ) (e m : Int) (h1 : (2 : ℚ) ^ e ≤ x) (h2 : x < (2 : ℚ) ^ (e + 1))
    (h3 : -126 ≤ e) (h4 : |x / (2 : ℚ) ^ (e - 23) - m| < 1 / 2)
    (h5 : y = (m : ℚ) * (2 : ℚ) ^ (e - 23)) : Binary32.nearest x = y := by
  have hx : 0 < x := lt_of_lt_of_le (Binary32.two_zpow_pos e) h1
  rw [h5]
  exact Binary32.nearest_eq_of x e m (by rw [abs_of_pos hx]; exact h1)
    (by rw [abs_of_pos hx]; exact h2) h3 (Binary32.roundEven_eq_of_abs_lt _ _ h4)

theorem Defaults32_eq :
    ErrLrateModParams.Defaults32 =
      { Base := 5368709 / 536870912, Err := 1,
        Range := { Min := 5452595 / 8388608, Max := 2139095 / 2097152 } } := by
  have h1 : Binary32.nearest (1 / 100) = 5368709 / 536870912 :=
    nearest_eval _ _ (-7) (10737418) (by norm_num) (by norm_num) (by norm_num)
      (by norm_num [abs_lt]) (by norm_num)
  have h2 : Binary32.nearest (65 / 100) = 5452595 / 8388608 :=
    nearest_eval _ _ (-1) (10905190) (by norm_num) (by norm_num) (by norm_num)
      (by norm_num [abs_lt]) (by norm_num)
  have h3 : Binary32.nearest (102 / 100) = 2139095 / 2097152 :=
    nearest_eval _ _ (0) (8556380) (by norm_num) (by norm_num) (by norm_num)
      (by norm_num [abs_lt]) (by norm_num)
  unfold ErrLrateModParams.Defaults32
  rw [h1, h2, h3]

/-- C9 fails as stated: at the default parameters and `err = 0.8` (as
`float32` values) `LrateMod` returns `13802665 / 33554432` (0.41135147), which is
not the linear interpolation (0.41135144...); the code multiplies by the
rounded reciprocal `Scale()`, and even the `float32` evaluation of the formula
with its division gives another value, `1725333 / 4194304` (0.41135144). -/
theorem C9_lrateMod32_not_interpolation_counterexample :
    ErrLrateModParams.Defaults32.Range.Min < ErrLrateModParams.Defaults32.Range.Max ∧
      ErrLrateModParams.Defaults32.Range.Min ≤ 13421773 / 16777216 ∧
      13421773 / 16777216 ≤ ErrLrateModParams.Defaults32.Range.Max ∧
      Binary32.nearest (8 / 10) = 13421773 / 16777216 ∧
      ErrLrateModParams.Defaults32.LrateMod32 (13421773 / 16777216) =
        .fin (13802665 / 33554432) ∧
      (13802665 / 33554432 : ℚ) ≠
        ErrLrateModParams.Defaults32.Base +
          ((13421773 / 16777216 - ErrLrateModParams.Defaults32.Range.Min) /
            (ErrLrateModParams.Defaults32.Range.Max - ErrLrateModParams.Defaults32.Range.Min)) *
            (1 - ErrLrateModParams.Defaults32.Base) ∧
      Binary32.add (.fin ErrLrateModParams.Defaults32.Base)
        (Binary32.mul
          (Binary32.div
            (Binary32.sub (.fin (13421773 / 16777216)) (.fin ErrLrateModParams.Defaults32.Range.Min))
            (Binary32.sub (.fin ErrLrateModParams.Defaults32.Range.Max)
              (.fin ErrLrateModParams.Defaults32.Range.Min)))
          (Binary32.sub (.fin 1) (.fin ErrLrateModParams.Defaults32.Base))) =
        .fin (1725333 / 4194304) := by
  have a1 : Binary32.ofRat (2516583 / 16777216) = .fin (2516583 / 16777216) :=
    Binary32.ofRat_exact _ (2516583) (-24) (by norm_num) (by norm_num) (by norm_num)
      (by norm_num)
  have a2 : Binary32.ofRat (3103785 / 8388608) = .fin (3103785 / 8388608) :=
    Binary32.ofRat_exact _ (3103785) (-23) (by norm_num) (by norm_num) (by norm_num)
      (by norm_num)
  have a3 : Binary32.ofRat (8388608 / 3103785) = .fin (11335957 / 4194304) :=
    Binary32.ofRat_eval _ _ (1) (11335957) (by norm_num) (by norm_num) (by norm_num)
      (by norm_num) (by norm_num [abs_lt]) (by norm_num)
  have a4 : Binary32.ofRat (28527876674931 / 70368744177664) = .fin (850197 / 2097152) :=
    Binary32.ofRat_eval _ _ (-2) (13603152) (by norm_num) (by norm_num) (by norm_num)
      (by norm_num) (by norm_num [abs_lt]) (by norm_num)
  have a5 : Binary32.ofRat (531502203 / 536870912) = .fin (4152361 / 4194304) :=
    Binary32.ofRat_eval _ _ (-1) (16609444) (by norm_num) (by norm_num) (by norm_num)
      (by norm_num) (by norm_num [abs_lt]) (by norm_num)
  have a6 : Binary32.ofRat (3530324865117 / 8796093022208) = .fin (13467121 / 33554432) :=
    Binary32.ofRat_eval _ _ (-2) (13467121) (by norm_num) (by norm_num) (by norm_num)
      (by norm_num) (by norm_num [abs_lt]) (by norm_num)
  have a7 : Binary32.ofRat (220842645 / 536870912) = .fin (13802665 / 33554432) :=
    Binary32.ofRat_eval _ _ (-2) (13802665) (by norm_num) (by norm_num) (by norm_num)
      (by norm_num) (by norm_num [abs_lt]) (by norm_num)
  have a8 : Binary32.ofRat (838861 / 2069190) = .fin (13603151 / 33554432) :=
    Binary32.ofRat_eval _ _ (-2) (13603151) (by norm_num) (by norm_num) (by norm_num)
      (by norm_num) (by norm_num [abs_lt]) (by norm_num)
  have a9 : Binary32.ofRat (56485193689511 / 140737488355328) = .fin (841695 / 2097152) :=
    Binary32.ofRat_eval _ _ (-2) (13467120) (by norm_num) (by norm_num) (by norm_num)
      (by norm_num) (by norm_num [abs_lt]) (by norm_num)
  have a10 : Binary32.ofRat (220842629 / 536870912) = .fin (1725333 / 4194304) :=
    Binary32.ofRat_eval _ _ (-2) (13802664) (by norm_num) (by norm_num) (by norm_num)
      (by norm_num) (by norm_num [abs_lt]) (by norm_num)
  rw [Defaults32_eq]
  refine ⟨by norm_num, by norm_num, by norm_num, ?_, ?_, by norm_num, ?_⟩
  · exact nearest_eval _ _ (-1) (13421773) (by norm_num) (by norm_num) (by norm_num)
      (by norm_num [abs_lt]) (by norm_num)
  · norm_num [ErrLrateModParams.LrateMod32, minmax.F32.NormVal32, minmax.F32.Scale32,
      minmax.F32.Range32, minmax.F32.ClipVal, Binary32.add_fin, Binary32.sub_fin,
      Binary32.mul_fin, Binary32.div, 
      a1, a2, a3, a4, a5, a6, a7, a8, a9, a10]
  · norm_num [ErrLrateModParams.LrateMod32, minmax.F32.NormVal32, minmax.F32.Scale32,
      minmax.F32.Range32, minmax.F32.ClipVal, Binary32.add_fin, Binary32.sub_fin,
      Binary32.mul_fin, Binary32.div, 
      a1, a2, a3, a4, a5, a6, a7, a8, a9, a10]

/-- C9 as amended: for parameters with `0 <= Base <= 1`, `Range.Min` and
`Range.Max` of magnitude at most `2 ^ 100` and a range of at least `2 ^ -100`,
and every `err` in `[Range.Min, Range.Max]`, the result of `LrateMod` is finite
and differs from the linear interpolation
`Base + ((err - Range.Min) / (Range.Max - Range.Min)) * (1 - Base)` by at most
`2 ^ -19`; the interpolation is what `LrateMod` gives in exact arithmetic. -/
theorem C9_lrateMod32_near_interpolation (em : ErrLrateModParams) (err : ℚ)
    (hb0 : 0 ≤ em.Base) (hb1 : em.Base ≤ 1)
    (hMin : |em.Range.Min| ≤ 2 ^ 100) (hMax : |em.Range.Max| ≤ 2 ^ 100)
    (hR : 1 / 2 ^ 100 ≤ em.Range.Max - em.Range.Min)
    (h1 : em.Range.Min ≤ err) (h2 : err ≤ em.Range.Max) :
    (∃ m : ℚ, em.LrateMod32 err = .fin m ∧
      |m - (em.Base + ((err - em.Range.Min) / (em.Range.Max - em.Range.Min)) * (1 - em.Base))|
        ≤ 1 / 2 ^ 19) ∧
      em.LrateMod err =
        em.Base + ((err - em.Range.Min) / (em.Range.Max - em.Range.Min)) * (1 - em.Base) := by
  have hB2 : |em.Base| ≤ 1267650600228229401496703205376 := by
    rw [abs_of_nonneg hb0]
    exact le_trans hb1 (by norm_num)
  have hMin2 : |em.Range.Min| ≤ 1267650600228229401496703205376 := le_trans hMin (by norm_num)
  have hMax2 : |em.Range.Max| ≤ 1267650600228229401496703205376 := le_trans hMax (by norm_num)
  have hR2 : 1 / 1267650600228229401496703205376 ≤ em.Range.Max - em.Range.Min :=
    le_trans (by norm_num) hR
  have hRpos : 0 < em.Range.Max - em.Range.Min := lt_of_lt_of_le (by norm_num) hR2
  refine ⟨⟨_, em.LrateMod32_mid err hB2 hMin2 hMax2 hR2 h1 h2, ?_⟩,
    LrateMod_linear em err (by linarith) h1 h2⟩
  have hRle : em.Range.Max - em.Range.Min ≤ 2535301200456458802993406410752 := by
    rw [abs_le] at hMin2 hMax2
    linarith [hMax2.2, hMin2.1]
  have hD0 : 0 ≤ err - em.Range.Min := by linarith
  have hDR : err - em.Range.Min ≤ em.Range.Max - em.Range.Min := by linarith
  obtain ⟨-, -, -, -, -, hn0, hn2, hnt⟩ :=
    Binary32.norm_chain (em.Range.Max - em.Range.Min) (err - em.Range.Min) hR2 hRle hD0 hDR
  have ht0 : 0 ≤ (err - em.Range.Min) / (em.Range.Max - em.Range.Min) :=
    div_nonneg hD0 (le_of_lt hRpos)
  have ht1 : (err - em.Range.Min) / (em.Range.Max - em.Range.Min) ≤ 1 := by
    rw [div_le_one hRpos]
    exact hDR
  generalize (err - em.Range.Min) / (em.Range.Max - em.Range.Min) = t at hnt ht0 ht1 ⊢
  generalize Binary32.nearest (Binary32.nearest (err - em.Range.Min) *
    Binary32.nearest (1 / Binary32.nearest (em.Range.Max - em.Range.Min))) = n at hn0 hn2 hnt ⊢
  rw [abs_le] at hnt
  have hC0 : 0 ≤ 1 - em.Base := by linarith
  have hC1 : 1 - em.Base ≤ 1 := by linarith
  have hc := Binary32.nearest_between hC0
  have hc0 : 0 ≤ Binary32.nearest (1 - em.Base) := Binary32.nearest_nonneg hC0
  have hc1 : Binary32.nearest (1 - em.Base) ≤ 1 := by
    have := Binary32.nearest_mono hC1
    rwa [Binary32.nearest_one] at this
  generalize Binary32.nearest (1 - em.Base) = c at hc hc0 hc1 ⊢
  generalize 1 - em.Base = C at hC0 hC1 hc ⊢
  have hnc0 : 0 ≤ n * c := mul_nonneg hn0 hc0
  have hnc2 : n * c ≤ 2 := by
    calc n * c ≤ 2 * 1 := mul_le_mul hn2 hc1 hc0 (by norm_num)
      _ = 2 := by norm_num
  have k1 : (n - t) * c ≤ 10 / 16777216 := by
    have a1 : (n - t) * c ≤ 10 / 16777216 * c := mul_le_mul_of_nonneg_right (by linarith) hc0
    have a2 : (10 : ℚ) / 16777216 * c ≤ 10 / 16777216 * 1 :=
      mul_le_mul_of_nonneg_left hc1 (by norm_num)
    linarith
  have k2 : -(10 / 16777216) ≤ (n - t) * c := by
    have a1 : -(10 / 16777216) * c ≤ (n - t) * c := mul_le_mul_of_nonneg_right (by linarith) hc0
    have a2 : (10 : ℚ) / 16777216 * c ≤ 10 / 16777216 * 1 :=
      mul_le_mul_of_nonneg_left hc1 (by norm_num)
    linarith
  have k3 : t * (c - C) ≤ 2 / 16777216 := by
    have a1 : t * (c - C) ≤ t * (2 / 16777216) := mul_le_mul_of_nonneg_left (by linarith) ht0
    have a2 : t * (2 / 16777216) ≤ 1 * (2 / 16777216) :=
      mul_le_mul_of_nonneg_right ht1 (by norm_num)
    linarith
  have k4 : -(2 / 16777216) ≤ t * (c - C) := by
    have a1 : t * (-(2 / 16777216)) ≤ t * (c - C) := mul_le_mul_of_nonneg_left (by linarith) ht0
    have a2 : t * (2 / 16777216) ≤ 1 * (2 / 16777216) :=
      mul_le_mul_of_nonneg_right ht1 (by norm_num)
    linarith
  have k5 : n * c - t * C = (n - t) * c + t * (c - C) := by ring
  have hp := Binary32.nearest_between hnc0
  have hp0 : 0 ≤ Binary32.nearest (n * c) := Binary32.nearest_nonneg hnc0
  generalize Binary32.nearest (n * c) = p at hp hp0 ⊢
  have hp4 : p ≤ 3 := by linarith [hp.2]
  have hm := Binary32.nearest_between (x := em.Base + p) (by linarith)
  generalize Binary32.nearest (em.Base + p) = m at hm ⊢
  have hu : (1 : ℚ) / 2 ^ 19 = 32 / 16777216 := by norm_num
  rw [abs_le, hu]
  constructor
  · linarith [hm.1, hp.1]
  · linarith [hm.2, hp.2]

/-- The statement C9 as amended at the default parameters and `err = 0.8` (as
`float32` values). -/
theorem C9_lrateMod32_near_interpolation_witness :
    ∃ m : ℚ, ErrLrateModParams.Defaults32.LrateMod32 (13421773 / 16777216) = .fin m ∧
      |m - (ErrLrateModParams.Defaults32.Base +
          ((13421773 / 16777216 - ErrLrateModParams.Defaults32.Range.Min) /
            (ErrLrateModParams.Defaults32.Range.Max -
              ErrLrateModParams.Defaults32.Range.Min)) *
            (1 - ErrLrateModParams.Defaults32.Base))| ≤ 1 / 2 ^ 19 :=
  (C9_lrateMod32_near_interpolation ErrLrateModParams.Defaults32 (13421773 / 16777216)
    (by rw [Defaults32_eq]; norm_num) (by rw [Defaults32_eq]; norm_num)
    (by rw [Defaults32_eq]; norm_num [abs_of_pos])
    (by rw [Defaults32_eq]; norm_num [abs_of_pos])
    (by rw [Defaults32_eq]; norm_num) (by rw [Defaults32_eq]; norm_num)
    (by rw [Defaults32_eq]; norm_num)).1


/-! ## `LrateMod` in `float32`, outside the range and on a degenerate range -/

theorem nearest_error_unit (x : ℚ) (h0 : 0 ≤ x) (h1 : x ≤ 1) :
    |Binary32.nearest x - x| ≤ 1 / 33554432 := by
  rcases eq_or_lt_of_le h1 with h | h
  · rw [h, Binary32.nearest_one]
    norm_num
  rcases eq_or_lt_of_le h0 with h' | h'
  · rw [← h', Binary32.nearest_zero]
    norm_num
  have hlog : Int.log 2 |x| < 0 := by
    rw [← Int.lt_zpow_iff_log_lt (by norm_num) (abs_pos.mpr (ne_of_gt h'))]
    rw [abs_of_pos h']
    simpa using h
  have hq : Binary32.quantum x ≤ -24 := by
    unfold Binary32.quantum
    omega
  have hp := Binary32.two_zpow_pos (Binary32.quantum x)
  have hle : (2 : ℚ) ^ Binary32.quantum x ≤ (2 : ℚ) ^ (-24 : Int) := Binary32.two_zpow_mono hq
  have e1 : (2 : ℚ) ^ (-24 : Int) = 1 / 16777216 := by norm_num
  rw [e1] at hle
  rw [Binary32.nearest_sub_eq, abs_mul, abs_of_pos hp]
  have := Binary32.abs_roundEven_sub_le (x / (2 : ℚ) ^ Binary32.quantum x)
  calc |((Binary32.roundEven (x / (2 : ℚ) ^ Binary32.quantum x) : Int) : ℚ) -
        x / (2 : ℚ) ^ Binary32.quantum x| * (2 : ℚ) ^ Binary32.quantum x
      ≤ 1 / 2 * (1 / 16777216) := mul_le_mul this hle (le_of_lt hp) (by norm_num)
    _ = 1 / 33554432 := by norm_num

theorem nearest_eq_one (y : ℚ) (h1 : 1 - 1 / 33554432 ≤ y) (h2 : y ≤ 1 + 1 / 33554432) :
    Binary32.nearest y = 1 := by
  have lo : Binary32.nearest (1 - 1 / 33554432) = 1 := by
    have h := Binary32.nearest_eq_of (1 - 1 / 33554432) (-1) 16777216
      (by norm_num [abs_of_pos]) (by norm_num [abs_of_pos]) (by norm_num)
      (Binary32.roundEven_tie_even _ _ (by norm_num) (Or.inr (by norm_num)))
    rw [h]
    norm_num
  have hi : Binary32.nearest (1 + 1 / 33554432) = 1 := by
    have h := Binary32.nearest_eq_of (1 + 1 / 33554432) 0 8388608
      (by norm_num [abs_of_pos]) (by norm_num [abs_of_pos]) (by norm_num)
      (Binary32.roundEven_eq_of_abs_lt _ _ (by norm_num [abs_lt]))
    rw [h]
    norm_num
  have a := Binary32.nearest_mono h1
  have b := Binary32.nearest_mono h2
  rw [lo] at a
  rw [hi] at b
  exact le_antisymm b a

theorem quantum_ge (x : ℚ) : -149 ≤ Binary32.quantum x := by
  unfold Binary32.quantum
  omega

theorem nearest_idem (x : ℚ) : Binary32.nearest (Binary32.nearest x) = Binary32.nearest x := by
  by_cases hx : x = 0
  · rw [hx, Binary32.nearest_zero, Binary32.nearest_zero]
  have hq := quantum_ge x
  have hp := Binary32.two_zpow_pos (Binary32.quantum x)
  have hlog := Binary32.lt_zpow_log_succ x
  have hLq : Int.log 2 |x| + 1 - Binary32.quantum x ≤ 24 := by
    unfold Binary32.quantum
    omega
  have hz : |x / (2 : ℚ) ^ Binary32.quantum x| ≤ (((2 : Int) ^ 24 : Int) : ℚ) := by
    rw [abs_div, abs_of_pos hp, div_le_iff₀ hp]
    have h1 : (2 : ℚ) ^ (Int.log 2 |x| + 1) ≤ (2 : ℚ) ^ (24 + Binary32.quantum x) :=
      Binary32.two_zpow_mono (by omega)
    have h3 := Binary32.two_zpow_add 24 (Binary32.quantum x)
    have h2 : (2 : ℚ) ^ (24 : Int) = (((2 : Int) ^ 24 : Int) : ℚ) := by norm_num
    rw [← h2]
    linarith
  rw [abs_le] at hz
  have hM1 : Binary32.roundEven (x / (2 : ℚ) ^ Binary32.quantum x) ≤ 2 ^ 24 :=
    Binary32.roundEven_le_int hz.2
  have hM2 : -(2 ^ 24) ≤ Binary32.roundEven (x / (2 : ℚ) ^ Binary32.quantum x) := by
    have : (((-(2 ^ 24) : Int)) : ℚ) ≤ x / (2 : ℚ) ^ Binary32.quantum x := by
      push_cast
      have := hz.1
      push_cast at this
      exact this
    exact Binary32.int_le_roundEven this
  have hn : Binary32.nearest x =
      (Binary32.roundEven (x / (2 : ℚ) ^ Binary32.quantum x) : ℚ) *
        (2 : ℚ) ^ Binary32.quantum x := rfl
  rw [hn]
  generalize Binary32.roundEven (x / (2 : ℚ) ^ Binary32.quantum x) = M at hM1 hM2
  generalize Binary32.quantum x = q at hq
  rcases lt_or_eq_of_le hM1 with h1 | h1
  · rcases lt_or_eq_of_le hM2 with h2 | h2
    · exact Binary32.nearest_fixed M q (by rw [abs_lt]; constructor <;> omega) hq
    · have e : (M : ℚ) * (2 : ℚ) ^ q = ((-1 : Int) : ℚ) * (2 : ℚ) ^ (24 + q) := by
        rw [← h2, Binary32.two_zpow_add]
        norm_num
      rw [e]
      exact Binary32.nearest_fixed (-1) (24 + q) (by norm_num) (by omega)
  · have e : (M : ℚ) * (2 : ℚ) ^ q = ((1 : Int) : ℚ) * (2 : ℚ) ^ (24 + q) := by
      rw [h1, Binary32.two_zpow_add]
      norm_num
    rw [e]
    exact Binary32.nearest_fixed 1 (24 + q) (by norm_num) (by omega)

/-- Above the range, with `0 <= Base <= 1`, `LrateMod` returns exactly 1 in
`float32`: `1 - Base` is rounded by at most `2 ^ -25`, and the sum rounds back
to 1. -/
theorem LrateMod32_above_max (em : ErrLrateModParams) (err : ℚ)
    (hb0 : 0 ≤ em.Base) (hb1 : em.Base ≤ 1) (hr : em.Range.Min ≤ em.Range.Max)
    (h : em.Range.Max < err) : em.LrateMod32 err = .fin 1 := by
  have hn : ¬ err < em.Range.Min := not_lt.mpr (le_of_lt (lt_of_le_of_lt hr h))
  have hC0 : 0 ≤ 1 - em.Base := by linarith
  have hC1 : 1 - em.Base ≤ 1 := by linarith
  have hc := nearest_error_unit (1 - em.Base) hC0 hC1
  have hc0 : 0 ≤ Binary32.nearest (1 - em.Base) := Binary32.nearest_nonneg hC0
  have hc1 : Binary32.nearest (1 - em.Base) ≤ 1 := by
    have := Binary32.nearest_mono hC1
    rwa [Binary32.nearest_one] at this
  have hid := nearest_idem (1 - em.Base)
  have e1 : Binary32.ofRat (1 - em.Base) = .fin (Binary32.nearest (1 - em.Base)) :=
    Binary32.ofRat_eq_fin _ (by rw [abs_of_nonneg hC0]; linarith)
  unfold ErrLrateModParams.LrateMod32
  simp only [if_neg hn, gt_iff_lt, if_pos h, Binary32.sub_fin, e1, Binary32.mul_fin, one_mul]
  generalize Binary32.nearest (1 - em.Base) = c at hc hc0 hc1 hid ⊢
  have e2 : Binary32.ofRat c = .fin c := by
    have := Binary32.ofRat_eq_fin c (by rw [abs_of_nonneg hc0]; linarith)
    rw [this, hid]
  rw [e2, Binary32.add_fin]
  rw [abs_le] at hc
  have e3 := Binary32.ofRat_eq_fin (em.Base + c)
    (by rw [abs_of_nonneg (by linarith)]; linarith)
  rw [e3, nearest_eq_one (em.Base + c) (by linarith [hc.1]) (by linarith [hc.2])]

/-- Below the range, for a finite `float32` value `Base` of magnitude at most
`2 ^ 100`, `LrateMod` returns exactly `Base` in `float32`. -/
theorem LrateMod32_below_min (em : ErrLrateModParams) (err : ℚ)
    (hB : Binary32.nearest em.Base = em.Base) (hb : |em.Base| ≤ 2 ^ 100)
    (h : err < em.Range.Min) : em.LrateMod32 err = .fin em.Base := by
  have hb2 : |em.Base| ≤ 1267650600228229401496703205376 := le_trans hb (by norm_num)
  have e1 : Binary32.ofRat (1 - em.Base) = .fin (Binary32.nearest (1 - em.Base)) := by
    apply Binary32.ofRat_eq_fin
    rw [abs_le] at hb2 ⊢
    constructor <;> linarith [hb2.1, hb2.2]
  have e2 : Binary32.ofRat em.Base = .fin em.Base := by
    rw [Binary32.ofRat_eq_fin _ (le_trans hb2 (by norm_num)), hB]
  unfold ErrLrateModParams.LrateMod32
  simp only [if_pos h, Binary32.sub_fin, e1, Binary32.mul_fin, zero_mul, Binary32.ofRat_zero,
    Binary32.add_fin, add_zero, e2]

/-- On a degenerate range `Range.Min = Range.Max = m`, for a finite `float32`
value `Base` of magnitude at most `2 ^ 100`, `LrateMod(m)` is exactly `Base` in
`float32` as well: the range is 0, so `Scale()` is 0. -/
theorem LrateMod32_degenerate (em : ErrLrateModParams) (m : ℚ)
    (hmin : em.Range.Min = m) (hmax : em.Range.Max = m)
    (hB : Binary32.nearest em.Base = em.Base) (hb : |em.Base| ≤ 2 ^ 100) :
    em.LrateMod32 m = .fin em.Base := by
  have hb2 : |em.Base| ≤ 1267650600228229401496703205376 := le_trans hb (by norm_num)
  have e1 : Binary32.ofRat (1 - em.Base) = .fin (Binary32.nearest (1 - em.Base)) := by
    apply Binary32.ofRat_eq_fin
    rw [abs_le] at hb2 ⊢
    constructor <;> linarith [hb2.1, hb2.2]
  have e2 : Binary32.ofRat em.Base = .fin em.Base := by
    rw [Binary32.ofRat_eq_fin _ (le_trans hb2 (by norm_num)), hB]
  unfold ErrLrateModParams.LrateMod32 minmax.F32.NormVal32 minmax.F32.Scale32
    minmax.F32.Range32 minmax.F32.ClipVal
  simp only [hmin, hmax, lt_irrefl, if_false, gt_iff_lt, Binary32.sub_fin, sub_self,
    Binary32.ofRat_zero, ne_eq, not_true_eq_false, Binary32.mul_fin, mul_zero, zero_mul, e1,
    Binary32.add_fin, add_zero, e2]

/-- Beyond the magnitudes of C8 and C9 the operations of `LrateMod` overflow:
with the range `[0, 2 ^ -140]` the reciprocal `1 / Range` is `+Inf`, and at
`err = Range.Min` the product `0 * Inf` makes the result `NaN`. -/
theorem LrateMod32_tiny_range_nan :
    ErrLrateModParams.LrateMod32
      { Base := 0, Err := 1,
        Range := { Min := 0, Max := 1 / 1393796574908163946345982392040522594123776 } } 0 =
      .nan := by
  have e1 : Binary32.ofRat (1 / 1393796574908163946345982392040522594123776) =
      .fin (1 / 1393796574908163946345982392040522594123776) :=
    Binary32.ofRat_exact _ 512 (-149) (by norm_num) (by norm_num) (by norm_num) (by norm_num)
  have e2 : Binary32.ofRat 1393796574908163946345982392040522594123776 = .posInf := by
    have hn : Binary32.nearest 1393796574908163946345982392040522594123776 =
        1393796574908163946345982392040522594123776 := by
      have := Binary32.nearest_fixed 1 140 (by norm_num) (by norm_num)
      norm_num at this
      exact this
    unfold Binary32.ofRat
    simp only [hn]
    norm_num
  have hr : minmax.F32.Range32
      { Min := 0, Max := 1 / 1393796574908163946345982392040522594123776 } =
      .fin (1 / 1393796574908163946345982392040522594123776) := by
    unfold minmax.F32.Range32
    rw [Binary32.sub_fin, sub_zero, e1]
  have hne : Binary32.fin (1 / 1393796574908163946345982392040522594123776) ≠ .fin 0 := by
    intro h
    injection h with h
    norm_num at h
  have hs : minmax.F32.Scale32
      { Min := 0, Max := 1 / 1393796574908163946345982392040522594123776 } = .posInf := by
    unfold minmax.F32.Scale32
    simp only [hr, if_pos hne]
    unfold Binary32.div
    norm_num [e2]
  have hc : minmax.F32.ClipVal
      { Min := 0, Max := 1 / 1393796574908163946345982392040522594123776 } 0 = 0 := by
    norm_num [minmax.F32.ClipVal]
  have hnv : minmax.F32.NormVal32
      { Min := 0, Max := 1 / 1393796574908163946345982392040522594123776 } 0 = .nan := by
    unfold minmax.F32.NormVal32
    rw [hs, hc, Binary32.sub_fin, sub_zero, Binary32.ofRat_zero]
    simp [Binary32.mul]
  unfold ErrLrateModParams.LrateMod32
  simp only [lt_irrefl, if_false, gt_iff_lt, hnv]
  norm_num [hnv, Binary32.mul, Binary32.add]

end HipSTeR
